import Mathlib

/-!
# Register mapping engine of dbus_modbustcp (`src/mappings.cpp`)

A shallow embedding of `Mappings` and `Mappings::DataIterator`:

* the register table `mDBusModbusMap` (a `QMap<int, DBusModbusData *>`) is the list of its
  (key, value) pairs in key order; a `QMap` const iterator is the list of the pairs from the
  current one on, `end()` being the empty list;
* `double` is embedded as `ℚ` (exact arithmetic), `round` is the C function of that name;
* `int` addresses, offsets and quantities are unbounded integers; `quint16`/`quint32`
  values are naturals reduced modulo `2^16`/`2^32` wherever the C++ type truncates;
* the objects behind `DBusServices`, `DBusService` and `VeQItem` (velib) are a record of what
  the code observes of them; `requestCompleted` signals are collected in a list;
* `Q_ASSERT` is the no-op of a release build and the log statements are left out.
-/

namespace Mappings

/-! ## Data model -/

/-- The enumeration `Mappings::ModbusTypes`. -/
inductive ModbusTypes
  | mb_type_none
  | mb_type_int16
  | mb_type_uint16
  | mb_type_int32
  | mb_type_uint32
  | mb_type_string
  deriving DecidableEq, Repr

/-- The enumeration `Mappings::Permissions`. -/
inductive Permissions
  | mb_perm_none
  | mb_perm_read
  | mb_perm_write
  deriving DecidableEq, Repr

/-- The enumeration `MappingErrors` carried by a request and by a `DataIterator`. -/
inductive MappingErrors
  | NoError
  | StartAddressError
  | AddressError
  | UnitIdError
  | ServiceError
  | PermissionError
  deriving DecidableEq, Repr

/-- The values of `QMetaType::Type` that `convertDbusType`, `convertToDbus` and
`convertFromDbus` name; `Other` stands for every remaining type id. -/
inductive QMetaType
  | Void | Bool | Char | Short | Int | Long | LongLong
  | UChar | UShort | UInt | ULong | ULongLong
  | Float | Double | QString | Other
  deriving DecidableEq, Repr

/-- A `QString` as its sequence of UTF-16 code units. -/
abbrev QStr := List Nat

/-- A `QByteArray` as its sequence of bytes, each `0..255`. -/
abbrev QByteArray := List Nat

/-- A `QVariant`, by the group of user types that `convertFromDbus` distinguishes:
invalid; `Float`/`Double` holding a real; the signed integer types holding an integer; the
unsigned integer types holding a natural; `Bool`; `QString`; any other valid type. -/
inductive QVariant
  | invalid
  | real (d : ℚ)
  | signed (v : Int)
  | unsigned (v : Nat)
  | bool (b : Bool)
  | string (s : QStr)
  | other (typeId : Nat)
  deriving DecidableEq

/-- The structure `Mappings::DBusModbusData`, one row of the register table. -/
structure DBusModbusData where
  deviceType : String
  objectPath : String
  modbusType : ModbusTypes
  scaleFactor : ℚ
  dbusType : QMetaType
  accessRights : Permissions
  size : Int
  deriving DecidableEq

/-- The enumeration of request kinds of `MappingRequest`. -/
inductive RequestType
  | ReadValues
  | WriteValues
  deriving DecidableEq, Repr

/-- The fields of a `MappingRequest` that `Mappings` reads and writes. -/
structure MappingRequest where
  type : RequestType
  address : Int
  unitId : Int
  quantity : Int
  data : QByteArray
  error : MappingErrors
  errorString : String
  deriving DecidableEq

/-- The method `MappingRequest::setError`. -/
def MappingRequest.setError (request : MappingRequest) (error : MappingErrors)
    (errorString : String) : MappingRequest :=
  { request with error := error, errorString := errorString }

/-- A `VeQItem *` obtained by `itemGetOrCreate`: the service root it hangs under and its
object path. -/
structure VeQItem where
  root : Nat
  objectPath : String
  deriving DecidableEq, Repr

/-- What the code observes of the backend behind `mServices`: service lookup
(`getService` followed by `getServiceRoot`, `none` for the null pointer), the value each item
currently holds, the return code `setValue` gives for an item and a value, and the trace of
the `setValue` calls made so far. -/
structure DBusServices where
  getService : String → Int → Option Nat
  value : VeQItem → QVariant
  setValueResult : VeQItem → QVariant → Int
  setValueCalls : List (VeQItem × QVariant)

/-- The call `item->getValue()`. -/
def DBusServices.getValue (services : DBusServices) (item : VeQItem) : QVariant :=
  services.value item

/-- The call `item->setValue(v)`: the call is recorded; when the backend returns 0 the item
holds `v` afterwards, otherwise the values are as before. -/
def DBusServices.setValue (services : DBusServices) (item : VeQItem) (v : QVariant) :
    Int × DBusServices :=
  let rc := services.setValueResult item v
  (rc, { services with
    value := if rc = 0 then (fun i => if i = item then v else services.value i)
             else services.value
    setValueCalls := services.setValueCalls ++ [(item, v)] })

/-- The state of `Mappings::DataIterator`; `mCurrent` is the part of the register table
from the current entry on (`[]` is `end()`), `mServiceRoot` is `none` for the null pointer. -/
structure DataIterator where
  mQuantity : Int
  mOffset : Int
  mCurrent : List (Int × DBusModbusData)
  mServiceRoot : Option Nat
  mError : MappingErrors
  mErrorString : String
  deriving DecidableEq

/-- What `mappings.cpp` takes from outside the file and the language leaves open: whether
plain `char` is a signed type, the text `QVariant::toString()` gives for a value that is not
a string, and `DataIterator::registerCount()`, which is declared in `mappings.h`. -/
structure Externals where
  charIsSigned : Bool
  variantText : QVariant → QStr
  registerCount : DataIterator → Int

/-- The object `Mappings`: its members `mServices`, `mDBusModbusMap`, `mUnitIDMap`,
`mPendingRequests` (one entry per live `VeQItemInitMonitor`, with the items it watches), and
the `requestCompleted` signals emitted so far, oldest first. -/
structure State where
  mServices : DBusServices
  mDBusModbusMap : List (Int × DBusModbusData)
  mUnitIDMap : List (Int × Int)
  mPendingRequests : List (List VeQItem × MappingRequest)
  requestCompleted : List MappingRequest

/-! ## Machine arithmetic -/

/-- The C function `round` on a double: to the nearest integer, halves away from zero. -/
def cround (x : ℚ) : Int :=
  if 0 ≤ x then ⌊x + 1 / 2⌋ else -⌊-x + 1 / 2⌋

/-- Conversion of an integer to a signed type of `w` bits (two's complement). -/
def toSigned (w : Nat) (x : Int) : Int :=
  (x + 2 ^ (w - 1)) % 2 ^ w - 2 ^ (w - 1)

/-- Conversion of an integer to an unsigned type of `w` bits. -/
def toUnsigned (w : Nat) (x : Int) : Nat :=
  (x % 2 ^ w).toNat

/-- The operator `|` on two `int` values, as the 32-bit two's complement pattern of the
result. -/
def orInt (a b : Int) : Nat :=
  toUnsigned 32 a ||| toUnsigned 32 b

/-- The template parameter `rettype` of `convertFromDbus`. -/
inductive RetType
  | qint16 | quint16 | qint32 | quint32
  deriving DecidableEq, Repr

/-- The conversion `static_cast<rettype>` of an integral value; a value outside the range of
`rettype`, where the C++ conversion from `double` is undefined, is truncated to the width. -/
def RetType.cast : RetType → Int → Int
  | .qint16, x => toSigned 16 x
  | .quint16, x => toUnsigned 16 x
  | .qint32, x => toSigned 32 x
  | .quint32, x => toUnsigned 32 x

/-- The call `QVariant::toInt()` on a signed integer value. -/
def toInt (v : Int) : Int := toSigned 32 v

/-- The call `QVariant::toUInt()` on an unsigned integer value. -/
def toUInt (v : Nat) : Nat := v % 2 ^ 32

/-- The call `QString::toLatin1()`: a code unit above 255 becomes `?`. -/
def toLatin1 (s : QStr) : QByteArray :=
  s.map (fun c => if c ≤ 255 then c else 63)

/-- The call `QVariant::toString()`. -/
def QVariant.toString (ext : Externals) : QVariant → QStr
  | .string s => s
  | v => ext.variantText v

/-- The value of `b[index]` as a plain `char` promoted to `int`. -/
def charAt (ext : Externals) (b : QByteArray) (index : Int) : Int :=
  let byte : Int := (b.getD index.toNat 0 : Nat)
  if ext.charIsSigned then toSigned 8 byte else byte

/-! ## Value codec -/

/-- The template `Mappings::convertFromDbus<rettype>`. -/
def convertFromDbus (rettype : RetType) (value : QVariant) (scaleFactor : ℚ) : Int :=
  match value with
  | .real d => rettype.cast (cround (d * scaleFactor))
  | .signed v => rettype.cast (cround ((toInt v : ℚ) * scaleFactor))
  | .unsigned v => rettype.cast (cround ((toUInt v : ℚ) * scaleFactor))
  | .bool b => rettype.cast (if b then 1 else 0)
  | _ => 0

/-- The function `Mappings::getValue`; the result is a `quint16`. -/
def getValue (ext : Externals) (dbusValue : QVariant) (modbusType : ModbusTypes)
    (offset : Int) (scaleFactor : ℚ) : Nat :=
  if dbusValue = .invalid then 0
  else
    match modbusType with
    | .mb_type_int16 => toUnsigned 16 (convertFromDbus .qint16 dbusValue scaleFactor)
    | .mb_type_uint16 => toUnsigned 16 (convertFromDbus .quint16 dbusValue scaleFactor)
    | .mb_type_int32 =>
      let v : Nat := toUnsigned 32 (convertFromDbus .qint32 dbusValue scaleFactor)
      if offset = 0 then (v >>> 16) % 2 ^ 16 else v &&& 0xFFFF
    | .mb_type_uint32 =>
      let v : Nat := toUnsigned 32 (convertFromDbus .quint32 dbusValue scaleFactor)
      if offset = 0 then (v >>> 16) % 2 ^ 16 else v &&& 0xFFFF
    | .mb_type_string =>
      let b : QByteArray := toLatin1 (dbusValue.toString ext)
      let index : Int := 2 * offset
      if (b.length : Int) ≤ index then 0
      else
        let v : Nat := toUnsigned 16 (charAt ext b index * 2 ^ 8)
        let index := index + 1
        if (b.length : Int) ≤ index then v
        else toUnsigned 16 (orInt (v : Int) (charAt ext b index))
    | .mb_type_none => 0

/-- The template `Mappings::convertToDbus<argtype>`; `value` is the `qint16` or `quint16`
argument. A quotient outside the range of `int` / `unsigned int`, where the C++ conversion
is undefined, is truncated to 32 bits. -/
def convertToDbus (dbusType : QMetaType) (value : Int) (scaleFactor : ℚ) : QVariant :=
  match dbusType with
  | .Float | .Double => .real ((value : ℚ) / scaleFactor)
  | .Char | .Short | .Int | .Long | .LongLong =>
    .signed (toSigned 32 (cround ((value : ℚ) / scaleFactor)))
  | .UChar | .UShort | .UInt | .ULong | .ULongLong =>
    .unsigned (toUnsigned 32 (cround ((value : ℚ) / scaleFactor)))
  | .Bool => .signed (toSigned 32 value)
  | _ => .invalid

/-! ## DataIterator -/

/-- The method `DataIterator::setError`. -/
def DataIterator.setError (it : DataIterator) (error : MappingErrors) (errorString : String) :
    DataIterator :=
  { it with mCurrent := [], mError := error, mErrorString := errorString }

/-- Lines 432-446 of the constructor: the device instance for a unit id, `none` where the
constructor sets `UnitIdError`. `mUnitIDMap.find` is the lookup in the list of pairs. -/
def DataIterator.deviceInstance (mUnitIDMap : List (Int × Int)) (unitId : Int) : Option Int :=
  match mUnitIDMap.lookup unitId with
  | none => if unitId < 0 ∨ unitId > 255 then none else some unitId
  | some v => some v

/-- The call `mDBusModbusMap.lowerBound(address)`: the entries from the first one with
key `>= address` on. -/
def lowerBound (map : List (Int × DBusModbusData)) (address : Int) :
    List (Int × DBusModbusData) :=
  map.dropWhile (fun e => decide (e.1 < address))

/-- The entry just before `lowerBound(address)`, which `--mCurrent` moves to; `none` when
`lowerBound(address)` is `begin()`. -/
def beforeLowerBound (map : List (Int × DBusModbusData)) (address : Int) :
    Option (Int × DBusModbusData) :=
  (map.takeWhile (fun e => decide (e.1 < address))).getLast?

/-- Lines 469-483 of the constructor, with `mCurrent` at `current`: the offset and the
service of the first entry. -/
def DataIterator.attach (self : State) (it : DataIterator) (address deviceInstance : Int)
    (current : List (Int × DBusModbusData)) : DataIterator :=
  match current with
  | [] => it
  | (key, d) :: rest =>
    let it : DataIterator := { it with mCurrent := (key, d) :: rest, mOffset := address - key }
    match self.mServices.getService d.deviceType deviceInstance with
    | none =>
      it.setError .ServiceError
        ("Error finding service with device type " ++ d.deviceType ++
          " at device instance " ++ toString deviceInstance)
    | some root => { it with mServiceRoot := some root }

/-- Lines 448-483 of the constructor, run once the device instance is known: the entry
that holds `address`, the offset into it and the service. -/
def DataIterator.locate (self : State) (it : DataIterator) (address deviceInstance : Int) :
    DataIterator :=
  match lowerBound self.mDBusModbusMap address with
  | [] =>
    it.setError .StartAddressError
      ("Modbus address " ++ toString address ++ " is not registered")
  | (key, d) :: rest =>
    if key ≠ address then
      match beforeLowerBound self.mDBusModbusMap address with
      | none =>
        it.setError .StartAddressError
          ("Modbus address " ++ toString address ++ " is not registered")
      | some p =>
        if p.1 + p.2.size ≤ address then
          it.setError .StartAddressError
            ("Modbus address " ++ toString address ++ " is not registered")
        else it.attach self address deviceInstance (p :: (key, d) :: rest)
    else it.attach self address deviceInstance ((key, d) :: rest)

/-- The iterator as the member initialisers of the constructor leave it (lines 421-425). -/
def DataIterator.init (quantity : Int) : DataIterator :=
  { mQuantity := quantity, mOffset := 0, mCurrent := [], mServiceRoot := none,
    mError := .NoError, mErrorString := "" }

/-- The constructor `DataIterator::DataIterator(mappings, address, unitId, quantity)`. -/
def DataIterator.new (self : State) (address unitId quantity : Int) : DataIterator :=
  let it := DataIterator.init quantity
  if quantity ≤ 0 then it
  else
    match DataIterator.deviceInstance self.mUnitIDMap unitId with
    | none => it.setError .UnitIdError ("Invalid unit ID: " ++ toString unitId)
    | some deviceInstance => it.locate self address deviceInstance

/-- The method `DataIterator::error`. -/
def DataIterator.error (it : DataIterator) : MappingErrors := it.mError

/-- The method `DataIterator::errorString`. -/
def DataIterator.errorString (it : DataIterator) : String := it.mErrorString

/-- The method `DataIterator::atEnd`. -/
def DataIterator.atEnd (it : DataIterator) : Bool := it.mCurrent.isEmpty

/-- The method `DataIterator::next`. -/
def DataIterator.next (it : DataIterator) : DataIterator :=
  match it.mCurrent with
  | [] => it
  | (key, d) :: rest =>
    let it : DataIterator := { it with mQuantity := it.mQuantity - 1 }
    if it.mQuantity = 0 then { it with mCurrent := [] }
    else
      let it : DataIterator := { it with mOffset := it.mOffset + 1 }
      if it.mOffset < d.size then it
      else
        let oldAddress := key
        let it : DataIterator := { it with mCurrent := rest }
        let newAddress := oldAddress + d.size
        match rest with
        | [] =>
          it.setError .AddressError
            ("Modbus address " ++ toString newAddress ++ " is not registered")
        | (key2, _) :: _ =>
          if key2 ≠ newAddress then
            it.setError .AddressError
              ("Modbus address " ++ toString newAddress ++ " is not registered")
          else { it with mOffset := 0 }

/-- The method `DataIterator::data`; `none` is the null pointer. -/
def DataIterator.data (it : DataIterator) : Option DBusModbusData :=
  if it.mOffset < 0 then none
  else
    match it.mCurrent with
    | [] => none
    | (_, d) :: _ => some d

/-- The method `DataIterator::item`; `none` is the null pointer (at `end()`), and also the
case of a null `mServiceRoot`, which the method dereferences. -/
def DataIterator.item (it : DataIterator) : Option VeQItem :=
  match it.mCurrent with
  | [] => none
  | (_, d) :: _ =>
    match it.mServiceRoot with
    | none => none
    | some root => some { root := root, objectPath := d.objectPath }

/-- The method `DataIterator::offset`. -/
def DataIterator.offset (it : DataIterator) : Int := it.mOffset

/-- The method `DataIterator::address`. -/
def DataIterator.address (it : DataIterator) : Int :=
  match it.mCurrent with
  | [] => -1
  | (key, _) :: _ => key + it.mOffset

/-- A number of calls of `next()` in a row. -/
def DataIterator.steps (n : Nat) (it : DataIterator) : DataIterator :=
  DataIterator.next^[n] it

/-! ## Request pipeline

The walks are the `for (; !it.atEnd(); it.next())` loops of the source. Each takes the
number of iterations it may still run; a result `none` means that this number was used up
with the iterator not at its end, or that a null pointer was dereferenced. The theorems
below show that neither happens. -/

/-- The statement `emit requestCompleted(request)`. -/
def State.emitRequestCompleted (self : State) (request : MappingRequest) : State :=
  { self with requestCompleted := self.requestCompleted ++ [request] }

/-- How the loop of `handleRequest` ends: at a register that may not be written, whose
address it reports, or at the end of the walk with the items it collected. -/
inductive PreWalk
  | denied (address : Int)
  | walked (it : DataIterator) (pendingItems : List VeQItem)

/-- The condition at line 36 of `handleRequest`; `data()` is dereferenced for a write
request only, and `none` stands for the dereference of a null pointer. -/
def writeDenied (request : MappingRequest) (it : DataIterator) : Option Bool :=
  if request.type = .WriteValues then
    it.data.map (fun d => decide (d.accessRights ≠ .mb_perm_write))
  else some false

/-- The loop of `handleRequest` (lines 35-43). -/
def handleRequestLoop (request : MappingRequest) :
    Nat → DataIterator → List VeQItem → Option PreWalk
  | fuel, it, pendingItems =>
    if it.atEnd then some (.walked it pendingItems)
    else
      match fuel with
      | 0 => none
      | fuel + 1 =>
        match writeDenied request it with
        | none => none
        | some true => some (.denied it.address)
        | some false =>
          match it.item with
          | none => none
          | some item => handleRequestLoop request fuel it.next (pendingItems ++ [item])

/-- The assignment `replyData[j] = c` on a `QByteArray`, which grows the array when `j` is
at or past its end. -/
def setByte (data : QByteArray) (j : Nat) (c : Nat) : QByteArray :=
  if j < data.length then data.set j c
  else data ++ List.replicate (j - data.length) 0 ++ [c]

/-- The loop of `getValues` (lines 118-131): the iterator at the end of the walk and the
reply data. -/
def getValuesLoop (ext : Externals) (services : DBusServices) :
    Nat → DataIterator → Nat → QByteArray → Option (DataIterator × QByteArray)
  | fuel, it, j, replyData =>
    if it.atEnd then some (it, replyData)
    else
      match fuel with
      | 0 => none
      | fuel + 1 =>
        match it.item, it.data with
        | some item, some d =>
          let dbusValue := services.getValue item
          let value := getValue ext dbusValue d.modbusType it.offset d.scaleFactor
          let replyData := setByte replyData j ((value >>> 8) % 256)
          let replyData := setByte replyData (j + 1) (value % 256)
          getValuesLoop ext services fuel it.next (j + 2) replyData
        | _, _ => none

/-- The function `Mappings::getValues`. -/
def getValues (ext : Externals) (self : State) (request : MappingRequest) : Option State :=
  let it := DataIterator.new self request.address request.unitId request.quantity
  match getValuesLoop ext self.mServices request.quantity.toNat it 0 request.data with
  | none => none
  | some (it, replyData) =>
    let request := { request with data := replyData }
    if it.error ≠ .NoError then
      some (self.emitRequestCompleted (request.setError it.error it.errorString))
    else some (self.emitRequestCompleted request)

/-- A left shift of a 32-bit unsigned value by an `int` count. C++ defines it for counts
`0..31` only; a larger count shifts every bit out and a negative one gives 0 here. -/
def shl32 (x : Nat) (shift : Int) : Nat :=
  if shift < 0 then 0 else (x <<< shift.toNat) % 2 ^ 32

/-- The complement `~x` of a 32-bit unsigned value. -/
def not32 (x : Nat) : Nat := (2 ^ 32 - 1) ^^^ (x % 2 ^ 32)

/-- The loop at lines 151-154 of `setValues`: the registers the entry decodes to at present,
first register in the high bits. -/
def currentRegisters (ext : Externals) (dbusValue : QVariant) (d : DBusModbusData) : Nat :=
  (List.range d.size.toNat).foldl
    (fun value i =>
      let v := getValue ext dbusValue d.modbusType i d.scaleFactor
      ((value <<< 16) % 2 ^ 32) ||| v)
    0

/-- The loop at lines 156-160 of `setValues`, with `i` registers still to take from the
request data at byte `j`; a byte read past the end of the data is taken as 0. -/
def payloadLoop (data : QByteArray) (size offset : Int) : Nat → Nat → Nat → Nat × Nat
  | 0, j, value => (j, value)
  | i + 1, j, value =>
    let v : Nat := (((data.getD j 0) % 256) <<< 8) ||| ((data.getD (j + 1) 0) % 256)
    let shift : Int := 16 * (size - ((i + 1 : Nat) : Int) - offset)
    let value := (value &&& not32 (shl32 0xFFFF shift)) ||| shl32 v shift
    payloadLoop data size offset i (j + 2) value

/-- The `switch` at lines 162-174 of `setValues`. -/
def encodeRegister (d : DBusModbusData) (value : Nat) : QVariant :=
  match d.modbusType with
  | .mb_type_int16 => convertToDbus d.dbusType (toSigned 16 value) d.scaleFactor
  | .mb_type_uint16 => convertToDbus d.dbusType (toUnsigned 16 value) d.scaleFactor
  | _ => .invalid

/-- How the loop of `setValues` ends: with an error set from inside the loop body, or at
the end of the walk; either way with the backend as the calls of `setValue` left it. -/
inductive WriteWalk
  | failed (services : DBusServices) (errorString : String)
  | walked (services : DBusServices) (it : DataIterator)

/-- Lines 148-174 of `setValues`, the body of the loop up to the conversion: the position in
the request data after the registers of this entry, and the value for the backend. -/
def setValuesEntry (ext : Externals) (data : QByteArray) (it : DataIterator)
    (d : DBusModbusData) (current : QVariant) (j : Nat) : Nat × QVariant :=
  let value : Nat :=
    if ext.registerCount it < d.size ∨ it.offset > 0 then currentRegisters ext current d
    else 0
  let r := payloadLoop data d.size it.offset (ext.registerCount it).toNat j value
  (r.1, encodeRegister d r.2)

/-- The loop of `setValues` (lines 144-191). -/
def setValuesLoop (ext : Externals) (data : QByteArray) :
    Nat → DataIterator → Nat → DBusServices → Option WriteWalk
  | fuel, it, j, services =>
    if it.atEnd then some (.walked services it)
    else
      match fuel with
      | 0 => none
      | fuel + 1 =>
        match it.item, it.data with
        | some item, some d =>
          let r := setValuesEntry ext data it d (services.getValue item) j
          if r.2 = .invalid then
            some (.failed services ("Could not convert value from " ++ d.objectPath))
          else
            let w := services.setValue item r.2
            if w.1 ≠ 0 then some (.failed w.2 ("SetValue failed on " ++ d.objectPath))
            else setValuesLoop ext data fuel it.next r.1 w.2
        | _, _ => none

/-- The function `Mappings::setValues`. -/
def setValues (ext : Externals) (self : State) (request : MappingRequest) : Option State :=
  let it := DataIterator.new self request.address request.unitId request.quantity
  match setValuesLoop ext request.data request.quantity.toNat it 0 self.mServices with
  | none => none
  | some (.failed services errorString) =>
    some ({ self with mServices := services }.emitRequestCompleted
      (request.setError .ServiceError errorString))
  | some (.walked services it) =>
    if it.error ≠ .NoError then
      some ({ self with mServices := services }.emitRequestCompleted
        (request.setError it.error it.errorString))
    else some ({ self with mServices := services }.emitRequestCompleted request)

/-- The function `Mappings::onItemsInitialized(MappingRequest *)`; with the two request
kinds there is no `default` case. -/
def onItemsInitialized (ext : Externals) (self : State) (request : MappingRequest) :
    Option State :=
  match request.type with
  | .ReadValues => getValues ext self request
  | .WriteValues => setValues ext self request

/-- The slot `Mappings::onItemsInitialized()`, run by the `initialized()` signal of the
monitor at position `sender` of `mPendingRequests`. -/
def onItemsInitializedSlot (ext : Externals) (self : State) (sender : Nat) : Option State :=
  match self.mPendingRequests.get? sender with
  | none => none
  | some (_, request) =>
    onItemsInitialized ext
      { self with mPendingRequests := self.mPendingRequests.eraseIdx sender } request

/-- The function `Mappings::addPendingRequest`. -/
def addPendingRequest (ext : Externals) (self : State) (request : MappingRequest)
    (pendingItems : List VeQItem) : Option State :=
  if pendingItems.isEmpty then onItemsInitialized ext self request
  else
    some { self with mPendingRequests := self.mPendingRequests ++ [(pendingItems, request)] }

/-- The function `Mappings::handleRequest`. -/
def handleRequest (ext : Externals) (self : State) (request : MappingRequest) : Option State :=
  let it := DataIterator.new self request.address request.unitId request.quantity
  match handleRequestLoop request request.quantity.toNat it [] with
  | none => none
  | some (.denied address) =>
    some (self.emitRequestCompleted
      (request.setError .PermissionError ("Cannot write to register " ++ toString address)))
  | some (.walked it pendingItems) =>
    if it.error ≠ .NoError then
      some (self.emitRequestCompleted (request.setError it.error it.errorString))
    else addPendingRequest ext self request pendingItems

/-! ## Predicates used by the statements -/

/-- What holds of every iterator that is not at its end: the offset is not negative, a
positive number of registers remains, a service root is attached and no error is set. -/
def DataIterator.Inv (it : DataIterator) : Prop :=
  it.mCurrent ≠ [] →
    0 ≤ it.mOffset ∧ 0 < it.mQuantity ∧ it.mServiceRoot ≠ none ∧ it.mError = .NoError

/-- The reply `r` is the request `request` with at most its data and its error changed. -/
def MappingRequest.sameRequest (r request : MappingRequest) : Prop :=
  r.type = request.type ∧ r.address = request.address ∧ r.unitId = request.unitId ∧
    r.quantity = request.quantity

/-- The register reached after `i` calls of `next()` may be written. -/
def DataIterator.writableAt (it : DataIterator) (i : Nat) : Prop :=
  ∃ d, (it.steps i).data = some d ∧ d.accessRights = .mb_perm_write

/-! ## Concrete instances -/

/-- A `registerCount` for the instances: the registers of the current entry from the offset
on, at most the number still requested, and 0 at the end. -/
def exampleRegisterCount (it : DataIterator) : Int :=
  match it.mCurrent with
  | [] => 0
  | (_, d) :: _ => min it.mQuantity (d.size - it.mOffset)

/-- Externals of a platform with a signed plain `char`. -/
def signedCharExt : Externals :=
  { charIsSigned := true, variantText := fun _ => [], registerCount := exampleRegisterCount }

/-- Externals of a platform with an unsigned plain `char`. -/
def unsignedCharExt : Externals :=
  { charIsSigned := false, variantText := fun _ => [], registerCount := exampleRegisterCount }

/-- A backend with one service for every device, in which every item holds `v` and every
`setValue` succeeds. -/
def exampleServices (v : QVariant) : DBusServices :=
  { getService := fun _ _ => some 0, value := fun _ => v, setValueResult := fun _ _ => 0,
    setValueCalls := [] }

/-- A register table entry of the instances. -/
def exampleEntry (objectPath : String) (modbusType : ModbusTypes) (size : Int)
    (accessRights : Permissions) : DBusModbusData :=
  { deviceType := "battery", objectPath := objectPath, modbusType := modbusType,
    scaleFactor := 1, dbusType := .Double, accessRights := accessRights, size := size }

/-- A `Mappings` object over a register table, with unit id 100 mapped to device instance 7,
nothing pending and nothing emitted. -/
def exampleState (map : List (Int × DBusModbusData)) (v : QVariant) : State :=
  { mServices := exampleServices v, mDBusModbusMap := map, mUnitIDMap := [(100, 7)],
    mPendingRequests := [], requestCompleted := [] }

/-- A fresh request from unit id 5. -/
def exampleRequest (type : RequestType) (address quantity : Int) (data : QByteArray) :
    MappingRequest :=
  { type := type, address := address, unitId := 5, quantity := quantity, data := data,
    error := .NoError, errorString := "" }

/-- A writable 16-bit register at 10 followed by a read-only one at 11. -/
def mixedAccessMap : List (Int × DBusModbusData) :=
  [(10, exampleEntry "/Dc/0/Voltage" .mb_type_uint16 1 .mb_perm_write),
   (11, exampleEntry "/Dc/0/Current" .mb_type_int16 1 .mb_perm_read)]

/-- Entries at 10 (size 1) and 12 (size 2), address 11 being a gap. -/
def gapMap : List (Int × DBusModbusData) :=
  [(10, exampleEntry "/Dc/0/Voltage" .mb_type_uint16 1 .mb_perm_write),
   (12, exampleEntry "/History/EnergyOut" .mb_type_uint32 2 .mb_perm_read)]

/-- A single 32-bit entry at 10. -/
def lastEntryMap : List (Int × DBusModbusData) :=
  [(10, exampleEntry "/History/EnergyOut" .mb_type_uint32 2 .mb_perm_read)]

/-- The number that `convertFromDbus` scales: `toDouble()` of a real, `toInt()` of a signed
and `toUInt()` of an unsigned integer value. -/
def QVariant.numeric : QVariant → ℚ
  | .real d => d
  | .signed v => (toInt v : ℚ)
  | .unsigned v => (toUInt v : ℚ)
  | .bool b => if b then 1 else 0
  | _ => 0

/-- A request run to its completion: `handleRequest`, followed, when it has registered a
monitor, by the `initialized()` signal of that monitor, the backend being as
`handleRequest` left it. -/
def runRequest (ext : Externals) (self : State) (request : MappingRequest) : Option State :=
  match handleRequest ext self request with
  | none => none
  | some s =>
    if s.mPendingRequests.length = self.mPendingRequests.length + 1 then
      onItemsInitializedSlot ext s self.mPendingRequests.length
    else some s

/-- An `int16` entry with scale factor 10 over a double-typed property. -/
def scaledEntry : DBusModbusData :=
  { deviceType := "battery", objectPath := "/Dc/0/Current", modbusType := .mb_type_int16,
    scaleFactor := 10, dbusType := .Double, accessRights := .mb_perm_write, size := 1 }

/-- The backend value kinds that are numeric: the integer types and the floating types. -/
def isNumeric : QMetaType → Bool
  | .Float | .Double => true
  | .Char | .Short | .Int | .Long | .LongLong => true
  | .UChar | .UShort | .UInt | .ULong | .ULongLong => true
  | _ => false

/-- A writable `uint16` entry with scale factor 1 over an integer property. -/
def roundTripEntry : DBusModbusData :=
  { deviceType := "battery", objectPath := "/Soc", modbusType := .mb_type_uint16,
    scaleFactor := 1, dbusType := .Int, accessRights := .mb_perm_write, size := 1 }

/-- The register table with `roundTripEntry` at address 10. -/
def roundTripMap : List (Int × DBusModbusData) :=
  [(10, roundTripEntry)]

/-- The address `a` lies inside the span of some entry of the register table. -/
def covered (map : List (Int × DBusModbusData)) (a : Int) : Prop :=
  ∃ e ∈ map, e.1 ≤ a ∧ a < e.1 + e.2.size

/-- One entry ends before the other starts. -/
def endsBefore (a b : Int × DBusModbusData) : Prop :=
  a.1 + a.2.size ≤ b.1

/-! ## Ingestion of the configuration rows -/

/-- The constant `stringType`. -/
def stringType : String := "string"

/-- The function `Mappings::convertModbusType`. -/
def convertModbusType (typeString : String) : ModbusTypes :=
  if typeString = "int16" then .mb_type_int16
  else if typeString = "uint16" then .mb_type_uint16
  else if typeString = "int32" then .mb_type_int32
  else if typeString = "uint32" then .mb_type_uint32
  else if stringType.data.isPrefixOf typeString.data then .mb_type_string
  else .mb_type_none

/-- The function `Mappings::convertDbusType`. -/
def convertDbusType (typeString : String) : QMetaType :=
  if typeString = "y" then .UChar
  else if typeString = "b" then .Bool
  else if typeString = "n" then .Short
  else if typeString = "q" then .UShort
  else if typeString = "i" then .Int
  else if typeString = "u" then .UInt
  else if typeString = "x" then .Long
  else if typeString = "t" then .ULong
  else if typeString = "d" then .Double
  else if typeString = "s" then .QString
  else .Void

/-- The function `Mappings::convertPermissions`. -/
def convertPermissions (permissions : String) : Permissions :=
  if permissions = "R" then .mb_perm_read
  else if permissions = "W" then .mb_perm_write
  else .mb_perm_none

/-- White space as `QString::toInt()` skips it at both ends of the text. -/
def isSpace (c : Char) : Bool :=
  c.toNat = 32 ∨ (9 ≤ c.toNat ∧ c.toNat ≤ 13)

/-- The decimal digits `0` to `9`. -/
def isDecimalDigit (c : Char) : Bool :=
  48 ≤ c.toNat ∧ c.toNat ≤ 57

/-- The number a sequence of decimal digits stands for, from the value `acc` of the digits
read so far; `none` when a character is not a digit. -/
def parseDigits : List Char → Nat → Option Nat
  | [], acc => some acc
  | c :: cs, acc =>
    if isDecimalDigit c then parseDigits cs (acc * 10 + (c.toNat - 48)) else none

/-- The call `QString::toInt()`: an optional sign and at least one decimal digit between
optional white space give the number when it is in the range of `int`; every other text and
every number outside that range give 0. -/
def qToInt (text : List Char) : Int :=
  let t := ((text.dropWhile isSpace).reverse.dropWhile isSpace).reverse
  let negative := t.head? = some '-'
  let digits := if t.head? = some '-' ∨ t.head? = some '+' then t.tail else t
  if digits = [] then 0
  else
    match parseDigits digits 0 with
    | none => 0
    | some n =>
      let v : Int := if negative then -(n : Int) else n
      if -2 ^ 31 ≤ v ∧ v < 2 ^ 31 then v else 0

/-- The function `Mappings::convertStringSize`. -/
def convertStringSize (typeString : String) : Int :=
  if typeString.data.length ≤ stringType.data.length + 2 ∨
      typeString.data.get? stringType.data.length ≠ some '[' ∨
      typeString.data.getLast? ≠ some ']' then 0
  else
    let offset := stringType.data.length + 1
    let count := typeString.data.length - stringType.data.length - 2
    qToInt ((typeString.data.drop offset).take count)

/-- What `importCSV` takes from outside `mappings.cpp`: `DBusService::getDeviceType`, which
is declared in `dbus_service.h`, and the number `QString::toDouble()` reads from a text. -/
structure IngestExternals where
  getDeviceType : String → String
  toDouble : String → ℚ

/-- The call `mDBusModbusMap.insert(reg, item)` of a `QMap`: the value of an existing key
is replaced, a new key is put in its place in key order. -/
def qmapInsert (reg : Int) (item : DBusModbusData) :
    List (Int × DBusModbusData) → List (Int × DBusModbusData)
  | [] => [(reg, item)]
  | (key, value) :: rest =>
    if reg < key then (reg, item) :: (key, value) :: rest
    else if reg = key then (reg, item) :: rest
    else (key, value) :: qmapInsert reg item rest

/-- Lines 347-381 of `importCSV`: the entry built from the fields `values` of a row whose
type token gave `modbusType`. -/
def importItem (ing : IngestExternals) (values : List String) (modbusType : ModbusTypes) :
    DBusModbusData :=
  let scaleFactor := ing.toDouble (values.getD 6 "")
  let accessRights := convertPermissions (values.getD 7 "")
  let item : DBusModbusData :=
    { deviceType := ing.getDeviceType (values.getD 0 "")
      objectPath := values.getD 1 ""
      modbusType := modbusType
      scaleFactor := if scaleFactor = 0 then 1 else scaleFactor
      dbusType := convertDbusType (values.getD 2 "")
      accessRights := accessRights
      size := 0 }
  match modbusType with
  | .mb_type_string =>
    { item with
      size := convertStringSize (values.getD 5 "")
      accessRights := if accessRights = .mb_perm_write then .mb_perm_read else accessRights }
  | .mb_type_int32 | .mb_type_uint32 =>
    { item with
      size := 2
      accessRights := if accessRights = .mb_perm_write then .mb_perm_read else accessRights }
  | _ => { item with size := 1 }

/-- The body of the loop of `importCSV` (lines 343-390) for one line, split at the commas
into `values`. -/
def importRow (ing : IngestExternals) (map : List (Int × DBusModbusData))
    (values : List String) : List (Int × DBusModbusData) :=
  if values.length ≥ 8 then
    let modbusType := convertModbusType (values.getD 5 "")
    if modbusType ≠ .mb_type_none then
      qmapInsert (qToInt (values.getD 4 "").data) (importItem ing values modbusType) map
    else map
  else map

/-- The function `Mappings::importCSV` on the lines of the file, each split at the commas:
the register table after the rows, from the table `map` before them. -/
def importCSV (ing : IngestExternals) (map : List (Int × DBusModbusData))
    (rows : List (List String)) : List (Int × DBusModbusData) :=
  rows.foldl (importRow ing) map

/-- Ingestion externals of the instances. -/
def exampleIngest : IngestExternals :=
  { getDeviceType := fun name => name, toDouble := fun _ => 1 }

/-- The entries of a register table that ingestion is to give: a writable entry is a 16-bit
one of size 1, a 32-bit entry has size 2, and 32-bit and string entries are not writable. -/
def DBusModbusData.wellFormed (d : DBusModbusData) : Prop :=
  (d.accessRights = .mb_perm_write →
    (d.modbusType = .mb_type_int16 ∨ d.modbusType = .mb_type_uint16) ∧ d.size = 1) ∧
  (d.modbusType = .mb_type_int32 ∨ d.modbusType = .mb_type_uint32 → d.size = 2) ∧
  (d.modbusType = .mb_type_int32 ∨ d.modbusType = .mb_type_uint32 ∨
      d.modbusType = .mb_type_string →
    d.accessRights = .mb_perm_read ∨ d.accessRights = .mb_perm_none)

/-- The condition of `Q_ASSERT(mOffset <= d->size)` at line 507 for a call of `next()` in
the state `it`; `true` when the call does not reach the line. -/
def DataIterator.nextAssert (it : DataIterator) : Bool :=
  match it.mCurrent with
  | [] => true
  | (_, d) :: _ => if it.mQuantity - 1 = 0 then true else decide (it.mOffset + 1 ≤ d.size)

/-- The condition of `Q_ASSERT(mCurrent.key() < address)` at line 463 of the constructor;
`true` when the constructor does not reach the line. -/
def DataIterator.newAssert (self : State) (address unitId quantity : Int) : Bool :=
  if quantity ≤ 0 then true
  else
    match DataIterator.deviceInstance self.mUnitIDMap unitId with
    | none => true
    | some _ =>
      match lowerBound self.mDBusModbusMap address with
      | [] => true
      | (key, _) :: _ =>
        if key ≠ address then
          match beforeLowerBound self.mDBusModbusMap address with
          | none => true
          | some p => decide (p.1 < address)
        else true

/-- The offset of an iterator that is not at its end lies inside its current entry. -/
def DataIterator.offsetInEntry (it : DataIterator) : Prop :=
  ∀ key d rest, it.mCurrent = (key, d) :: rest → 0 ≤ it.mOffset ∧ it.mOffset < d.size

/-- A row with the type token `string`, without a size. -/
def unsizedStringRow : List String :=
  ["battery", "/Serial", "s", "", "100", "string", "1", "R"]

/-- The entry that ingestion builds from `unsizedStringRow`. -/
def unsizedStringEntry : DBusModbusData :=
  { deviceType := "battery", objectPath := "/Serial", modbusType := .mb_type_string,
    scaleFactor := 1, dbusType := .QString, accessRights := .mb_perm_read, size := 0 }

/-- A row that asks for write access to a `uint32` register. -/
def energyRow : List String :=
  ["battery", "/History/EnergyOut", "d", "", "101", "uint32", "1", "W"]

/-- The entry that ingestion builds from `energyRow`. -/
def energyEntry : DBusModbusData :=
  { deviceType := "battery", objectPath := "/History/EnergyOut",
    modbusType := .mb_type_uint32, scaleFactor := 1, dbusType := .Double,
    accessRights := .mb_perm_read, size := 2 }

/-- What holds of two entries of a register table, the first in front of the second, when
the table is in key order and also when all its sizes are at least 1. -/
def inOrderOrSized (a b : Int × DBusModbusData) : Prop :=
  1 ≤ a.2.size ∨ a.1 < b.1

/-- Line 157 of `setValues`: the register word at byte `j` of the request data; a byte read
past the end of the data is taken as 0. -/
def payloadWord (data : QByteArray) (j : Nat) : Nat :=
  ((data.getD j 0) % 256) <<< 8 ||| (data.getD (j + 1) 0) % 256

/-- The backend after the calls of `setValue` in `calls`, made in this order. -/
def DBusServices.afterCalls (services : DBusServices) (calls : List (VeQItem × QVariant)) :
    DBusServices :=
  calls.foldl (fun s c => (s.setValue c.1 c.2).2) services

/-- Three writable 16-bit registers at 10, 11 and 12. -/
def writableRunMap : List (Int × DBusModbusData) :=
  [(10, exampleEntry "/Dc/0/Voltage" .mb_type_uint16 1 .mb_perm_write),
   (11, exampleEntry "/Dc/0/Current" .mb_type_int16 1 .mb_perm_write),
   (12, exampleEntry "/Soc" .mb_type_uint16 1 .mb_perm_write)]

/-- The entries of `writableRunMap` by register number. -/
def writableRunEntry : Nat → DBusModbusData
  | 0 => exampleEntry "/Dc/0/Voltage" .mb_type_uint16 1 .mb_perm_write
  | 1 => exampleEntry "/Dc/0/Current" .mb_type_int16 1 .mb_perm_write
  | _ => exampleEntry "/Soc" .mb_type_uint16 1 .mb_perm_write

/-- A `Mappings` object over `writableRunMap` whose backend refuses every `setValue` on the
item `/Dc/0/Current` and accepts every other one. -/
def rejectingState : State :=
  { mServices :=
      { getService := fun _ _ => some 0, value := fun _ => .invalid,
        setValueResult := fun item _ => if item.objectPath = "/Dc/0/Current" then 1 else 0,
        setValueCalls := [] },
    mDBusModbusMap := writableRunMap, mUnitIDMap := [(100, 7)], mPendingRequests := [],
    requestCompleted := [] }

/-- A write of the words 1, 2 and 3 to the three registers of `writableRunMap`. -/
def writeRunRequest : MappingRequest :=
  exampleRequest .WriteValues 10 3 [0, 1, 0, 2, 0, 3]
/-! ## Invariant of the iterator -/

theorem beforeLowerBound_lt {map : List (Int × DBusModbusData)} {address : Int}
    {p : Int × DBusModbusData} (h : beforeLowerBound map address = some p) : p.1 < address := by
  have hm : p ∈ map.takeWhile (fun e => decide (e.1 < address)) :=
    List.mem_of_mem_getLast? (by simpa [beforeLowerBound] using h)
  simpa using List.mem_takeWhile_imp hm

theorem attach_inv (self : State) (it : DataIterator) (address deviceInstance : Int)
    (key : Int) (d : DBusModbusData) (rest : List (Int × DBusModbusData))
    (hq : 0 < it.mQuantity) (he : it.mError = .NoError) (hk : key ≤ address) :
    (it.attach self address deviceInstance ((key, d) :: rest)).Inv := by
  simp only [DataIterator.attach]
  cases hs : self.mServices.getService d.deviceType deviceInstance with
  | none => intro h; simp [DataIterator.setError] at h
  | some root =>
    intro _
    refine ⟨?_, hq, by simp, he⟩
    simp; omega

theorem setError_inv (it : DataIterator) (e : MappingErrors) (s : String) :
    (it.setError e s).Inv := by
  intro h; simp [DataIterator.setError] at h

theorem locate_inv (self : State) (it : DataIterator) (address deviceInstance : Int)
    (hq : 0 < it.mQuantity) (he : it.mError = .NoError) :
    (it.locate self address deviceInstance).Inv := by
  unfold DataIterator.locate
  split
  · exact setError_inv _ _ _
  · rename_i key d rest hlb
    split
    · split
      · exact setError_inv _ _ _
      · rename_i p hp
        split
        · exact setError_inv _ _ _
        · exact attach_inv _ _ _ _ _ _ _ hq he (le_of_lt (beforeLowerBound_lt hp))
    · rename_i hkey
      exact attach_inv _ _ _ _ _ _ _ hq he (le_of_eq (not_not.mp hkey))

theorem new_inv (self : State) (address unitId quantity : Int) :
    (DataIterator.new self address unitId quantity).Inv := by
  unfold DataIterator.new
  simp only []
  split
  · intro h; simp [DataIterator.init] at h
  · rename_i hq
    split
    · exact setError_inv _ _ _
    · exact locate_inv _ _ _ _ (by simpa [DataIterator.init] using hq) rfl

theorem next_quantity (it : DataIterator) (h : it.mCurrent ≠ []) :
    it.next.mQuantity = it.mQuantity - 1 := by
  unfold DataIterator.next
  split
  · rename_i hc; exact absurd hc h
  · simp only []
    split
    · rfl
    · split
      · rfl
      · split
        · rfl
        · split <;> rfl

theorem next_inv (it : DataIterator) (h : it.Inv) : it.next.Inv := by
  unfold DataIterator.next
  split
  · exact h
  · rename_i key d rest hc
    have hi := h (by simp [hc])
    simp only []
    split
    · intro h'; simp at h'
    · rename_i hq
      split
      · intro _
        exact ⟨by simp; omega, by simp at hq ⊢; omega, hi.2.2.1, hi.2.2.2⟩
      · split
        · exact setError_inv _ _ _
        · split
          · exact setError_inv _ _ _
          · intro _
            exact ⟨by simp, by simp at hq ⊢; omega, hi.2.2.1, hi.2.2.2⟩

theorem next_of_atEnd (it : DataIterator) (h : it.mCurrent = []) : it.next = it := by
  unfold DataIterator.next
  split
  · rfl
  · rename_i hc; simp [hc] at h

theorem steps_of_atEnd (n : Nat) (it : DataIterator) (h : it.mCurrent = []) :
    it.steps n = it := by
  induction n with
  | zero => rfl
  | succ n ih =>
    rw [DataIterator.steps, Function.iterate_succ_apply, next_of_atEnd it h]
    exact ih

theorem steps_succ (n : Nat) (it : DataIterator) : it.steps (n + 1) = it.next.steps n := by
  rw [DataIterator.steps, Function.iterate_succ_apply]; rfl

theorem steps_inv (n : Nat) (it : DataIterator) (h : it.Inv) : (it.steps n).Inv := by
  induction n generalizing it with
  | zero => exact h
  | succ n ih => rw [steps_succ]; exact ih _ (next_inv it h)


/-! ## The walks run to their end -/

theorem data_item_of_inv (it : DataIterator) (h : it.Inv) (key : Int) (d : DBusModbusData)
    (rest : List (Int × DBusModbusData)) (hc : it.mCurrent = (key, d) :: rest) :
    it.data = some d ∧ ∃ root, it.item = some { root := root, objectPath := d.objectPath } := by
  have hi := h (by simp [hc])
  constructor
  · simp [DataIterator.data, hc, not_lt.mpr hi.1]
  · cases hr : it.mServiceRoot with
    | none => exact absurd hr hi.2.2.1
    | some root => exact ⟨root, by simp [DataIterator.item, hc, hr]⟩

theorem atEnd_iff (it : DataIterator) : it.atEnd = true ↔ it.mCurrent = [] := by
  simp [DataIterator.atEnd]

theorem handleRequestLoop_total (request : MappingRequest) :
    ∀ (fuel : Nat) (it : DataIterator) (pendingItems : List VeQItem), it.Inv →
      (it.mCurrent ≠ [] → it.mQuantity ≤ fuel) →
      (∃ a, handleRequestLoop request fuel it pendingItems = some (.denied a)) ∨
      (∃ it2 items, handleRequestLoop request fuel it pendingItems = some (.walked it2 items) ∧
        it2.mCurrent = []) := by
  intro fuel
  induction fuel with
  | zero =>
    intro it ps hinv hq
    cases hc : it.mCurrent with
    | nil =>
      right
      exact ⟨it, ps, by unfold handleRequestLoop; simp [DataIterator.atEnd, hc], hc⟩
    | cons e rest =>
      have := (hinv (by simp [hc])).2.1
      have hq := hq (by simp [hc])
      simp at hq; omega
  | succ fuel ih =>
    intro it ps hinv hq
    cases hc : it.mCurrent with
    | nil =>
      right
      exact ⟨it, ps, by unfold handleRequestLoop; simp [DataIterator.atEnd, hc], hc⟩
    | cons e rest =>
      obtain ⟨key, d⟩ := e
      obtain ⟨hd, root, hitem⟩ := data_item_of_inv it hinv key d rest hc
      unfold handleRequestLoop
      simp only [DataIterator.atEnd, hc, List.isEmpty_cons, Bool.false_eq_true, if_false,
        writeDenied, hd, Option.map_some', hitem]
      split
      · rename_i hx; split at hx <;> simp at hx
      · left; exact ⟨_, rfl⟩
      · apply ih _ _ (next_inv it hinv)
        intro _
        have hq := hq (by simp [hc])
        rw [next_quantity it (by simp [hc])]
        push_cast at hq ⊢; omega

theorem getValuesLoop_total (ext : Externals) (services : DBusServices) :
    ∀ (fuel : Nat) (it : DataIterator) (j : Nat) (replyData : QByteArray), it.Inv →
      (it.mCurrent ≠ [] → it.mQuantity ≤ fuel) →
      ∃ it2 reply, getValuesLoop ext services fuel it j replyData = some (it2, reply) ∧
        it2.mCurrent = [] := by
  intro fuel
  induction fuel with
  | zero =>
    intro it j rd hinv hq
    cases hc : it.mCurrent with
    | nil => exact ⟨it, rd, by unfold getValuesLoop; simp [DataIterator.atEnd, hc], hc⟩
    | cons e rest =>
      have := (hinv (by simp [hc])).2.1
      have hq := hq (by simp [hc])
      simp at hq; omega
  | succ fuel ih =>
    intro it j rd hinv hq
    cases hc : it.mCurrent with
    | nil => exact ⟨it, rd, by unfold getValuesLoop; simp [DataIterator.atEnd, hc], hc⟩
    | cons e rest =>
      obtain ⟨key, d⟩ := e
      obtain ⟨hd, root, hitem⟩ := data_item_of_inv it hinv key d rest hc
      unfold getValuesLoop
      simp only [DataIterator.atEnd, hc, List.isEmpty_cons, Bool.false_eq_true, if_false, hd,
        hitem]
      apply ih _ _ _ (next_inv it hinv)
      intro _
      have hq := hq (by simp [hc])
      rw [next_quantity it (by simp [hc])]
      push_cast at hq ⊢; omega

theorem setValuesLoop_total (ext : Externals) (data : QByteArray) :
    ∀ (fuel : Nat) (it : DataIterator) (j : Nat) (services : DBusServices), it.Inv →
      (it.mCurrent ≠ [] → it.mQuantity ≤ fuel) →
      (∃ services2 msg, setValuesLoop ext data fuel it j services =
        some (.failed services2 msg)) ∨
      (∃ services2 it2, setValuesLoop ext data fuel it j services =
        some (.walked services2 it2) ∧ it2.mCurrent = []) := by
  intro fuel
  induction fuel with
  | zero =>
    intro it j sv hinv hq
    cases hc : it.mCurrent with
    | nil =>
      right
      exact ⟨sv, it, by unfold setValuesLoop; simp [DataIterator.atEnd, hc], hc⟩
    | cons e rest =>
      have := (hinv (by simp [hc])).2.1
      have hq := hq (by simp [hc])
      simp at hq; omega
  | succ fuel ih =>
    intro it j sv hinv hq
    cases hc : it.mCurrent with
    | nil =>
      right
      exact ⟨sv, it, by unfold setValuesLoop; simp [DataIterator.atEnd, hc], hc⟩
    | cons e rest =>
      obtain ⟨key, d⟩ := e
      obtain ⟨hd, root, hitem⟩ := data_item_of_inv it hinv key d rest hc
      unfold setValuesLoop
      simp only [DataIterator.atEnd, hc, List.isEmpty_cons, Bool.false_eq_true, if_false, hd,
        hitem]
      split
      · left; exact ⟨_, _, rfl⟩
      · split
        · left; exact ⟨_, _, rfl⟩
        · apply ih _ _ _ (next_inv it hinv)
          intro _
          have hq := hq (by simp [hc])
          rw [next_quantity it (by simp [hc])]
          push_cast at hq ⊢; omega


theorem new_quantity_le (self : State) (address unitId quantity : Int) :
    (DataIterator.new self address unitId quantity).Inv ∧
    ((DataIterator.new self address unitId quantity).mCurrent ≠ [] →
      (DataIterator.new self address unitId quantity).mQuantity = quantity) := by
  refine ⟨new_inv _ _ _ _, ?_⟩
  unfold DataIterator.new
  simp only []
  split
  · intro h; simp [DataIterator.init] at h
  · split
    · intro h; simp [DataIterator.setError] at h
    · unfold DataIterator.locate
      split
      · intro h; simp [DataIterator.setError] at h
      · have hatt : ∀ (di : Int) (cur : List (Int × DBusModbusData)),
            ((DataIterator.init quantity).attach self address di cur).mCurrent ≠ [] →
            ((DataIterator.init quantity).attach self address di cur).mQuantity = quantity := by
          intro di cur
          unfold DataIterator.attach
          split
          · intro h; simp [DataIterator.init] at h
          · split
            · intro h; simp [DataIterator.setError] at h
            · intro _; rfl
        split
        · split
          · intro h; simp [DataIterator.setError] at h
          · split
            · intro h; simp [DataIterator.setError] at h
            · exact hatt _ _
        · exact hatt _ _

theorem new_fuel (self : State) (address unitId quantity : Int) :
    (DataIterator.new self address unitId quantity).mCurrent ≠ [] →
    (DataIterator.new self address unitId quantity).mQuantity ≤ (quantity.toNat : Int) := by
  intro h
  rw [(new_quantity_le self address unitId quantity).2 h]
  exact Int.self_le_toNat quantity


/-! ## Exactly one completion -/

theorem getValues_completes (ext : Externals) (self : State) (request : MappingRequest) :
    ∃ r, getValues ext self request = some (self.emitRequestCompleted r) ∧
      r.sameRequest request := by
  obtain ⟨it2, reply, hloop, _⟩ := getValuesLoop_total ext self.mServices
    request.quantity.toNat (DataIterator.new self request.address request.unitId request.quantity)
    0 request.data (new_inv self _ _ _) (new_fuel self _ _ _)
  unfold getValues
  dsimp only
  rw [hloop]
  dsimp only
  split
  · exact ⟨_, rfl, rfl, rfl, rfl, rfl⟩
  · exact ⟨_, rfl, rfl, rfl, rfl, rfl⟩

theorem setValues_completes (ext : Externals) (self : State) (request : MappingRequest) :
    ∃ services r, setValues ext self request =
        some ({ self with mServices := services }.emitRequestCompleted r) ∧
      r.sameRequest request := by
  unfold setValues
  dsimp only
  rcases setValuesLoop_total ext request.data request.quantity.toNat
    (DataIterator.new self request.address request.unitId request.quantity) 0 self.mServices
    (new_inv self _ _ _) (new_fuel self _ _ _) with ⟨sv, msg, hloop⟩ | ⟨sv, it2, hloop, _⟩
  · rw [hloop]
    exact ⟨sv, _, rfl, rfl, rfl, rfl, rfl⟩
  · rw [hloop]
    dsimp only
    split
    · exact ⟨sv, _, rfl, rfl, rfl, rfl, rfl⟩
    · exact ⟨sv, _, rfl, rfl, rfl, rfl, rfl⟩

theorem onItemsInitialized_completes (ext : Externals) (self : State)
    (request : MappingRequest) :
    ∃ s r, onItemsInitialized ext self request = some s ∧
      s.requestCompleted = self.requestCompleted ++ [r] ∧ r.sameRequest request ∧
      s.mPendingRequests = self.mPendingRequests ∧
      s.mDBusModbusMap = self.mDBusModbusMap ∧ s.mUnitIDMap = self.mUnitIDMap := by
  unfold onItemsInitialized
  split
  · obtain ⟨r, h, hr⟩ := getValues_completes ext self request
    exact ⟨_, r, h, rfl, hr, rfl, rfl, rfl⟩
  · obtain ⟨sv, r, h, hr⟩ := setValues_completes ext self request
    exact ⟨_, r, h, rfl, hr, rfl, rfl, rfl⟩


theorem data_some_cons (it : DataIterator) (d : DBusModbusData) (h : it.data = some d) :
    ∃ key rest, it.mCurrent = (key, d) :: rest := by
  unfold DataIterator.data at h
  split at h
  · exact absurd h (by simp)
  · split at h
    · exact absurd h (by simp)
    · rename_i key d2 rest hc
      have : d2 = d := by simpa using h
      exact ⟨key, rest, by rw [hc, this]⟩

theorem handleRequestLoop_denied (request : MappingRequest)
    (htype : request.type = .WriteValues) :
    ∀ (k fuel : Nat) (it : DataIterator) (pendingItems : List VeQItem), it.Inv →
      (it.mCurrent ≠ [] → it.mQuantity ≤ fuel) →
      ∀ d, (it.steps k).data = some d → d.accessRights ≠ .mb_perm_write →
      ∃ j, j ≤ k ∧ (∀ i, i < j → it.writableAt i) ∧
        handleRequestLoop request fuel it pendingItems = some (.denied (it.steps j).address) := by
  intro k
  induction k with
  | zero =>
    intro fuel it ps hinv hq d hd hperm
    obtain ⟨key, rest, hc⟩ := data_some_cons _ d hd
    change it.mCurrent = _ at hc
    have hpos := (hinv (by simp [hc])).2.1
    have hq := hq (by simp [hc])
    obtain ⟨f, rfl⟩ : ∃ f, fuel = f + 1 := ⟨fuel - 1, by omega⟩
    refine ⟨0, le_refl _, fun i hi => absurd hi (Nat.not_lt_zero i), ?_⟩
    have hd' : it.data = some d := hd
    unfold handleRequestLoop
    simp [DataIterator.atEnd, hc, writeDenied, hd', htype, hperm, DataIterator.steps]
  | succ k ih =>
    intro fuel it ps hinv hq d hd hperm
    cases hc : it.mCurrent with
    | nil =>
      rw [steps_of_atEnd _ _ hc] at hd
      simp [DataIterator.data, hc] at hd
    | cons e rest =>
      obtain ⟨key, d0⟩ := e
      have hpos := (hinv (by simp [hc])).2.1
      have hq := hq (by simp [hc])
      obtain ⟨f, rfl⟩ : ∃ f, fuel = f + 1 := ⟨fuel - 1, by omega⟩
      obtain ⟨hd0, root, hitem⟩ := data_item_of_inv it hinv key d0 rest hc
      by_cases hw : d0.accessRights = .mb_perm_write
      · rw [steps_succ] at hd
        obtain ⟨j, hj, hall, hloop⟩ := ih f it.next
          (ps ++ [{ root := root, objectPath := d0.objectPath }]) (next_inv it hinv)
          (by intro _; rw [next_quantity it (by simp [hc])]; push_cast at hq ⊢; omega)
          d hd hperm
        refine ⟨j + 1, by omega, ?_, ?_⟩
        · intro i hi
          cases i with
          | zero => exact ⟨d0, hd0, hw⟩
          | succ i =>
            obtain ⟨di, h1, h2⟩ := hall i (by omega)
            exact ⟨di, by rw [steps_succ]; exact h1, h2⟩
        · rw [steps_succ, ← hloop]
          conv => lhs; unfold handleRequestLoop
          simp [DataIterator.atEnd, hc, writeDenied, htype, hd0, hitem, hw]
      · refine ⟨0, Nat.zero_le _, fun i hi => absurd hi (Nat.not_lt_zero i), ?_⟩
        unfold handleRequestLoop
        simp [DataIterator.atEnd, hc, writeDenied, hd0, htype, hw, DataIterator.steps]

/-- C1. A write request whose walk reaches, after `k` calls of `next()`, a register whose
entry may not be written is completed by `handleRequest` with `PermissionError`, naming the
first such register (the one reached after `j` calls, every earlier one being writable). That
is all `handleRequest` does: the backend is as before (the same values, no `setValue` call),
no monitor is registered, and the one signal is appended. -/
theorem handleRequest_permission_error (ext : Externals) (self : State)
    (request : MappingRequest) (htype : request.type = .WriteValues) (k : Nat)
    (d : DBusModbusData)
    (hreach : ((DataIterator.new self request.address request.unitId request.quantity).steps
      k).data = some d)
    (hperm : d.accessRights ≠ .mb_perm_write) :
    ∃ j s, j ≤ k ∧
      (∀ i, i < j →
        (DataIterator.new self request.address request.unitId request.quantity).writableAt i) ∧
      handleRequest ext self request = some s ∧
      s.requestCompleted = self.requestCompleted ++
        [request.setError .PermissionError ("Cannot write to register " ++ toString
          ((DataIterator.new self request.address request.unitId request.quantity).steps
            j).address)] ∧
      s.mServices.value = self.mServices.value ∧
      s.mServices.setValueCalls = self.mServices.setValueCalls ∧
      s.mPendingRequests = self.mPendingRequests := by
  obtain ⟨j, hj, hall, hloop⟩ := handleRequestLoop_denied request htype k
    request.quantity.toNat
    (DataIterator.new self request.address request.unitId request.quantity) []
    (new_inv self _ _ _) (new_fuel self _ _ _) d hreach hperm
  refine ⟨j, self.emitRequestCompleted (request.setError .PermissionError
    ("Cannot write to register " ++ toString
      ((DataIterator.new self request.address request.unitId request.quantity).steps
        j).address)), hj, hall, ?_, rfl, rfl, rfl, rfl⟩
  unfold handleRequest
  dsimp only
  rw [hloop]


/-- Witness of `handleRequest_permission_error`: a write of two registers from address 10 over
`mixedAccessMap` reaches the read-only register 11 after one call of `next()`. -/
theorem handleRequest_permission_error_witness :
    ((DataIterator.new (exampleState mixedAccessMap .invalid) 10 5 2).steps 1).data =
      some (exampleEntry "/Dc/0/Current" .mb_type_int16 1 .mb_perm_read) ∧
    ∃ j s, j ≤ 1 ∧
      (∀ i, i < j → (DataIterator.new (exampleState mixedAccessMap .invalid) 10 5
        2).writableAt i) ∧
      handleRequest signedCharExt (exampleState mixedAccessMap .invalid)
        (exampleRequest .WriteValues 10 2 [0, 1, 0, 2]) = some s ∧
      s.requestCompleted = (exampleState mixedAccessMap .invalid).requestCompleted ++
        [(exampleRequest .WriteValues 10 2 [0, 1, 0, 2]).setError .PermissionError
          ("Cannot write to register " ++ toString
            ((DataIterator.new (exampleState mixedAccessMap .invalid) 10 5 2).steps
              j).address)] ∧
      s.mServices.value = (exampleState mixedAccessMap .invalid).mServices.value ∧
      s.mServices.setValueCalls =
        (exampleState mixedAccessMap .invalid).mServices.setValueCalls ∧
      s.mPendingRequests = (exampleState mixedAccessMap .invalid).mPendingRequests :=
  ⟨by decide, handleRequest_permission_error signedCharExt
    (exampleState mixedAccessMap .invalid) (exampleRequest .WriteValues 10 2 [0, 1, 0, 2])
    rfl 1 (exampleEntry "/Dc/0/Current" .mb_type_int16 1 .mb_perm_read) (by decide)
    (by decide)⟩

/-- C8. Exactly one completion. For every request, `handleRequest` returns, and either it
has emitted `requestCompleted` once for the request and registered no monitor, or it has
emitted nothing and registered one monitor for the request; in that case, whatever the
backend has become when the monitor fires, the slot `onItemsInitialized()` returns, removes
the monitor and emits `requestCompleted` once for the request. -/
theorem handleRequest_completes_once (ext : Externals) (self : State)
    (request : MappingRequest) :
    ∃ s, handleRequest ext self request = some s ∧
      ((s.mPendingRequests = self.mPendingRequests ∧
          ∃ r, s.requestCompleted = self.requestCompleted ++ [r] ∧ r.sameRequest request) ∨
       (s.requestCompleted = self.requestCompleted ∧
          (∃ items, s.mPendingRequests = self.mPendingRequests ++ [(items, request)]) ∧
          ∀ services : DBusServices, ∃ s2 r,
            onItemsInitializedSlot ext { s with mServices := services }
              self.mPendingRequests.length = some s2 ∧
            s2.mPendingRequests = self.mPendingRequests ∧
            s2.requestCompleted = self.requestCompleted ++ [r] ∧ r.sameRequest request)) := by
  unfold handleRequest
  dsimp only
  rcases handleRequestLoop_total request request.quantity.toNat
    (DataIterator.new self request.address request.unitId request.quantity) []
    (new_inv self _ _ _) (new_fuel self _ _ _) with ⟨a, hloop⟩ | ⟨it2, items, hloop, _⟩
  · rw [hloop]
    exact ⟨_, rfl, Or.inl ⟨rfl, _, rfl, rfl, rfl, rfl, rfl⟩⟩
  · rw [hloop]
    dsimp only
    split
    · exact ⟨_, rfl, Or.inl ⟨rfl, _, rfl, rfl, rfl, rfl, rfl⟩⟩
    · unfold addPendingRequest
      split
      · obtain ⟨s, r, hs, hc, hr, hp, _, _⟩ := onItemsInitialized_completes ext self request
        exact ⟨s, hs, Or.inl ⟨hp, r, hc, hr⟩⟩
      · refine ⟨_, rfl, Or.inr ⟨rfl, ⟨items, rfl⟩, ?_⟩⟩
        intro services
        obtain ⟨s2, r, hs, hc, hr, hp, _, _⟩ := onItemsInitialized_completes ext
          { mServices := services, mDBusModbusMap := self.mDBusModbusMap,
            mUnitIDMap := self.mUnitIDMap, mPendingRequests := self.mPendingRequests,
            requestCompleted := self.requestCompleted } request
        refine ⟨s2, r, ?_, hp, hc, hr⟩
        unfold onItemsInitializedSlot
        simp only [List.get?_eq_getElem?, List.getElem?_append_right (le_refl _),
          Nat.sub_self, List.getElem?_cons_zero, List.eraseIdx_append_of_length_le (le_refl _),
          List.eraseIdx_cons_zero, List.append_nil]
        exact hs

/-- C10. A `DataIterator` built with a quantity that is not positive is at its end with no
error, whatever the address and the unit id; and `handleRequest` completes a read request
with such a quantity at once, emitting the request as it came: no error is set and its data
are untouched. -/
theorem quantity_not_positive (ext : Externals) (self : State) (request : MappingRequest)
    (hq : request.quantity ≤ 0) (htype : request.type = .ReadValues) :
    (DataIterator.new self request.address request.unitId request.quantity).atEnd = true ∧
    (DataIterator.new self request.address request.unitId request.quantity).error =
      .NoError ∧
    handleRequest ext self request = some (self.emitRequestCompleted request) := by
  have hnew : DataIterator.new self request.address request.unitId request.quantity =
      DataIterator.init request.quantity := by
    unfold DataIterator.new
    simp [hq]
  refine ⟨by rw [hnew]; rfl, by rw [hnew]; rfl, ?_⟩
  unfold handleRequest
  dsimp only
  rw [hnew]
  unfold handleRequestLoop
  simp only [DataIterator.atEnd, DataIterator.init, List.isEmpty_nil, if_true,
    DataIterator.error, ne_eq, not_true_eq_false, if_false]
  unfold addPendingRequest onItemsInitialized getValues
  simp only [List.isEmpty_nil, if_true, htype]
  rw [hnew]
  unfold getValuesLoop
  simp only [DataIterator.atEnd, DataIterator.init, List.isEmpty_nil, if_true,
    DataIterator.error, ne_eq, not_true_eq_false, if_false]
  rw [← htype]

/-- Witness of `quantity_not_positive`: a read of 0 registers from unit id 300 at the
unregistered address 99. -/
theorem quantity_not_positive_witness :
    ((0 : Int) ≤ 0 ∧ RequestType.ReadValues = .ReadValues) ∧
    (DataIterator.new (exampleState gapMap .invalid) 99 300 0).atEnd = true ∧
    (DataIterator.new (exampleState gapMap .invalid) 99 300 0).error = .NoError ∧
    handleRequest signedCharExt (exampleState gapMap .invalid)
        { type := .ReadValues, address := 99, unitId := 300, quantity := 0, data := [],
          error := .NoError, errorString := "" } =
      some ((exampleState gapMap .invalid).emitRequestCompleted
        { type := .ReadValues, address := 99, unitId := 300, quantity := 0, data := [],
          error := .NoError, errorString := "" }) :=
  ⟨⟨by decide, rfl⟩, quantity_not_positive signedCharExt (exampleState gapMap .invalid)
    { type := .ReadValues, address := 99, unitId := 300, quantity := 0, data := [],
      error := .NoError, errorString := "" } (by decide) rfl⟩

/-- C7. Unit id resolution in the constructor, for a positive quantity: a unit id that is a
key of `mUnitIDMap` gives the mapped device instance, an unmapped one in `0..255` gives
itself, and in both cases the constructor goes on to locate the address and to look the
service up with that device instance; an unmapped unit id outside `0..255` leaves the
iterator at its end with `UnitIdError`. -/
theorem unitId_resolution (self : State) (address unitId quantity : Int)
    (hq : 0 < quantity) :
    (∀ di, self.mUnitIDMap.lookup unitId = some di →
      DataIterator.deviceInstance self.mUnitIDMap unitId = some di ∧
      DataIterator.new self address unitId quantity =
        (DataIterator.init quantity).locate self address di) ∧
    (self.mUnitIDMap.lookup unitId = none → 0 ≤ unitId → unitId ≤ 255 →
      DataIterator.deviceInstance self.mUnitIDMap unitId = some unitId ∧
      DataIterator.new self address unitId quantity =
        (DataIterator.init quantity).locate self address unitId) ∧
    (self.mUnitIDMap.lookup unitId = none → (unitId < 0 ∨ 255 < unitId) →
      (DataIterator.new self address unitId quantity).error = .UnitIdError ∧
      (DataIterator.new self address unitId quantity).atEnd = true) := by
  have hq' : ¬ quantity ≤ 0 := not_le.mpr hq
  refine ⟨?_, ?_, ?_⟩
  · intro di h
    have hd : DataIterator.deviceInstance self.mUnitIDMap unitId = some di := by
      simp [DataIterator.deviceInstance, h]
    exact ⟨hd, by simp [DataIterator.new, hq', hd]⟩
  · intro h h0 h255
    have hd : DataIterator.deviceInstance self.mUnitIDMap unitId = some unitId := by
      have : ¬ (unitId < 0 ∨ unitId > 255) := by omega
      simp [DataIterator.deviceInstance, h, this]
    exact ⟨hd, by simp [DataIterator.new, hq', hd]⟩
  · intro h hout
    have hd : DataIterator.deviceInstance self.mUnitIDMap unitId = none := by
      have : unitId < 0 ∨ unitId > 255 := by omega
      simp [DataIterator.deviceInstance, h, this]
    constructor <;>
      simp [DataIterator.new, hq', hd, DataIterator.setError, DataIterator.error,
        DataIterator.atEnd]

/-- Witness of `unitId_resolution`: with only unit id 100 mapped (to 7), unit id 100 gives 7,
unit id 5 gives 5 and unit id 300 gives `UnitIdError`. -/
theorem unitId_resolution_witness :
    (0 : Int) < 1 ∧
    DataIterator.deviceInstance (exampleState gapMap .invalid).mUnitIDMap 100 = some 7 ∧
    DataIterator.deviceInstance (exampleState gapMap .invalid).mUnitIDMap 5 = some 5 ∧
    (DataIterator.new (exampleState gapMap .invalid) 10 300 1).error = .UnitIdError ∧
    (DataIterator.new (exampleState gapMap .invalid) 10 300 1).atEnd = true :=
  ⟨by decide,
    ((unitId_resolution (exampleState gapMap .invalid) 10 100 1 (by decide)).1 7 rfl).1,
    ((unitId_resolution (exampleState gapMap .invalid) 10 5 1 (by decide)).2.1 rfl
      (by decide) (by decide)).1,
    (unitId_resolution (exampleState gapMap .invalid) 10 300 1 (by decide)).2.2 rfl
      (Or.inr (by decide))⟩

/-! ## Arithmetic of the codec -/

theorem cround_intCast (n : Int) : cround (n : ℚ) = n := by
  unfold cround
  split
  · rw [Int.floor_eq_iff]
    constructor <;> norm_num
  · have : ⌊-(n : ℚ) + 1 / 2⌋ = -n := by
      rw [Int.floor_eq_iff]
      constructor <;> push_cast <;> norm_num
    rw [this, neg_neg]

theorem toUnsigned_of_range (w : Nat) (x : Int) (h0 : 0 ≤ x) (h1 : x < 2 ^ w) :
    (toUnsigned w x : Int) = x := by
  unfold toUnsigned
  rw [Int.emod_eq_of_lt h0 h1]
  exact Int.toNat_of_nonneg h0

theorem toUnsigned_natCast (w n : Nat) : toUnsigned w (n : Int) = n % 2 ^ w := by
  unfold toUnsigned
  have : ((n : Int) % 2 ^ w) = ((n % 2 ^ w : Nat) : Int) := by push_cast; rfl
  rw [this, Int.toNat_natCast]

theorem toSigned_of_range (w : Nat) (hw : 0 < w) (x : Int) (h0 : -2 ^ (w - 1) ≤ x)
    (h1 : x < 2 ^ (w - 1)) : toSigned w x = x := by
  unfold toSigned
  have hp : (2 : Int) ^ w = 2 * 2 ^ (w - 1) := by
    rw [← pow_succ']; congr 1; omega
  rw [Int.emod_eq_of_lt (by omega) (by omega)]
  omega

theorem toUnsigned_toSigned (w : Nat) (x : Int) :
    toUnsigned w (toSigned w x) = toUnsigned w x := by
  unfold toUnsigned toSigned
  congr 1
  cases w with
  | zero => simp [Int.emod_one]
  | succ n =>
    have hp : (2 : Int) ^ (n + 1) = 2 * 2 ^ n := pow_succ' 2 n
    simp only [Nat.add_sub_cancel]
    rw [Int.sub_emod, Int.emod_emod_of_dvd _ (dvd_refl _), ← Int.sub_emod]
    ring_nf

theorem word_split (x : Nat) (h : x < 2 ^ 32) :
    ((x >>> 16) % 2 ^ 16) <<< 16 ||| (x &&& 0xFFFF) = x := by
  have h1 : x &&& 0xFFFF = x % 2 ^ 16 := Nat.and_pow_two_sub_one_eq_mod x 16
  have h2 : x >>> 16 = x / 2 ^ 16 := Nat.shiftRight_eq_div_pow x 16
  have h3 : x / 2 ^ 16 < 2 ^ 16 := by omega
  rw [h1, h2, Nat.mod_eq_of_lt h3, Nat.shiftLeft_eq, mul_comm,
    ← Nat.mul_add_lt_is_or (Nat.mod_lt _ (by norm_num))]
  omega

/-! ## Value codec -/

theorem getValue_32bit (ext : Externals) (v : QVariant) (t : ModbusTypes) (s : ℚ)
    (hfit : (t = .mb_type_uint32 ∧ ((∃ d, v = .real d) ∨ ∃ u, v = .unsigned u) ∧
        0 ≤ cround (v.numeric * s) ∧ cround (v.numeric * s) < 2 ^ 32) ∨
      (t = .mb_type_int32 ∧ ((∃ d, v = .real d) ∨ ∃ i, v = .signed i) ∧
        -2 ^ 31 ≤ cround (v.numeric * s) ∧ cround (v.numeric * s) < 2 ^ 31))
    (offset : Int) :
    getValue ext v t offset s =
      if offset = 0 then ((cround (v.numeric * s) % 2 ^ 32).toNat >>> 16) % 2 ^ 16
      else (cround (v.numeric * s) % 2 ^ 32).toNat &&& 0xFFFF := by
  rcases hfit with ⟨rfl, hv, h0, h1⟩ | ⟨rfl, hv, h0, h1⟩
  · have hcast : toUnsigned 32 (toUnsigned 32 (cround (v.numeric * s)) : Int) =
        (cround (v.numeric * s) % 2 ^ 32).toNat := by
      rw [toUnsigned_of_range 32 _ h0 h1]; rfl
    rcases hv with ⟨d, rfl⟩ | ⟨u, rfl⟩ <;>
    · simp only [QVariant.numeric] at hcast
      simp only [getValue, convertFromDbus, RetType.cast, QVariant.numeric, hcast,
        reduceCtorEq, if_false]
  · have hcast : toUnsigned 32 (toSigned 32 (cround (v.numeric * s))) =
        (cround (v.numeric * s) % 2 ^ 32).toNat := by
      rw [toUnsigned_toSigned]; rfl
    rcases hv with ⟨d, rfl⟩ | ⟨i, rfl⟩ <;>
    · simp only [QVariant.numeric] at hcast
      simp only [getValue, convertFromDbus, RetType.cast, QVariant.numeric, hcast,
        reduceCtorEq, if_false]

/-- C5, as amended. 32-bit split: for a valid bus value held as a double, or as an integer
that is taken the way `toInt()`/`toUInt()` return it (reduced to 32 bits), whose scaled and
rounded value `x` fits the register kind, `getValue` gives the high word of `x mod 2^32` at
sub-offset 0 and the low word at sub-offset 1, so the two words recombine to `x mod 2^32`. -/
theorem getValue_32bit_split (ext : Externals) (v : QVariant) (t : ModbusTypes) (s : ℚ)
    (hfit : (t = .mb_type_uint32 ∧ ((∃ d, v = .real d) ∨ ∃ u, v = .unsigned u) ∧
        0 ≤ cround (v.numeric * s) ∧ cround (v.numeric * s) < 2 ^ 32) ∨
      (t = .mb_type_int32 ∧ ((∃ d, v = .real d) ∨ ∃ i, v = .signed i) ∧
        -2 ^ 31 ≤ cround (v.numeric * s) ∧ cround (v.numeric * s) < 2 ^ 31)) :
    getValue ext v t 0 s = (cround (v.numeric * s) % 2 ^ 32).toNat / 2 ^ 16 ∧
    getValue ext v t 1 s = (cround (v.numeric * s) % 2 ^ 32).toNat % 2 ^ 16 ∧
    (getValue ext v t 0 s) <<< 16 ||| getValue ext v t 1 s =
      (cround (v.numeric * s) % 2 ^ 32).toNat := by
  have hlt : (cround (v.numeric * s) % 2 ^ 32).toNat < 2 ^ 32 := by
    have h1 := Int.emod_lt_of_pos (cround (v.numeric * s)) (by norm_num : (0 : Int) < 2 ^ 32)
    have h2 := Int.emod_nonneg (cround (v.numeric * s)) (by norm_num : (2 : Int) ^ 32 ≠ 0)
    omega
  have e0 := getValue_32bit ext v t s hfit 0
  have e1 := getValue_32bit ext v t s hfit 1
  simp only [if_true] at e0
  simp only [one_ne_zero, if_false] at e1
  refine ⟨?_, ?_, ?_⟩
  · rw [e0, Nat.shiftRight_eq_div_pow]
    exact Nat.mod_eq_of_lt (by omega)
  · rw [e1]; exact Nat.and_pow_two_sub_one_eq_mod _ 16
  · rw [e0, e1]; exact word_split _ hlt

/-- Witness of `getValue_32bit_split`: a `uint32` register with scale factor 1 holding the
bus value `0x12345678` gives `0x1234` and then `0x5678`. -/
theorem getValue_32bit_split_witness :
    cround ((QVariant.unsigned 0x12345678).numeric * 1) = 0x12345678 ∧
    getValue signedCharExt (.unsigned 0x12345678) .mb_type_uint32 0 1 = 0x1234 ∧
    getValue signedCharExt (.unsigned 0x12345678) .mb_type_uint32 1 1 = 0x5678 := by
  have hx : cround ((QVariant.unsigned 0x12345678).numeric * 1) = 0x12345678 := by
    have : (QVariant.unsigned 0x12345678).numeric * 1 = ((0x12345678 : Int) : ℚ) := by
      norm_num [QVariant.numeric, toUInt]
    rw [this, cround_intCast]
  have h := getValue_32bit_split signedCharExt (.unsigned 0x12345678) .mb_type_uint32 1
    (Or.inl ⟨rfl, Or.inr ⟨_, rfl⟩, by rw [hx]; norm_num, by rw [hx]; norm_num⟩)
  rw [hx] at h
  exact ⟨hx, h.1.trans (by decide), h.2.1.trans (by decide)⟩

/-- C5, as stated, fails: the unsigned 64-bit bus value `2^32` with scale factor `1/2` has
the scaled value `2^31`, which fits a `uint32` register and has the high word `0x8000`, but
`toUInt()` reduces the bus value to 0 and `getValue` gives 0 for both words. -/
theorem getValue_32bit_split_counterexample :
    cround ((4294967296 : ℚ) * (1 / 2)) = 2147483648 ∧
    getValue signedCharExt (.unsigned 4294967296) .mb_type_uint32 0 (1 / 2) = 0 ∧
    getValue signedCharExt (.unsigned 4294967296) .mb_type_uint32 1 (1 / 2) = 0 ∧
    ¬ ((getValue signedCharExt (.unsigned 4294967296) .mb_type_uint32 0 (1 / 2)) <<< 16 |||
        getValue signedCharExt (.unsigned 4294967296) .mb_type_uint32 1 (1 / 2) =
      (cround ((4294967296 : ℚ) * (1 / 2)) % 2 ^ 32).toNat) := by
  have hx : cround ((4294967296 : ℚ) * (1 / 2)) = 2147483648 := by
    have : (4294967296 : ℚ) * (1 / 2) = ((2147483648 : Int) : ℚ) := by norm_num
    rw [this, cround_intCast]
  have hz : cround ((QVariant.unsigned 4294967296).numeric * (1 / 2)) = 0 := by
    have : (QVariant.unsigned 4294967296).numeric * (1 / 2) = ((0 : Int) : ℚ) := by
      norm_num [QVariant.numeric, toUInt]
    rw [this, cround_intCast]
  have hfit : (ModbusTypes.mb_type_uint32 = .mb_type_uint32 ∧
        ((∃ d, QVariant.unsigned 4294967296 = .real d) ∨
          ∃ u, QVariant.unsigned 4294967296 = .unsigned u) ∧
        0 ≤ cround ((QVariant.unsigned 4294967296).numeric * (1 / 2)) ∧
        cround ((QVariant.unsigned 4294967296).numeric * (1 / 2)) < 2 ^ 32) ∨
      (ModbusTypes.mb_type_uint32 = .mb_type_int32 ∧
        ((∃ d, QVariant.unsigned 4294967296 = .real d) ∨
          ∃ i, QVariant.unsigned 4294967296 = .signed i) ∧
        -2 ^ 31 ≤ cround ((QVariant.unsigned 4294967296).numeric * (1 / 2)) ∧
        cround ((QVariant.unsigned 4294967296).numeric * (1 / 2)) < 2 ^ 31) :=
    Or.inl ⟨rfl, Or.inr ⟨_, rfl⟩, by rw [hz], by rw [hz]; norm_num⟩
  have h0 : getValue signedCharExt (.unsigned 4294967296) .mb_type_uint32 0 (1 / 2) = 0 := by
    rw [getValue_32bit _ _ _ _ hfit 0, hz]; decide
  have h1 : getValue signedCharExt (.unsigned 4294967296) .mb_type_uint32 1 (1 / 2) = 0 := by
    rw [getValue_32bit _ _ _ _ hfit 1, hz]; decide
  refine ⟨hx, h0, h1, ?_⟩
  rw [h0, h1, hx]
  decide

theorem toLatin1_getD_lt (s : QStr) (i : Nat) : (toLatin1 s).getD i 0 < 256 := by
  unfold toLatin1
  rw [List.getD_eq_getElem?_getD, List.getElem?_map]
  cases s[i]? with
  | none => simp
  | some c =>
    simp only [Option.map_some', Option.getD_some]
    split <;> omega

/-- String packing where plain `char` is unsigned: the register at sub-offset `k` is
`256 * b[2k] + b[2k+1]` over the Latin-1 bytes `b`, absent bytes counting as 0, whatever the
scale factor. -/
theorem getValue_string_unsigned_char (ext : Externals) (hc : ext.charIsSigned = false)
    (s : QStr) (k : Nat) (scale : ℚ) :
    getValue ext (.string s) .mb_type_string k scale =
      256 * (toLatin1 s).getD (2 * k) 0 + (toLatin1 s).getD (2 * k + 1) 0 := by
  have hhi := toLatin1_getD_lt s (2 * k)
  have hlo := toLatin1_getD_lt s (2 * k + 1)
  have hidx : (2 * (k : Int)).toNat = 2 * k := by omega
  have hidx1 : (2 * (k : Int) + 1).toNat = 2 * k + 1 := by omega
  simp only [getValue, reduceCtorEq, if_false, QVariant.toString, charAt, hc,
    Bool.false_eq_true, hidx, hidx1]
  by_cases h1 : (toLatin1 s).length ≤ 2 * k
  · have h1' : ((toLatin1 s).length : Int) ≤ 2 * (k : Int) := by omega
    rw [if_pos h1']
    rw [List.getD_eq_default _ _ h1, List.getD_eq_default _ _ (by omega)]
  · have h1' : ¬ ((toLatin1 s).length : Int) ≤ 2 * (k : Int) := by omega
    rw [if_neg h1']
    have hv : toUnsigned 16 (((toLatin1 s).getD (2 * k) 0 : Nat) * 2 ^ 8 : Int) =
        256 * (toLatin1 s).getD (2 * k) 0 := by
      have : (((toLatin1 s).getD (2 * k) 0 : Nat) * 2 ^ 8 : Int) =
          ((256 * (toLatin1 s).getD (2 * k) 0 : Nat) : Int) := by push_cast; ring
      rw [this, toUnsigned_natCast]
      exact Nat.mod_eq_of_lt (by omega)
    rw [hv]
    by_cases h2 : (toLatin1 s).length ≤ 2 * k + 1
    · have h2' : ((toLatin1 s).length : Int) ≤ 2 * (k : Int) + 1 := by omega
      rw [if_pos h2', List.getD_eq_default _ _ h2]
      rfl
    · have h2' : ¬ ((toLatin1 s).length : Int) ≤ 2 * (k : Int) + 1 := by omega
      rw [if_neg h2']
      have hor : orInt ((256 * (toLatin1 s).getD (2 * k) 0 : Nat) : Int)
          (((toLatin1 s).getD (2 * k + 1) 0 : Nat) : Int) =
          256 * (toLatin1 s).getD (2 * k) 0 ||| (toLatin1 s).getD (2 * k + 1) 0 := by
        unfold orInt
        rw [toUnsigned_natCast, toUnsigned_natCast, Nat.mod_eq_of_lt (by omega),
          Nat.mod_eq_of_lt (by omega)]
      rw [hor, toUnsigned_natCast,
        ← Nat.mul_add_lt_is_or (i := 8) (by simpa using hlo) ((toLatin1 s).getD (2 * k) 0)]
      exact Nat.mod_eq_of_lt (by omega)

/-- C6 at the failing input. Where plain `char` is signed, the string "Aé" (Latin-1
bytes `0x41 0xE9`) decodes at sub-offset 0 to `0xFFE9`: the low byte is sign-extended over
the high byte. The packing `256 * 0x41 + 0xE9` is `0x41E9`, which is what the same string
decodes to where plain `char` is unsigned. -/
theorem getValue_string_sign_extension :
    getValue signedCharExt (.string [0x41, 0xE9]) .mb_type_string 0 1 = 0xFFE9 ∧
    getValue unsignedCharExt (.string [0x41, 0xE9]) .mb_type_string 0 1 = 0x41E9 ∧
    getValue signedCharExt (.string [0x41, 0x42]) .mb_type_string 0 1 = 0x4142 ∧
    getValue signedCharExt (.string [0x41, 0x42]) .mb_type_string 1 1 = 0 := by
  exact ⟨rfl, rfl, rfl, rfl⟩

theorem toSigned_toUnsigned (w : Nat) (hw : 0 < w) (r : Int) (h0 : -2 ^ (w - 1) ≤ r)
    (h1 : r < 2 ^ (w - 1)) : toSigned w (toUnsigned w r : Int) = r := by
  have hpos : (0 : Int) ≤ r % 2 ^ w := Int.emod_nonneg _ (by positivity)
  have hcast : ((toUnsigned w r : Nat) : Int) = r % 2 ^ w := by
    unfold toUnsigned
    exact Int.toNat_of_nonneg hpos
  rw [hcast]
  have : toSigned w (r % 2 ^ w) = toSigned w r := by
    unfold toSigned
    rw [Int.emod_add_emod]
  rw [this]
  exact toSigned_of_range w hw r h0 h1

/-- C9. Scaling round trip in exact arithmetic: for an `int16` register value `r`, an
`int16` entry with a non-zero scale factor `s` and a double-typed property, the write path,
which takes `r` from the register word `r mod 2^16`, converts it to the bus value `r / s`
(`convertToDbus`), and `getValue` decodes that bus value back to the word `r mod 2^16`. -/
theorem int16_scaling_round_trip (ext : Externals) (d : DBusModbusData) (r : Int)
    (hr0 : -2 ^ 15 ≤ r) (hr1 : r < 2 ^ 15) (htype : d.modbusType = .mb_type_int16)
    (hdbus : d.dbusType = .Double ∨ d.dbusType = .Float) (hs : d.scaleFactor ≠ 0) :
    convertToDbus d.dbusType r d.scaleFactor = .real ((r : ℚ) / d.scaleFactor) ∧
    encodeRegister d (toUnsigned 16 r) = .real ((r : ℚ) / d.scaleFactor) ∧
    getValue ext (.real ((r : ℚ) / d.scaleFactor)) .mb_type_int16 0 d.scaleFactor =
      toUnsigned 16 r := by
  have hconv : convertToDbus d.dbusType r d.scaleFactor = .real ((r : ℚ) / d.scaleFactor) := by
    rcases hdbus with h | h <;> simp [convertToDbus, h]
  have hback : toSigned 16 (toUnsigned 16 r : Int) = r :=
    toSigned_toUnsigned 16 (by norm_num) r (by norm_num; omega) (by norm_num; omega)
  refine ⟨hconv, by simp only [encodeRegister, htype, hback, hconv], ?_⟩
  have hmul : ((r : ℚ) / d.scaleFactor) * d.scaleFactor = (r : ℚ) := div_mul_cancel₀ _ hs
  simp only [getValue, reduceCtorEq, if_false, convertFromDbus, RetType.cast, hmul,
    cround_intCast, toUnsigned_toSigned]

/-- Witness of `int16_scaling_round_trip`: with scale factor 10 the register value 55 is
stored as the bus value 5.5, and the bus value 5.5 decodes to 55. -/
theorem int16_scaling_round_trip_witness :
    (-2 ^ 15 ≤ (55 : Int) ∧ (55 : Int) < 2 ^ 15 ∧ scaledEntry.scaleFactor ≠ 0) ∧
    convertToDbus .Double 55 10 = .real (11 / 2) ∧
    getValue signedCharExt (.real (11 / 2)) .mb_type_int16 0 10 = 55 := by
  have h := int16_scaling_round_trip signedCharExt scaledEntry 55 (by norm_num) (by norm_num)
    rfl (Or.inl rfl) (by norm_num [scaledEntry])
  have hq : ((55 : Int) : ℚ) / scaledEntry.scaleFactor = 11 / 2 := by
    norm_num [scaledEntry]
  have hw : toUnsigned 16 (55 : Int) = 55 := by decide
  rw [hq, hw] at h
  exact ⟨⟨by norm_num, by norm_num, by norm_num [scaledEntry]⟩, h.1, h.2.2⟩

/-! ## Requests of one register -/

theorem lowerBound_of_mem (map : List (Int × DBusModbusData))
    (hs : map.Pairwise (fun a b => a.1 < b.1)) (A : Int) (d : DBusModbusData)
    (hmem : (A, d) ∈ map) : ∃ rest, lowerBound map A = (A, d) :: rest := by
  induction map with
  | nil => simp at hmem
  | cons e tl ih =>
    rw [List.pairwise_cons] at hs
    rcases List.mem_cons.mp hmem with h | h
    · subst h
      exact ⟨tl, by simp [lowerBound, List.dropWhile_cons]⟩
    · have hlt : e.1 < A := hs.1 (A, d) h
      obtain ⟨rest, hr⟩ := ih hs.2 h
      exact ⟨rest, by simpa [lowerBound, List.dropWhile_cons, hlt] using hr⟩

theorem new_at_key (self : State) (A unitId quantity di : Int) (d : DBusModbusData)
    (root : Nat) (hq : 0 < quantity)
    (hs : self.mDBusModbusMap.Pairwise (fun a b => a.1 < b.1))
    (hmem : (A, d) ∈ self.mDBusModbusMap)
    (hunit : DataIterator.deviceInstance self.mUnitIDMap unitId = some di)
    (hsvc : self.mServices.getService d.deviceType di = some root) :
    ∃ rest, DataIterator.new self A unitId quantity =
      { mQuantity := quantity, mOffset := 0, mCurrent := (A, d) :: rest,
        mServiceRoot := some root, mError := .NoError, mErrorString := "" } := by
  obtain ⟨rest, hr⟩ := lowerBound_of_mem _ hs A d hmem
  refine ⟨rest, ?_⟩
  simp [DataIterator.new, not_le.mpr hq, hunit, DataIterator.locate, hr, DataIterator.attach,
    hsvc, DataIterator.init]

theorem state_eta (self : State) (x : List VeQItem × MappingRequest) :
    ({ self with mPendingRequests :=
        (self.mPendingRequests ++ [x]).eraseIdx self.mPendingRequests.length } : State) =
      self := by
  cases self
  simp [List.eraseIdx_append_of_length_le (le_refl _)]

theorem runRequest_of_walked (ext : Externals) (self : State) (request : MappingRequest)
    (it2 : DataIterator) (items : List VeQItem)
    (hloop : handleRequestLoop request request.quantity.toNat
      (DataIterator.new self request.address request.unitId request.quantity) [] =
        some (.walked it2 items))
    (herr : it2.error = .NoError) :
    runRequest ext self request = onItemsInitialized ext self request := by
  unfold runRequest handleRequest
  dsimp only
  rw [hloop]
  simp only [herr, ne_eq, not_true_eq_false, if_false]
  unfold addPendingRequest
  by_cases he : items.isEmpty = true
  · simp only [he, if_true]
    obtain ⟨s, r, hs, _, _, hp, _, _⟩ := onItemsInitialized_completes ext self request
    rw [hs]
    simp [hp]
  · simp only [he, Bool.false_eq_true, if_false, List.length_append, List.length_singleton,
      if_true]
    unfold onItemsInitializedSlot
    simp only [List.get?_eq_getElem?, List.getElem?_append_right (le_refl _), Nat.sub_self,
      List.getElem?_cons_zero]
    rw [state_eta]

/-- The first walk over one register of the entry `(A, d)`, at the offset `off`. -/
theorem single_walk (request : MappingRequest) (A : Int) (d : DBusModbusData)
    (rest : List (Int × DBusModbusData)) (root : Nat) (off : Int) (hoff : 0 ≤ off)
    (hok : ¬ (request.type = .WriteValues ∧ d.accessRights ≠ .mb_perm_write)) (fuel : Nat) :
    ∃ it2, handleRequestLoop request (fuel + 1)
      { mQuantity := 1, mOffset := off, mCurrent := (A, d) :: rest, mServiceRoot := some root,
        mError := .NoError, mErrorString := "" } [] =
      some (.walked it2 [{ root := root, objectPath := d.objectPath }]) ∧
      it2.error = .NoError := by
  refine ⟨{ mQuantity := 0, mOffset := off, mCurrent := [], mServiceRoot := some root,
            mError := .NoError, mErrorString := "" }, ?_, rfl⟩
  · have hden : writeDenied request
        { mQuantity := 1, mOffset := off, mCurrent := (A, d) :: rest,
          mServiceRoot := some root, mError := .NoError, mErrorString := "" } =
        some false := by
      unfold writeDenied
      by_cases ht : request.type = .WriteValues
      · have : d.accessRights = .mb_perm_write := by
          by_contra hne; exact hok ⟨ht, hne⟩
        simp [ht, DataIterator.data, this, not_lt.mpr hoff]
      · simp [ht]
    unfold handleRequestLoop
    simp only [DataIterator.atEnd, List.isEmpty_cons, Bool.false_eq_true, if_false, hden,
      DataIterator.item, List.nil_append]
    unfold handleRequestLoop
    simp only [DataIterator.next, sub_self, if_true, DataIterator.atEnd, List.isEmpty_nil]

/-- A read request of one register whose iterator stands on the entry `(key, d)` at the
offset `off`: the reply is the register `getValue` decodes at that offset. -/
theorem single_read_at (ext : Externals) (self : State) (address unitId : Int)
    (data : QByteArray) (error : MappingErrors) (errorString : String) (key : Int)
    (d : DBusModbusData) (rest : List (Int × DBusModbusData)) (root : Nat) (off : Int)
    (hoff : 0 ≤ off)
    (hnew : DataIterator.new self address unitId 1 =
      DataIterator.mk 1 off ((key, d) :: rest) (some root) .NoError "") :
    runRequest ext self
        { type := .ReadValues, address := address, unitId := unitId, quantity := 1,
          data := data, error := error, errorString := errorString } =
      some (self.emitRequestCompleted
        { type := .ReadValues, address := address, unitId := unitId, quantity := 1,
          data := setByte (setByte data 0
            ((getValue ext (self.mServices.value { root := root, objectPath := d.objectPath })
              d.modbusType off d.scaleFactor >>> 8) % 256)) 1
            (getValue ext (self.mServices.value { root := root, objectPath := d.objectPath })
              d.modbusType off d.scaleFactor % 256),
          error := error, errorString := errorString }) := by
  obtain ⟨it2, hloop, herr⟩ := single_walk
    { type := .ReadValues, address := address, unitId := unitId, quantity := 1,
      data := data, error := error, errorString := errorString } key d rest root off hoff
    (by simp) 0
  rw [runRequest_of_walked ext self _ it2 _ (by simp only [hnew]; exact hloop) herr]
  unfold onItemsInitialized
  simp only
  unfold getValues
  simp only [hnew]
  unfold getValuesLoop
  simp only [Int.toNat_one, DataIterator.atEnd, List.isEmpty_cons, Bool.false_eq_true,
    if_false, DataIterator.data, not_lt.mpr hoff, DataIterator.item, DataIterator.offset,
    DBusServices.getValue]
  unfold getValuesLoop
  simp only [DataIterator.next, sub_self, if_true, DataIterator.atEnd, List.isEmpty_nil,
    DataIterator.error, ne_eq, not_true_eq_false, if_false]

theorem single_read (ext : Externals) (self : State) (address unitId : Int)
    (data : QByteArray) (error : MappingErrors) (errorString : String)
    (d : DBusModbusData) (di : Int) (root : Nat)
    (hs : self.mDBusModbusMap.Pairwise (fun a b => a.1 < b.1))
    (hmem : (address, d) ∈ self.mDBusModbusMap)
    (hunit : DataIterator.deviceInstance self.mUnitIDMap unitId = some di)
    (hsvc : self.mServices.getService d.deviceType di = some root) :
    runRequest ext self
        { type := .ReadValues, address := address, unitId := unitId, quantity := 1,
          data := data, error := error, errorString := errorString } =
      some (self.emitRequestCompleted
        { type := .ReadValues, address := address, unitId := unitId, quantity := 1,
          data := setByte (setByte data 0
            ((getValue ext (self.mServices.value { root := root, objectPath := d.objectPath })
              d.modbusType 0 d.scaleFactor >>> 8) % 256)) 1
            (getValue ext (self.mServices.value { root := root, objectPath := d.objectPath })
              d.modbusType 0 d.scaleFactor % 256),
          error := error, errorString := errorString }) := by
  obtain ⟨rest, hnew⟩ := new_at_key self address unitId 1 di d root (by omega) hs hmem hunit
    hsvc
  exact single_read_at ext self address unitId data error errorString address d rest root 0
    (le_refl _) hnew

theorem single_write (ext : Externals) (self : State) (address unitId : Int)
    (error : MappingErrors) (errorString : String)
    (d : DBusModbusData) (di : Int) (root : Nat) (w : Nat) (hw : w < 2 ^ 16)
    (hs : self.mDBusModbusMap.Pairwise (fun a b => a.1 < b.1))
    (hmem : (address, d) ∈ self.mDBusModbusMap)
    (hsize : d.size = 1) (hacc : d.accessRights = .mb_perm_write)
    (hunit : DataIterator.deviceInstance self.mUnitIDMap unitId = some di)
    (hsvc : self.mServices.getService d.deviceType di = some root)
    (hrc : ext.registerCount (DataIterator.new self address unitId 1) = 1)
    (hvalid : encodeRegister d w ≠ .invalid)
    (hset : self.mServices.setValueResult { root := root, objectPath := d.objectPath }
      (encodeRegister d w) = 0) :
    runRequest ext self
        { type := .WriteValues, address := address, unitId := unitId, quantity := 1,
          data := [w / 256, w % 256], error := error, errorString := errorString } =
      some (State.emitRequestCompleted
        { self with
          mServices := (self.mServices.setValue { root := root, objectPath := d.objectPath }
            (encodeRegister d w)).2 }
        { type := .WriteValues, address := address, unitId := unitId, quantity := 1,
          data := [w / 256, w % 256], error := error, errorString := errorString }) := by
  obtain ⟨rest, hnew⟩ := new_at_key self address unitId 1 di d root (by omega) hs hmem hunit
    hsvc
  rw [hnew] at hrc
  obtain ⟨it2, hloop, herr⟩ := single_walk
    { type := .WriteValues, address := address, unitId := unitId, quantity := 1,
      data := [w / 256, w % 256], error := error, errorString := errorString } address d rest
    root 0 (le_refl _) (by simp [hacc]) 0
  rw [runRequest_of_walked ext self _ it2 _ (by simp only [hnew]; exact hloop) herr]
  have hword : ((w / 256 % 256) <<< 8 ||| w % 256 % 256) = w := by
    have h1 : w / 256 < 256 := by omega
    rw [Nat.mod_eq_of_lt h1, Nat.mod_mod, Nat.shiftLeft_eq, mul_comm,
      ← Nat.mul_add_lt_is_or (i := 8) (Nat.mod_lt _ (by norm_num))]
    omega
  have hentry : setValuesEntry ext [w / 256, w % 256]
      { mQuantity := 1, mOffset := 0, mCurrent := (address, d) :: rest,
        mServiceRoot := some root, mError := .NoError, mErrorString := "" } d
      (self.mServices.getValue { root := root, objectPath := d.objectPath }) 0 =
      (2, encodeRegister d w) := by
    simp only [setValuesEntry, hrc, hsize, DataIterator.offset, lt_self_iff_false, gt_iff_lt,
      or_self, if_false, Int.toNat_one, payloadLoop, List.getD_cons_zero, zero_add,
      List.getD_cons_succ, hword, Nat.cast_one, sub_self, mul_zero]
    have hshl : shl32 w 0 = w := by
      simp only [shl32, lt_self_iff_false, if_false, Int.toNat_zero, Nat.shiftLeft_zero]
      exact Nat.mod_eq_of_lt (by omega)
    simp [hshl]
  unfold onItemsInitialized
  simp only
  unfold setValues
  simp only [hnew]
  unfold setValuesLoop
  simp only [Int.toNat_one, DataIterator.atEnd, List.isEmpty_cons, Bool.false_eq_true,
    if_false, DataIterator.data, lt_self_iff_false, DataIterator.item, hentry, hvalid]
  have hrcz : (self.mServices.setValue { root := root, objectPath := d.objectPath }
      (encodeRegister d w)).1 = 0 := hset
  simp only [hrcz, ne_eq, not_true_eq_false, if_false]
  unfold setValuesLoop
  simp only [DataIterator.next, sub_self, if_true, DataIterator.atEnd, List.isEmpty_nil,
    DataIterator.error, ne_eq, not_true_eq_false, if_false]

theorem convertToDbus_one (t : QMetaType) (ht : isNumeric t = true) (V : Nat)
    (hV : V < 2 ^ 16) :
    convertToDbus t (V : Int) 1 = .real (V : ℚ) ∨ convertToDbus t (V : Int) 1 = .signed V ∨
      convertToDbus t (V : Int) 1 = .unsigned V := by
  have hr : cround ((V : ℚ)) = (V : Int) := by
    have := cround_intCast (V : Int)
    simpa using this
  have hsg : toSigned 32 (V : Int) = V :=
    toSigned_of_range 32 (by norm_num) _ (by norm_num; omega) (by norm_num; omega)
  have hus : toUnsigned 32 (V : Int) = V := by
    rw [toUnsigned_natCast]; exact Nat.mod_eq_of_lt (by omega)
  cases t <;> simp only [isNumeric, Bool.false_eq_true] at ht <;>
    simp [convertToDbus, hr, hsg, hus]

theorem getValue_uint16_one (ext : Externals) (V : Nat) (hV : V < 2 ^ 16) :
    getValue ext (.real (V : ℚ)) .mb_type_uint16 0 1 = V ∧
    getValue ext (.signed V) .mb_type_uint16 0 1 = V ∧
    getValue ext (.unsigned V) .mb_type_uint16 0 1 = V := by
  have hsg : toSigned 32 (V : Int) = V :=
    toSigned_of_range 32 (by norm_num) _ (by norm_num; omega) (by norm_num; omega)
  have hu : V % 2 ^ 32 = V := Nat.mod_eq_of_lt (by omega)
  have h16 : V % 2 ^ 16 = V := Nat.mod_eq_of_lt hV
  have hc : cround ((V : ℚ)) = (V : Int) := by
    have := cround_intCast (V : Int)
    simpa using this
  refine ⟨?_, ?_, ?_⟩
  · simp only [getValue, reduceCtorEq, if_false, convertFromDbus, RetType.cast, mul_one, hc,
      toUnsigned_natCast, h16]
  · simp only [getValue, reduceCtorEq, if_false, convertFromDbus, RetType.cast, mul_one, toInt,
      hsg, Int.cast_natCast, hc, toUnsigned_natCast, h16]
  · simp only [getValue, reduceCtorEq, if_false, convertFromDbus, RetType.cast, mul_one,
      toUInt, hu, hc, toUnsigned_natCast, h16]

/-- C4. Round trip of a `uint16` register with scale factor 1 over a numeric property:
`getValue` undoes `convertToDbus`; and a write request of the value `V` to the register,
which the backend accepts, followed by a read request of the register, completes both
requests without an error, the reply of the read being the two bytes of `V`. -/
theorem uint16_write_then_read (ext : Externals) (self : State) (address unitId : Int)
    (d : DBusModbusData) (di : Int) (root : Nat) (V : Nat) (hV : V < 2 ^ 16)
    (hs : self.mDBusModbusMap.Pairwise (fun a b => a.1 < b.1))
    (hmem : (address, d) ∈ self.mDBusModbusMap)
    (htype : d.modbusType = .mb_type_uint16) (hscale : d.scaleFactor = 1)
    (hsize : d.size = 1) (hacc : d.accessRights = .mb_perm_write)
    (hnum : isNumeric d.dbusType = true)
    (hunit : DataIterator.deviceInstance self.mUnitIDMap unitId = some di)
    (hsvc : self.mServices.getService d.deviceType di = some root)
    (hrc : ext.registerCount (DataIterator.new self address unitId 1) = 1)
    (hset : self.mServices.setValueResult { root := root, objectPath := d.objectPath }
      (convertToDbus d.dbusType V 1) = 0) :
    getValue ext (convertToDbus d.dbusType V 1) .mb_type_uint16 0 1 = V ∧
    ∃ s1 s2,
      runRequest ext self
          { type := .WriteValues, address := address, unitId := unitId, quantity := 1,
            data := [V / 256, V % 256], error := .NoError, errorString := "" } = some s1 ∧
      s1.requestCompleted = self.requestCompleted ++
        [{ type := .WriteValues, address := address, unitId := unitId, quantity := 1,
           data := [V / 256, V % 256], error := .NoError, errorString := "" }] ∧
      s1.mServices.value { root := root, objectPath := d.objectPath } =
        convertToDbus d.dbusType V 1 ∧
      runRequest ext s1
          { type := .ReadValues, address := address, unitId := unitId, quantity := 1,
            data := [], error := .NoError, errorString := "" } = some s2 ∧
      s2.requestCompleted = s1.requestCompleted ++
        [{ type := .ReadValues, address := address, unitId := unitId, quantity := 1,
           data := [V / 256, V % 256], error := .NoError, errorString := "" }] := by
  have hcodec : getValue ext (convertToDbus d.dbusType V 1) .mb_type_uint16 0 1 = V := by
    obtain ⟨g1, g2, g3⟩ := getValue_uint16_one ext V hV
    rcases convertToDbus_one d.dbusType hnum V hV with h | h | h
    · rw [h]; exact g1
    · rw [h]; exact g2
    · rw [h]; exact g3
  have henc : encodeRegister d V = convertToDbus d.dbusType V 1 := by
    simp only [encodeRegister, htype, hscale, toUnsigned_natCast, Nat.mod_eq_of_lt hV]
  have hvalid : encodeRegister d V ≠ .invalid := by
    rw [henc]
    rcases convertToDbus_one d.dbusType hnum V hV with h | h | h <;> rw [h] <;> simp
  have hw := single_write ext self address unitId .NoError "" d di root V hV hs hmem hsize
    hacc hunit hsvc hrc hvalid (by rw [henc]; exact hset)
  have hval : (self.mServices.setValue { root := root, objectPath := d.objectPath }
      (encodeRegister d V)).2.value { root := root, objectPath := d.objectPath } =
      convertToDbus d.dbusType V 1 := by
    simp [DBusServices.setValue, henc, hset]
  have hr := single_read ext
    (State.emitRequestCompleted
      { self with
        mServices := (self.mServices.setValue { root := root, objectPath := d.objectPath }
          (encodeRegister d V)).2 }
      { type := .WriteValues, address := address, unitId := unitId, quantity := 1,
        data := [V / 256, V % 256], error := .NoError, errorString := "" })
    address unitId [] .NoError "" d di root hs hmem hunit hsvc
  refine ⟨hcodec, _, _, hw, ?_, hval, hr, ?_⟩
  · simp only [State.emitRequestCompleted]
  · have hv2 : (State.emitRequestCompleted
        { self with
          mServices := (self.mServices.setValue { root := root, objectPath := d.objectPath }
            (encodeRegister d V)).2 }
        { type := .WriteValues, address := address, unitId := unitId, quantity := 1,
          data := [V / 256, V % 256], error := .NoError,
          errorString := "" }).mServices.value { root := root, objectPath := d.objectPath } =
        convertToDbus d.dbusType V 1 := hval
    have h1 : V / 2 ^ 8 % 256 = V / 256 := Nat.mod_eq_of_lt (by omega)
    rw [hv2, htype, hscale, hcodec]
    simp [State.emitRequestCompleted, setByte, Nat.shiftRight_eq_div_pow, h1]
    omega

/-- Witness of `uint16_write_then_read`: the value `0xABCD` written to and read back from
the register at 10 of `roundTripMap`. -/
theorem uint16_write_then_read_witness :
    ((43981 : Nat) < 2 ^ 16 ∧
      signedCharExt.registerCount
        (DataIterator.new (exampleState roundTripMap .invalid) 10 5 1) = 1) ∧
    getValue signedCharExt (convertToDbus roundTripEntry.dbusType ((43981 : Nat) : Int) 1)
      .mb_type_uint16 0 1 = 43981 ∧
    ∃ s1 s2,
      runRequest signedCharExt (exampleState roundTripMap .invalid)
          { type := .WriteValues, address := 10, unitId := 5, quantity := 1,
            data := [43981 / 256, 43981 % 256], error := .NoError, errorString := "" } =
        some s1 ∧
      s1.requestCompleted = (exampleState roundTripMap .invalid).requestCompleted ++
        [{ type := .WriteValues, address := 10, unitId := 5, quantity := 1,
           data := [43981 / 256, 43981 % 256], error := .NoError, errorString := "" }] ∧
      s1.mServices.value { root := 0, objectPath := roundTripEntry.objectPath } =
        convertToDbus roundTripEntry.dbusType ((43981 : Nat) : Int) 1 ∧
      runRequest signedCharExt s1
          { type := .ReadValues, address := 10, unitId := 5, quantity := 1,
            data := [], error := .NoError, errorString := "" } = some s2 ∧
      s2.requestCompleted = s1.requestCompleted ++
        [{ type := .ReadValues, address := 10, unitId := 5, quantity := 1,
           data := [43981 / 256, 43981 % 256], error := .NoError, errorString := "" }] :=
  ⟨⟨by norm_num, rfl⟩,
    uint16_write_then_read signedCharExt (exampleState roundTripMap .invalid) 10 5
      roundTripEntry 5 0 43981 (by norm_num) (by simp [exampleState, roundTripMap])
      (by simp [exampleState, roundTripMap]) rfl rfl rfl rfl rfl rfl rfl rfl rfl⟩

/-! ## Contiguity of the walk -/

theorem walk_suffix : ∀ (n : Nat) (key : Int) (d : DBusModbusData)
    (rest : List (Int × DBusModbusData)) (off : Int) (root : Option Nat),
    ((key, d) :: rest).Pairwise endsBefore → (∀ e ∈ (key, d) :: rest, 1 ≤ e.2.size) →
    0 ≤ off → off < d.size →
    ((DataIterator.mk (n + 1 : Nat) off ((key, d) :: rest) root .NoError "").steps
        (n + 1)).mCurrent = [] ∧
    (((DataIterator.mk (n + 1 : Nat) off ((key, d) :: rest) root .NoError "").steps
        (n + 1)).mError = .NoError ∨
      ((DataIterator.mk (n + 1 : Nat) off ((key, d) :: rest) root .NoError "").steps
        (n + 1)).mError = .AddressError) ∧
    (((DataIterator.mk (n + 1 : Nat) off ((key, d) :: rest) root .NoError "").steps
        (n + 1)).mError = .NoError ↔
      ∀ a, key + off ≤ a → a < key + off + (n + 1 : Nat) → covered ((key, d) :: rest) a) := by
  intro n
  induction n with
  | zero =>
    intro key d rest off root _ _ h0 h1
    have hstep : (DataIterator.mk (0 + 1 : Nat) off ((key, d) :: rest) root .NoError "").steps
        (0 + 1) = DataIterator.mk 0 off [] root .NoError "" := by
      simp [DataIterator.steps, DataIterator.next]
    rw [hstep]
    refine ⟨rfl, Or.inl rfl, ?_⟩
    simp only [true_iff]
    intro a ha1 ha2
    exact ⟨(key, d), by simp, by simp only; omega, by simp only; push_cast at ha2; omega⟩
  | succ n ih =>
    intro key d rest off root hp hsz h0 h1
    have hself : covered ((key, d) :: rest) (key + off) :=
      ⟨(key, d), by simp, by simp only; omega, by simp only; omega⟩
    have hq : ((n + 1 + 1 : Nat) : Int) - 1 = ((n + 1 : Nat) : Int) := by push_cast; ring
    have hq0 : ¬ ((n + 1 : Nat) : Int) = 0 := by push_cast; omega
    rw [steps_succ]
    by_cases hin : off + 1 < d.size
    · have hnext : (DataIterator.mk (n + 1 + 1 : Nat) off ((key, d) :: rest) root .NoError
          "").next = DataIterator.mk (n + 1 : Nat) (off + 1) ((key, d) :: rest) root .NoError
          "" := by
        simp only [DataIterator.next, hq, hq0, if_false, hin, if_true]
      rw [hnext]
      obtain ⟨i1, i2, i3⟩ := ih key d rest (off + 1) root hp hsz (by omega) hin
      refine ⟨i1, i2, i3.trans ⟨?_, ?_⟩⟩
      · intro h a ha1 ha2
        by_cases hae : a = key + off
        · rw [hae]; exact hself
        · exact h a (by omega) (by push_cast at ha2 ⊢; omega)
      · intro h a ha1 ha2
        exact h a (by omega) (by push_cast at ha2 ⊢; omega)
    · have hoff : off + 1 = d.size := by omega
      have hrest : ∀ e ∈ rest, key + d.size ≤ e.1 := by
        intro e he
        exact (List.pairwise_cons.mp hp).1 e he
      have hnot : ∀ (l : List (Int × DBusModbusData)), (∀ e ∈ l, key + d.size < e.1) →
          ¬ covered ((key, d) :: l) (key + d.size) := by
        intro l hl ⟨e, he, h1, h2⟩
        rcases List.mem_cons.mp he with h | h
        · subst h; simp only at h2; omega
        · have := hl e h; omega
      have hfail : ∀ (l : List (Int × DBusModbusData)), (∀ e ∈ l, key + d.size < e.1) →
          ¬ ∀ a, key + off ≤ a → a < key + off + (n + 1 + 1 : Nat) →
            covered ((key, d) :: l) a := by
        intro l hl h
        exact hnot l hl (h (key + d.size) (by omega) (by push_cast; omega))
      cases rest with
      | nil =>
        have hnext : (DataIterator.mk (n + 1 + 1 : Nat) off [(key, d)] root .NoError
            "").next = DataIterator.mk (n + 1 : Nat) (off + 1) [] root .AddressError
            ("Modbus address " ++ toString (key + d.size) ++ " is not registered") := by
          simp only [DataIterator.next, hq, hq0, if_false, hin, DataIterator.setError]
        rw [hnext, steps_of_atEnd _ _ rfl]
        refine ⟨rfl, Or.inr rfl, ?_⟩
        simp only [reduceCtorEq, false_iff]
        exact hfail [] (by simp)
      | cons e2 rest2 =>
        obtain ⟨k2, d2⟩ := e2
        by_cases hk : k2 = key + d.size
        · have hnext : (DataIterator.mk (n + 1 + 1 : Nat) off ((key, d) :: (k2, d2) :: rest2)
              root .NoError "").next =
              DataIterator.mk (n + 1 : Nat) 0 ((k2, d2) :: rest2) root .NoError "" := by
            simp only [DataIterator.next, hq, hq0, if_false, hin, hk, ne_eq,
              not_true_eq_false]
          rw [hnext]
          have hsz2 : 1 ≤ d2.size := hsz (k2, d2) (by simp)
          obtain ⟨i1, i2, i3⟩ := ih k2 d2 rest2 0 root (List.pairwise_cons.mp hp).2
            (fun e he => hsz e (List.mem_cons_of_mem _ he)) (le_refl _) (by omega)
          refine ⟨i1, i2, i3.trans ⟨?_, ?_⟩⟩
          · intro h a ha1 ha2
            by_cases hae : a = key + off
            · rw [hae]; exact hself
            · obtain ⟨e, he, h1, h2⟩ := h a (by omega) (by push_cast at ha2 ⊢; omega)
              exact ⟨e, List.mem_cons_of_mem _ he, h1, h2⟩
          · intro h a ha1 ha2
            obtain ⟨e, he, h1, h2⟩ := h a (by omega) (by push_cast at ha2 ⊢; omega)
            rcases List.mem_cons.mp he with hek | hek
            · subst hek; simp only at h2; omega
            · exact ⟨e, hek, h1, h2⟩
        · have hnext : (DataIterator.mk (n + 1 + 1 : Nat) off ((key, d) :: (k2, d2) :: rest2)
              root .NoError "").next = DataIterator.mk (n + 1 : Nat) (off + 1) [] root
              .AddressError
              ("Modbus address " ++ toString (key + d.size) ++ " is not registered") := by
            simp only [DataIterator.next, hq, hq0, if_false, hin, ne_eq, hk,
              not_false_eq_true, if_true, DataIterator.setError]
          rw [hnext, steps_of_atEnd _ _ rfl]
          refine ⟨rfl, Or.inr rfl, ?_⟩
          simp only [reduceCtorEq, false_iff]
          apply hfail
          intro e he
          have hk2 : key + d.size ≤ k2 := hrest (k2, d2) (by simp)
          rcases List.mem_cons.mp he with h | h
          · subst h; simp only; omega
          · have h3 : endsBefore (k2, d2) e :=
              (List.pairwise_cons.mp (List.pairwise_cons.mp hp).2).1 e h
            have hsz2 : 1 ≤ d2.size := hsz (k2, d2) (by simp)
            unfold endsBefore at h3
            simp only at h3
            omega

theorem attach_shape (self : State) (quantity address di key : Int) (d : DBusModbusData)
    (rest : List (Int × DBusModbusData))
    (h : ((DataIterator.init quantity).attach self address di ((key, d) :: rest)).mError =
      .NoError) :
    ∃ root, (DataIterator.init quantity).attach self address di ((key, d) :: rest) =
      DataIterator.mk quantity (address - key) ((key, d) :: rest) root .NoError "" := by
  cases hs : self.mServices.getService d.deviceType di with
  | none => simp [DataIterator.attach, hs, DataIterator.setError] at h
  | some root => exact ⟨some root, by simp [DataIterator.attach, hs, DataIterator.init]⟩

/-- The iterator after a construction that ends without error, for a positive quantity: it
stands on an entry of the table whose span holds the address. -/
theorem new_shape (self : State) (address unitId quantity : Int) (hq : 0 < quantity)
    (hsize : ∀ e ∈ self.mDBusModbusMap, 1 ≤ e.2.size)
    (h : (DataIterator.new self address unitId quantity).error = .NoError) :
    ∃ pre key d rest root, self.mDBusModbusMap = pre ++ (key, d) :: rest ∧
      DataIterator.new self address unitId quantity =
        DataIterator.mk quantity (address - key) ((key, d) :: rest) root .NoError "" ∧
      key ≤ address ∧ address < key + d.size := by
  unfold DataIterator.error at h
  unfold DataIterator.new at h ⊢
  simp only [not_le.mpr hq, if_false] at h ⊢
  cases hu : DataIterator.deviceInstance self.mUnitIDMap unitId with
  | none => simp [hu, DataIterator.setError] at h
  | some di =>
    simp only [hu] at h ⊢
    unfold DataIterator.locate at h ⊢
    have hsplit := List.takeWhile_append_dropWhile (fun e => decide (e.1 < address))
      self.mDBusModbusMap
    cases hlb : lowerBound self.mDBusModbusMap address with
    | nil => simp [hlb, DataIterator.setError] at h
    | cons e rest =>
      obtain ⟨key, d⟩ := e
      have hlb' : List.dropWhile (fun e => decide (e.1 < address)) self.mDBusModbusMap =
          (key, d) :: rest := hlb
      simp only [hlb] at h ⊢
      by_cases hkey : key = address
      · simp only [hkey, ne_eq, not_true_eq_false, if_false] at h ⊢
        obtain ⟨root, hr⟩ := attach_shape self quantity address di address d rest h
        have hmem : (key, d) ∈ self.mDBusModbusMap := by
          rw [← hsplit, hlb']; simp
        refine ⟨List.takeWhile (fun e => decide (e.1 < address)) self.mDBusModbusMap,
          address, d, rest, root, ?_, hr, le_refl _, ?_⟩
        · have hd : (address, d) :: rest =
              List.dropWhile (fun e => decide (e.1 < address)) self.mDBusModbusMap := by
            rw [hlb', hkey]
          rw [hd]; exact hsplit.symm
        · have := hsize (key, d) hmem
          simp only at this; omega
      · simp only [ne_eq, hkey, not_false_eq_true, if_true] at h ⊢
        cases hb : beforeLowerBound self.mDBusModbusMap address with
        | none => simp [hb, DataIterator.setError] at h
        | some p =>
          obtain ⟨pk, pd⟩ := p
          simp only [hb] at h ⊢
          by_cases hspan : pk + pd.size ≤ address
          · simp [hspan, DataIterator.setError] at h
          · simp only [hspan, if_false] at h ⊢
            obtain ⟨root, hr⟩ := attach_shape self quantity address di pk pd _ h
            obtain ⟨ys, hys⟩ := List.getLast?_eq_some_iff.mp hb
            refine ⟨ys, pk, pd, (key, d) :: rest, root, ?_, hr,
              le_of_lt (beforeLowerBound_lt hb), by omega⟩
            rw [← hsplit, hys, hlb']
            simp

theorem steps_eq_of_atEnd (it : DataIterator) (k n : Nat)
    (hk : (it.steps k).mCurrent = []) (hn : (it.steps n).mCurrent = []) :
    it.steps k = it.steps n := by
  have hadd : ∀ a b : Nat, it.steps (a + b) = (it.steps b).steps a := by
    intro a b
    simp only [DataIterator.steps, Function.iterate_add_apply]
  rcases Nat.le_total k n with h | h
  · obtain ⟨j, rfl⟩ := Nat.exists_eq_add_of_le h
    rw [Nat.add_comm, hadd, steps_of_atEnd _ _ hk]
  · obtain ⟨j, rfl⟩ := Nat.exists_eq_add_of_le h
    rw [Nat.add_comm, hadd, steps_of_atEnd _ _ hn]

theorem covered_suffix (pre cur : List (Int × DBusModbusData)) (key : Int)
    (d : DBusModbusData) (rest : List (Int × DBusModbusData)) (hcur : cur = (key, d) :: rest)
    (hp : (pre ++ cur).Pairwise endsBefore) (a : Int) (ha : key ≤ a) :
    covered (pre ++ cur) a ↔ covered cur a := by
  constructor
  · rintro ⟨e, he, h1, h2⟩
    rcases List.mem_append.mp he with h | h
    · have := (List.pairwise_append.mp hp).2.2 e h (key, d) (by rw [hcur]; simp)
      unfold endsBefore at this
      simp only at this
      omega
    · exact ⟨e, h, h1, h2⟩
  · rintro ⟨e, he, h1, h2⟩
    exact ⟨e, List.mem_append_right _ he, h1, h2⟩

/-- C2. For a register table in key order whose entries have size at least 1 and spans that
do not overlap, and a request of a positive quantity whose iterator is constructed without
error: calling `next()` as many times as the quantity leaves the iterator at its end, with
`NoError` if and only if every address of the requested range lies in the span of some
entry, and with `AddressError` otherwise; and whenever the iterator is at its end, after
however many calls, it is in that same final state. -/
theorem walk_contiguity (self : State) (address unitId quantity : Int) (hq : 0 < quantity)
    (hsorted : self.mDBusModbusMap.Pairwise (fun a b => a.1 < b.1))
    (hsize : ∀ e ∈ self.mDBusModbusMap, 1 ≤ e.2.size)
    (hdisjoint : ∀ e1 ∈ self.mDBusModbusMap, ∀ e2 ∈ self.mDBusModbusMap,
      e1.1 < e2.1 → e1.1 + e1.2.size ≤ e2.1)
    (hnew : (DataIterator.new self address unitId quantity).error = .NoError) :
    ((DataIterator.new self address unitId quantity).steps quantity.toNat).atEnd = true ∧
    (((DataIterator.new self address unitId quantity).steps quantity.toNat).error =
        .NoError ↔
      ∀ a, address ≤ a → a < address + quantity → covered self.mDBusModbusMap a) ∧
    (((DataIterator.new self address unitId quantity).steps quantity.toNat).error =
        .NoError ∨
      ((DataIterator.new self address unitId quantity).steps quantity.toNat).error =
        .AddressError) ∧
    (∀ k, ((DataIterator.new self address unitId quantity).steps k).atEnd = true →
      (DataIterator.new self address unitId quantity).steps k =
        (DataIterator.new self address unitId quantity).steps quantity.toNat) := by
  obtain ⟨pre, key, d, rest, root, hmap, hit, hk1, hk2⟩ :=
    new_shape self address unitId quantity hq hsize hnew
  have hends : self.mDBusModbusMap.Pairwise endsBefore :=
    List.Pairwise.imp_of_mem (fun {a b} ha hb hab => hdisjoint a ha b hb hab) hsorted
  obtain ⟨n, hn⟩ : ∃ n : Nat, quantity = ((n + 1 : Nat) : Int) :=
    ⟨(quantity - 1).toNat, by push_cast; omega⟩
  have htoNat : quantity.toNat = n + 1 := by omega
  have hcur : ((key, d) :: rest).Pairwise endsBefore := by
    rw [hmap] at hends
    exact (List.pairwise_append.mp hends).2.1
  have hcsize : ∀ e ∈ (key, d) :: rest, 1 ≤ e.2.size := by
    intro e he
    exact hsize e (by rw [hmap]; exact List.mem_append_right _ he)
  obtain ⟨w1, w2, w3⟩ := walk_suffix n key d rest (address - key) root hcur hcsize
    (by omega) (by omega)
  rw [hit, htoNat, hn]
  refine ⟨by rw [atEnd_iff]; exact w1, ?_, w2, ?_⟩
  · unfold DataIterator.error
    rw [w3]
    constructor
    · intro h a ha1 ha2
      rw [hmap,
        covered_suffix pre _ key d rest rfl (by rw [← hmap]; exact hends) a (by omega)]
      exact h a (by omega) (by omega)
    · intro h a ha1 ha2
      rw [← covered_suffix pre _ key d rest rfl (by rw [← hmap]; exact hends) a (by omega),
        ← hmap]
      exact h a (by omega) (by omega)
  · intro k hk
    exact steps_eq_of_atEnd _ k (n + 1) ((atEnd_iff _).mp hk) w1

theorem gapMap_wellFormed :
    (exampleState gapMap .invalid).mDBusModbusMap.Pairwise (fun a b => a.1 < b.1) ∧
    (∀ e ∈ (exampleState gapMap .invalid).mDBusModbusMap, 1 ≤ e.2.size) ∧
    (∀ e1 ∈ (exampleState gapMap .invalid).mDBusModbusMap,
      ∀ e2 ∈ (exampleState gapMap .invalid).mDBusModbusMap,
        e1.1 < e2.1 → e1.1 + e1.2.size ≤ e2.1) := by
  refine ⟨by simp [exampleState, gapMap], ?_, ?_⟩
  · intro e he
    simp only [exampleState, gapMap, List.mem_cons, List.mem_singleton, List.not_mem_nil,
      or_false] at he
    rcases he with rfl | rfl <;> simp [exampleEntry]
  · intro e1 h1 e2 h2
    simp only [exampleState, gapMap, List.mem_cons, List.mem_singleton, List.not_mem_nil,
      or_false] at h1 h2
    rcases h1 with rfl | rfl <;> rcases h2 with rfl | rfl <;> simp [exampleEntry]

/-- Witness of `walk_contiguity`: over entries at 10 (size 1) and 12 (size 2), three
registers from address 10 end with `AddressError`, address 11 being covered by no entry, and
one register from address 10 ends with `NoError`. -/
theorem walk_contiguity_witness :
    ((0 : Int) < 3 ∧
      (DataIterator.new (exampleState gapMap .invalid) 10 5 3).error = .NoError) ∧
    ((DataIterator.new (exampleState gapMap .invalid) 10 5 3).steps 3).error =
      .AddressError ∧
    ((DataIterator.new (exampleState gapMap .invalid) 10 5 1).steps 1).error = .NoError := by
  obtain ⟨hs, hsz, hd⟩ := gapMap_wellFormed
  refine ⟨⟨by norm_num, rfl⟩, ?_, ?_⟩
  · obtain ⟨_, hiff, hor, _⟩ := walk_contiguity (exampleState gapMap .invalid) 10 5 3
      (by norm_num) hs hsz hd rfl
    refine hor.resolve_left (fun h => ?_)
    obtain ⟨e, he, h1, h2⟩ := hiff.mp h 11 (by norm_num) (by norm_num)
    simp only [exampleState, gapMap, List.mem_cons, List.mem_singleton, List.not_mem_nil,
      or_false] at he
    rcases he with rfl | rfl
    · simp [exampleEntry] at h2
    · simp at h1
  · obtain ⟨_, hiff, _⟩ := walk_contiguity (exampleState gapMap .invalid) 10 5 1
      (by norm_num) hs hsz hd rfl
    refine hiff.mpr (fun a ha1 ha2 => ?_)
    have : a = 10 := by omega
    subst this
    exact ⟨_, List.mem_cons_self _ _, by simp, by simp [exampleEntry]⟩

/-- C3 at the failing input. With the 32-bit entry at 10 (size 2) the last one of the
register table, `lowerBound(11)` is `end()` and the constructor sets `StartAddressError`
before it looks at the entry in front; a read of one register at 11 is completed with that
error and no reply. With one more entry behind it (here at 12), the same request is
positioned on the entry at 10 with offset 1. -/
theorem mid_entry_start_of_last_entry :
    lowerBound lastEntryMap 11 = [] ∧
    (DataIterator.new (exampleState lastEntryMap (.unsigned 0x12345678)) 11 5 1).error =
      .StartAddressError ∧
    handleRequest signedCharExt (exampleState lastEntryMap (.unsigned 0x12345678))
        (exampleRequest .ReadValues 11 1 []) =
      some ((exampleState lastEntryMap (.unsigned 0x12345678)).emitRequestCompleted
        ((exampleRequest .ReadValues 11 1 []).setError .StartAddressError
          "Modbus address 11 is not registered")) ∧
    (DataIterator.new
        (exampleState (lastEntryMap ++ [(12, exampleEntry "/Soc" .mb_type_uint16 1
          .mb_perm_read)]) (.unsigned 0x12345678)) 11 5 1).error = .NoError ∧
    (DataIterator.new
        (exampleState (lastEntryMap ++ [(12, exampleEntry "/Soc" .mb_type_uint16 1
          .mb_perm_read)]) (.unsigned 0x12345678)) 11 5 1).address = 11 ∧
    (DataIterator.new
        (exampleState (lastEntryMap ++ [(12, exampleEntry "/Soc" .mb_type_uint16 1
          .mb_perm_read)]) (.unsigned 0x12345678)) 11 5 1).offset = 1 := by
  refine ⟨by decide, by decide, ?_, by decide, by decide, by decide⟩
  rfl

/-! ## Start inside an entry that has a successor -/

theorem lowerBound_mid (map : List (Int × DBusModbusData))
    (hs : map.Pairwise (fun a b => a.1 < b.1)) (A : Int) (d : DBusModbusData)
    (hmem : (A, d) ∈ map) (hno : ∀ e ∈ map, e.1 ≠ A + 1)
    (hlater : ∃ e ∈ map, A + 1 < e.1) :
    ∃ e rest, lowerBound map (A + 1) = e :: rest ∧ e.1 ≠ A + 1 ∧
      beforeLowerBound map (A + 1) = some (A, d) := by
  induction map with
  | nil => simp at hmem
  | cons x tl ih =>
    rw [List.pairwise_cons] at hs
    obtain ⟨e0, he0, hlt0⟩ := hlater
    rcases List.mem_cons.mp hmem with h | h
    · subst h
      have he0tl : e0 ∈ tl := by
        rcases List.mem_cons.mp he0 with h | h
        · subst h; simp only at hlt0; omega
        · exact h
      cases tl with
      | nil => simp at he0tl
      | cons y tl2 =>
        have hy1 : A < y.1 := hs.1 y (by simp)
        have hy2 : y.1 ≠ A + 1 := hno y (by simp)
        have hy : ¬ y.1 < A + 1 := by omega
        refine ⟨y, tl2, ?_, hy2, ?_⟩
        · simp [lowerBound, List.dropWhile_cons, hy]
        · simp [beforeLowerBound, List.takeWhile_cons, hy]
    · have hx : x.1 < A := hs.1 (A, d) h
      have he0tl : e0 ∈ tl := by
        rcases List.mem_cons.mp he0 with h' | h'
        · subst h'; omega
        · exact h'
      obtain ⟨e, rest, h1, h2, h3⟩ := ih hs.2 h
        (fun e he => hno e (List.mem_cons_of_mem _ he)) ⟨e0, he0tl, hlt0⟩
      refine ⟨e, rest, ?_, h2, ?_⟩
      · have : x.1 < A + 1 := by omega
        simpa [lowerBound, List.dropWhile_cons, this] using h1
      · have hx1 : x.1 < A + 1 := by omega
        unfold beforeLowerBound at h3 ⊢
        obtain ⟨ys, hys⟩ := List.getLast?_eq_some_iff.mp h3
        rw [List.getLast?_eq_some_iff]
        exact ⟨x :: ys, by simp [List.takeWhile_cons, hx1, hys]⟩

theorem new_mid_entry (self : State) (A unitId quantity di : Int) (d : DBusModbusData)
    (root : Nat) (hq : 0 < quantity)
    (hs : self.mDBusModbusMap.Pairwise (fun a b => a.1 < b.1))
    (hmem : (A, d) ∈ self.mDBusModbusMap) (hsize : d.size = 2)
    (hno : ∀ e ∈ self.mDBusModbusMap, e.1 ≠ A + 1)
    (hlater : ∃ e ∈ self.mDBusModbusMap, A + 1 < e.1)
    (hunit : DataIterator.deviceInstance self.mUnitIDMap unitId = some di)
    (hsvc : self.mServices.getService d.deviceType di = some root) :
    ∃ rest, DataIterator.new self (A + 1) unitId quantity =
      DataIterator.mk quantity 1 ((A, d) :: rest) (some root) .NoError "" := by
  obtain ⟨e, rest, h1, h2, h3⟩ := lowerBound_mid _ hs A d hmem hno hlater
  obtain ⟨k, dk⟩ := e
  refine ⟨(k, dk) :: rest, ?_⟩
  simp only at h2
  simp [DataIterator.new, not_le.mpr hq, hunit, DataIterator.locate, h1, h2, h3, hsize,
    DataIterator.attach, hsvc, DataIterator.init]

/-- The part of the mid-entry start that the code delivers: when the register table is in key
order, holds a 32-bit entry `d` at `A` with no entry at `A + 1`, and holds some entry with a
key above `A + 1`, a read of one register at `A + 1` is completed without an error and its
reply is the register `getValue` decodes at sub-offset 1, which for a valid bus value is
the low word of the converted 32-bit value. -/
theorem mid_entry_start_with_successor (ext : Externals) (self : State) (A unitId : Int)
    (d : DBusModbusData) (di : Int) (root : Nat)
    (hs : self.mDBusModbusMap.Pairwise (fun a b => a.1 < b.1))
    (hmem : (A, d) ∈ self.mDBusModbusMap) (hsize : d.size = 2)
    (hno : ∀ e ∈ self.mDBusModbusMap, e.1 ≠ A + 1)
    (hlater : ∃ e ∈ self.mDBusModbusMap, A + 1 < e.1)
    (hunit : DataIterator.deviceInstance self.mUnitIDMap unitId = some di)
    (hsvc : self.mServices.getService d.deviceType di = some root) :
    runRequest ext self
        { type := .ReadValues, address := A + 1, unitId := unitId, quantity := 1,
          data := [], error := .NoError, errorString := "" } =
      some (self.emitRequestCompleted
        { type := .ReadValues, address := A + 1, unitId := unitId, quantity := 1,
          data :=
            [getValue ext (self.mServices.value { root := root, objectPath := d.objectPath })
              d.modbusType 1 d.scaleFactor / 256 % 256,
             getValue ext (self.mServices.value { root := root, objectPath := d.objectPath })
              d.modbusType 1 d.scaleFactor % 256],
          error := .NoError, errorString := "" }) ∧
    (∀ v, v ≠ .invalid →
      getValue ext v .mb_type_uint32 1 d.scaleFactor =
        toUnsigned 32 (convertFromDbus .quint32 v d.scaleFactor) % 2 ^ 16 ∧
      getValue ext v .mb_type_int32 1 d.scaleFactor =
        toUnsigned 32 (convertFromDbus .qint32 v d.scaleFactor) % 2 ^ 16) := by
  obtain ⟨rest, hnew⟩ := new_mid_entry self A unitId 1 di d root (by norm_num) hs hmem hsize
    hno hlater hunit hsvc
  refine ⟨?_, ?_⟩
  · rw [single_read_at ext self (A + 1) unitId [] .NoError "" A d rest root 1 (by norm_num)
      hnew]
    simp [setByte, Nat.shiftRight_eq_div_pow]
  · intro v hv
    simp only [getValue, hv, if_false, one_ne_zero]
    exact ⟨Nat.and_pow_two_sub_one_eq_mod _ 16, Nat.and_pow_two_sub_one_eq_mod _ 16⟩

/-! ## Ingestion -/

theorem mem_qmapInsert (reg : Int) (item : DBusModbusData)
    (map : List (Int × DBusModbusData)) (e : Int × DBusModbusData)
    (h : e ∈ qmapInsert reg item map) : e = (reg, item) ∨ e ∈ map := by
  induction map with
  | nil => simpa [qmapInsert] using h
  | cons x tl ih =>
    obtain ⟨key, value⟩ := x
    unfold qmapInsert at h
    split at h
    · rcases List.mem_cons.mp h with h | h
      · exact Or.inl h
      · exact Or.inr h
    · split at h
      · rcases List.mem_cons.mp h with h | h
        · exact Or.inl h
        · exact Or.inr (List.mem_cons_of_mem _ h)
      · rcases List.mem_cons.mp h with h | h
        · exact Or.inr (by rw [h]; exact List.mem_cons_self _ _)
        · rcases ih h with h | h
          · exact Or.inl h
          · exact Or.inr (List.mem_cons_of_mem _ h)

theorem importItem_wellFormed (ing : IngestExternals) (values : List String)
    (modbusType : ModbusTypes) (h : modbusType ≠ .mb_type_none) :
    (importItem ing values modbusType).wellFormed := by
  unfold DBusModbusData.wellFormed
  simp only [importItem]
  generalize convertPermissions (values.getD 7 "") = p
  cases modbusType <;> cases p <;> simp at h ⊢

theorem importRow_wellFormed (ing : IngestExternals) (map : List (Int × DBusModbusData))
    (values : List String) (h : ∀ e ∈ map, e.2.wellFormed) :
    ∀ e ∈ importRow ing map values, e.2.wellFormed := by
  intro e he
  unfold importRow at he
  split at he
  · simp only at he
    split at he
    · rename_i hne
      rcases mem_qmapInsert _ _ _ _ he with h1 | h1
      · rw [h1]; exact importItem_wellFormed ing values _ hne
      · exact h e h1
    · exact h e he
  · exact h e he

/-- C11. The register table that `importCSV` builds from the empty table, whatever the rows:
every writable entry is an `int16` or `uint16` entry of size 1, every `int32`/`uint32` entry
has size 2, and every `int32`, `uint32` or string entry has access right read or none. -/
theorem importCSV_wellFormed (ing : IngestExternals) (rows : List (List String)) :
    ∀ e ∈ importCSV ing [] rows,
      (e.2.accessRights = .mb_perm_write →
        (e.2.modbusType = .mb_type_int16 ∨ e.2.modbusType = .mb_type_uint16) ∧
          e.2.size = 1) ∧
      (e.2.modbusType = .mb_type_int32 ∨ e.2.modbusType = .mb_type_uint32 → e.2.size = 2) ∧
      (e.2.modbusType = .mb_type_int32 ∨ e.2.modbusType = .mb_type_uint32 ∨
          e.2.modbusType = .mb_type_string →
        e.2.accessRights = .mb_perm_read ∨ e.2.accessRights = .mb_perm_none) := by
  have hgen : ∀ (rows : List (List String)) (map : List (Int × DBusModbusData)),
      (∀ e ∈ map, e.2.wellFormed) → ∀ e ∈ importCSV ing map rows, e.2.wellFormed := by
    intro rows
    induction rows with
    | nil => intro map h; exact h
    | cons r rs ih =>
      intro map h
      exact ih (importRow ing map r) (importRow_wellFormed ing map r h)
  exact hgen rows [] (by simp)

/-- Witness of `importCSV_wellFormed`: a row that asks for write access to a `uint32`
register gives a read-only entry of size 2. -/
theorem importCSV_wellFormed_witness :
    ((101 : Int), energyEntry) ∈ importCSV exampleIngest [] [energyRow] ∧
    (energyEntry.accessRights = .mb_perm_write →
      (energyEntry.modbusType = .mb_type_int16 ∨
        energyEntry.modbusType = .mb_type_uint16) ∧ energyEntry.size = 1) ∧
    (energyEntry.modbusType = .mb_type_int32 ∨
      energyEntry.modbusType = .mb_type_uint32 → energyEntry.size = 2) ∧
    (energyEntry.modbusType = .mb_type_int32 ∨ energyEntry.modbusType = .mb_type_uint32 ∨
        energyEntry.modbusType = .mb_type_string →
      energyEntry.accessRights = .mb_perm_read ∨
        energyEntry.accessRights = .mb_perm_none) :=
  ⟨by decide,
    importCSV_wellFormed exampleIngest [energyRow] (101, energyEntry) (by decide)⟩

/-- C12 at the failing input. The type token `string`, which is none of the four names and
not of the form `string[N]`, is classified as a string: `convertModbusType` returns
`mb_type_string`, and `importCSV` adds an entry for the row, of size 0. A read of two
registers there calls `next()` in a state in which `Q_ASSERT(mOffset <= d->size)` is false.
A token that does not start with `string`, such as `float`, is skipped. -/
theorem importCSV_unsized_string :
    convertModbusType "string" = .mb_type_string ∧
    convertStringSize "string" = 0 ∧
    importCSV exampleIngest [] [unsizedStringRow] = [(100, unsizedStringEntry)] ∧
    (DataIterator.new
      (exampleState (importCSV exampleIngest [] [unsizedStringRow]) .invalid) 100 5
      2).nextAssert = false ∧
    convertModbusType "float" = .mb_type_none ∧
    importCSV exampleIngest [] [["battery", "/Serial", "s", "", "100", "float", "1", "R"]] =
      [] := by
  refine ⟨by decide, by decide, by decide, by decide, by decide, by decide⟩

/-! ## The size token of a string entry -/

theorem digitChar_toNat (k : Nat) (hk : k < 10) : (Nat.digitChar k).toNat = 48 + k := by
  interval_cases k <;> rfl

theorem toDigitsCore_parse : ∀ (fuel n : Nat) (ds : List Char) , n < fuel →
    parseDigits (Nat.toDigitsCore 10 fuel n ds) 0 = parseDigits ds n := by
  intro fuel
  induction fuel with
  | zero => intro n ds h; omega
  | succ fuel ih =>
    intro n ds h
    have hd : (Nat.digitChar (n % 10)).toNat = 48 + n % 10 :=
      digitChar_toNat _ (Nat.mod_lt _ (by norm_num))
    have hdig : isDecimalDigit (Nat.digitChar (n % 10)) = true := by
      have := Nat.mod_lt n (by norm_num : 0 < 10)
      simp [isDecimalDigit, hd]; omega
    unfold Nat.toDigitsCore
    simp only
    split
    · rename_i h0
      simp only [parseDigits, hdig, if_true, hd]
      congr 1
      omega
    · rename_i h0
      rw [ih (n / 10) _ (by omega)]
      simp only [parseDigits, hdig, if_true, hd]
      congr 1
      omega

theorem toDigitsCore_digits : ∀ (fuel n : Nat) (ds : List Char),
    ∀ c ∈ Nat.toDigitsCore 10 fuel n ds, isDecimalDigit c = true ∨ c ∈ ds := by
  intro fuel
  induction fuel with
  | zero => intro n ds c hc; exact Or.inr (by simpa [Nat.toDigitsCore] using hc)
  | succ fuel ih =>
    intro n ds c hc
    have hd : (Nat.digitChar (n % 10)).toNat = 48 + n % 10 :=
      digitChar_toNat _ (Nat.mod_lt _ (by norm_num))
    have hdig : isDecimalDigit (Nat.digitChar (n % 10)) = true := by
      have := Nat.mod_lt n (by norm_num : 0 < 10)
      simp [isDecimalDigit, hd]; omega
    unfold Nat.toDigitsCore at hc
    simp only at hc
    split at hc
    · rcases List.mem_cons.mp hc with h | h
      · exact Or.inl (by rw [h]; exact hdig)
      · exact Or.inr h
    · rcases ih _ _ c hc with h | h
      · exact Or.inl h
      · rcases List.mem_cons.mp h with h | h
        · exact Or.inl (by rw [h]; exact hdig)
        · exact Or.inr h

theorem toDigitsCore_ne_nil : ∀ (fuel n : Nat) (ds : List Char), 0 < fuel →
    Nat.toDigitsCore 10 fuel n ds ≠ [] := by
  intro fuel
  induction fuel with
  | zero => intro n ds h; omega
  | succ fuel ih =>
    intro n ds _
    unfold Nat.toDigitsCore
    simp only
    split
    · simp
    · cases fuel with
      | zero => simp [Nat.toDigitsCore]
      | succ f => exact ih _ _ (by omega)

theorem dropWhile_isSpace_digits (l : List Char) (h : ∀ c ∈ l, isDecimalDigit c = true) :
    l.dropWhile isSpace = l := by
  cases l with
  | nil => rfl
  | cons c cs =>
    have hc := h c (List.mem_cons_self _ _)
    have : isSpace c = false := by
      simp only [isDecimalDigit, decide_eq_true_eq] at hc
      simp only [isSpace, decide_eq_false_iff_not]
      omega
    simp [List.dropWhile_cons, this]

/-- The call `toInt()` on a non-empty text of decimal digits. -/
theorem qToInt_digits (l : List Char) (n : Nat) (hne : l ≠ [])
    (hd : ∀ c ∈ l, isDecimalDigit c = true) (hp : parseDigits l 0 = some n)
    (hn : n < 2 ^ 31) : qToInt l = n := by
  have hrev : ∀ c ∈ l.reverse, isDecimalDigit c = true := by
    intro c hc; exact hd c (List.mem_reverse.mp hc)
  have htrim : ((l.dropWhile isSpace).reverse.dropWhile isSpace).reverse = l := by
    rw [dropWhile_isSpace_digits l hd, dropWhile_isSpace_digits _ hrev, List.reverse_reverse]
  obtain ⟨c, cs, rfl⟩ := List.exists_cons_of_ne_nil hne
  have hc := hd c (List.mem_cons_self _ _)
  simp only [isDecimalDigit, decide_eq_true_eq] at hc
  have hminus : c ≠ '-' := by
    rintro rfl
    have : ('-' : Char).toNat = 45 := rfl
    omega
  have hplus : c ≠ '+' := by
    rintro rfl
    have : ('+' : Char).toNat = 43 := rfl
    omega
  unfold qToInt
  simp only [htrim, List.head?_cons, Option.some.injEq, hminus, hplus, or_self, if_false,
    reduceCtorEq, hp, decide_False, Bool.false_eq_true]
  have h1 : (-2 : Int) ^ 31 ≤ (n : Int) := by
    have : (0 : Int) ≤ n := Int.natCast_nonneg n
    norm_num; omega
  have h2 : (n : Int) < 2 ^ 31 := by exact_mod_cast hn
  simp [h2]
  omega

theorem convertStringSize_of_shape (content : List Char) (hne : content ≠ []) :
    convertStringSize (String.mk ("string[".data ++ content ++ [']'])) = qToInt content := by
  obtain ⟨c, cs, rfl⟩ := List.exists_cons_of_ne_nil hne
  have hlen : ¬ ("string[".data ++ (c :: cs) ++ [']']).length ≤ stringType.data.length + 2 := by
    have : stringType.data.length = 6 := rfl
    have : "string[".data.length = 7 := rfl
    simp only [List.length_append, List.length_cons, List.length_singleton]
    omega
  have hget : ("string[".data ++ (c :: cs) ++ [']']).get? stringType.data.length =
      some '[' := rfl
  have hlast : ("string[".data ++ (c :: cs) ++ [']']).getLast? = some ']' :=
    List.getLast?_eq_some_iff.mpr ⟨"string[".data ++ (c :: cs), rfl⟩
  have hmid : (("string[".data ++ (c :: cs) ++ [']']).drop (stringType.data.length + 1)).take
      (("string[".data ++ (c :: cs) ++ [']']).length - stringType.data.length - 2) =
      c :: cs := by
    have h1 : stringType.data.length + 1 = "string[".data.length := rfl
    rw [h1, List.append_assoc, List.drop_left]
    have h2 : ("string[".data ++ (c :: cs ++ [']'])).length - stringType.data.length - 2 =
        (c :: cs).length := by
      have : stringType.data.length = 6 := rfl
      have h7 : "string[".data.length = 7 := rfl
      rw [List.length_append, h7]
      simp only [List.length_append, List.length_cons, List.length_singleton, List.length_nil]
      omega
    rw [h2, List.take_left]
  unfold convertStringSize
  simp only [hlen, hget, hlast, ne_eq, not_true_eq_false, or_self, if_false, hmid]

theorem convertModbusType_of_string (token : String)
    (h : stringType.data.isPrefixOf token.data = true) :
    convertModbusType token = .mb_type_string := by
  have h1 : token ≠ "int16" := by rintro rfl; revert h; decide
  have h2 : token ≠ "uint16" := by rintro rfl; revert h; decide
  have h3 : token ≠ "int32" := by rintro rfl; revert h; decide
  have h4 : token ≠ "uint32" := by rintro rfl; revert h; decide
  simp [convertModbusType, h1, h2, h3, h4, h]

/-- C18, as amended. For every `N` from 1 to `2^31 - 1`, `convertStringSize` gives `N` for
the token `string[N]`, and ingestion gives a row of at least 8 fields with that token an
entry of size `N`; and for every token that starts with `string`, as every token that
`importCSV` passes does, and is not `string[` ... `]` with something between the brackets,
`convertStringSize` gives 0. -/
theorem convertStringSize_token (ing : IngestExternals) :
    (∀ N : Nat, 1 ≤ N → N < 2 ^ 31 →
      convertStringSize ("string[" ++ Nat.repr N ++ "]") = N ∧
      ∀ (map : List (Int × DBusModbusData)) (values : List String), 8 ≤ values.length →
        values.getD 5 "" = "string[" ++ Nat.repr N ++ "]" →
        ∃ item, importRow ing map values = qmapInsert (qToInt (values.getD 4 "").data) item
          map ∧ item.modbusType = .mb_type_string ∧ item.size = N) ∧
    (∀ token : String, stringType.data.isPrefixOf token.data = true →
      (¬ ∃ content, content ≠ [] ∧ token.data = "string[".data ++ content ++ [']']) →
      convertStringSize token = 0) := by
  constructor
  · intro N _ hN
    have htok : "string[" ++ Nat.repr N ++ "]" =
        String.mk ("string[".data ++ Nat.toDigits 10 N ++ [']']) := by
      apply String.ext
      simp [Nat.repr, String.data_append, List.asString]
    have hne : Nat.toDigits 10 N ≠ [] := toDigitsCore_ne_nil _ _ _ (by omega)
    have hsize : convertStringSize ("string[" ++ Nat.repr N ++ "]") = N := by
      rw [htok, convertStringSize_of_shape _ hne]
      refine qToInt_digits _ N hne ?_ ?_ hN
      · intro c hc
        rcases toDigitsCore_digits _ _ _ c hc with h | h
        · exact h
        · simp at h
      · exact toDigitsCore_parse _ _ _ (by omega)
    refine ⟨hsize, ?_⟩
    intro map values hlen htoken
    have hpre : stringType.data.isPrefixOf ("string[" ++ Nat.repr N ++ "]").data = true := by
      rw [htok]
      rfl
    have htype := convertModbusType_of_string _ hpre
    refine ⟨importItem ing values .mb_type_string, ?_, rfl, ?_⟩
    · unfold importRow
      rw [if_pos hlen]
      simp only [htoken, htype]
      simp
    · simp only [importItem, htoken, hsize]
  · intro token hpre hshape
    by_contra hne
    apply hshape
    unfold convertStringSize at hne
    by_cases hguard : token.data.length ≤ stringType.data.length + 2 ∨
        token.data.get? stringType.data.length ≠ some '[' ∨
        token.data.getLast? ≠ some ']'
    · rw [if_pos hguard] at hne
      exact absurd rfl hne
    · push_neg at hguard
      obtain ⟨hlen, hget, hlast⟩ := hguard
      obtain ⟨r, hr⟩ := List.isPrefixOf_iff_prefix.mp hpre
      obtain ⟨ys, hys⟩ := List.getLast?_eq_some_iff.mp hlast
      have h6 : stringType.data.length = 6 := rfl
      rw [← hr] at hget hlen
      rw [List.get?_eq_getElem?, List.getElem?_append_right (le_refl _), Nat.sub_self] at hget
      cases r with
      | nil => simp at hget
      | cons c r2 =>
        simp only [List.getElem?_cons_zero, Option.some.injEq] at hget
        subst hget
        have hlen2 : 2 ≤ r2.length := by
          simp only [List.length_append, List.length_cons, h6] at hlen
          omega
        obtain ⟨b, r3, rfl⟩ := List.exists_cons_of_ne_nil
          (fun h : r2 = [] => by rw [h] at hlen2; simp at hlen2)
        have hl : (stringType.data ++ '[' :: b :: r3).getLast? = some ']' := by
          rw [hr]; exact hlast
        rw [List.getLast?_append_of_ne_nil _ (by simp), List.getLast?_cons_cons] at hl
        obtain ⟨zs, hzs⟩ := List.getLast?_eq_some_iff.mp hl
        refine ⟨zs, ?_, ?_⟩
        · rintro rfl
          rw [hzs] at hlen2
          simp at hlen2
        · rw [← hr, hzs]
          rfl

/-- Witness of `convertStringSize_token`: the token `string[2]` gives 2 and the token
`string` gives 0. -/
theorem convertStringSize_token_witness :
    ((1 : Nat) ≤ 2 ∧ (2 : Nat) < 2 ^ 31 ∧
      stringType.data.isPrefixOf "string".data = true) ∧
    convertStringSize ("string[" ++ Nat.repr 2 ++ "]") = (2 : Nat) ∧
    convertStringSize "string" = 0 :=
  ⟨⟨by norm_num, by norm_num, by decide⟩,
    ((convertStringSize_token exampleIngest).1 2 (by norm_num) (by norm_num)).1,
    (convertStringSize_token exampleIngest).2 "string" (by decide) (by
      rintro ⟨content, _, h⟩
      have := congrArg List.length h
      simp at this)⟩

/-- C18, as stated, fails twice: the token `abcdef[5]`, which is not `string[` ... `]`, gives
5, because `convertStringSize` does not look at the first six characters; and the token
`string[2147483648]` gives 0, because `toInt()` gives 0 for a number above the range of
`int`. -/
theorem convertStringSize_token_counterexample :
    (¬ ∃ content, "abcdef[5]".data = "string[".data ++ content ++ [']']) ∧
    convertStringSize "abcdef[5]" = 5 ∧
    convertStringSize ("string[" ++ Nat.repr 2147483648 ++ "]") = 0 := by
  refine ⟨?_, by decide, by decide⟩
  rintro ⟨content, h⟩
  have h1 : "abcdef[5]".data.head? = some 'a' := rfl
  have h2 : ("string[".data ++ content ++ [']']).head? = some 's' := rfl
  rw [h, h2] at h1
  exact absurd h1 (by decide)

/-! ## States of the iterator -/

/-- C16. In every state reached by constructing a `DataIterator` and calling `next()` `n`
times: an error implies that the iterator is at its end, so in the body of the loops of
`getValues` and `setValues`, which runs only when it is not at its end,
`Q_ASSERT(it.error() == NoError)` holds; at its end `next()` changes nothing; so every later
state is this same state, with the same error and error string. -/
theorem iterator_error_invariant (self : State) (address unitId quantity : Int) (n : Nat) :
    (((DataIterator.new self address unitId quantity).steps n).error ≠ .NoError →
      ((DataIterator.new self address unitId quantity).steps n).atEnd = true) ∧
    (((DataIterator.new self address unitId quantity).steps n).atEnd = false →
      ((DataIterator.new self address unitId quantity).steps n).error = .NoError) ∧
    (((DataIterator.new self address unitId quantity).steps n).atEnd = true →
      ((DataIterator.new self address unitId quantity).steps n).next =
        (DataIterator.new self address unitId quantity).steps n) ∧
    (∀ m, n ≤ m → ((DataIterator.new self address unitId quantity).steps n).atEnd = true →
      (DataIterator.new self address unitId quantity).steps m =
        (DataIterator.new self address unitId quantity).steps n) := by
  have hinv := steps_inv n _ (new_inv self address unitId quantity)
  have hnoerr : ((DataIterator.new self address unitId quantity).steps n).atEnd = false →
      ((DataIterator.new self address unitId quantity).steps n).error = .NoError := by
    intro h
    have hc : ((DataIterator.new self address unitId quantity).steps n).mCurrent ≠ [] := by
      intro hnil
      rw [(atEnd_iff _).mpr hnil] at h
      exact absurd h (by simp)
    exact (hinv hc).2.2.2
  refine ⟨?_, hnoerr, ?_, ?_⟩
  · intro herr
    by_contra hne
    exact herr (hnoerr (by simpa using hne))
  · intro h
    exact next_of_atEnd _ ((atEnd_iff _).mp h)
  · intro m hm h
    obtain ⟨j, rfl⟩ := Nat.exists_eq_add_of_le hm
    have hadd : (DataIterator.new self address unitId quantity).steps (n + j) =
        ((DataIterator.new self address unitId quantity).steps n).steps j := by
      simp only [DataIterator.steps, Nat.add_comm n j, Function.iterate_add_apply]
    rw [hadd, steps_of_atEnd _ _ ((atEnd_iff _).mp h)]

/-- The offset lies inside the current entry, and every entry from the current one on has
a size of at least 1. -/
theorem next_offsetInEntry (it : DataIterator) (h : it.offsetInEntry)
    (hs : ∀ e ∈ it.mCurrent, 1 ≤ e.2.size) :
    it.next.offsetInEntry ∧ ∀ e ∈ it.next.mCurrent, 1 ≤ e.2.size := by
  unfold DataIterator.next
  split
  · exact ⟨h, hs⟩
  · rename_i key d rest hc
    have hi := h key d rest hc
    have hrest : ∀ e ∈ rest, 1 ≤ e.2.size := by
      intro e he; exact hs e (by rw [hc]; exact List.mem_cons_of_mem _ he)
    simp only []
    split
    · exact ⟨by intro k d r h'; simp at h', by simp⟩
    · split
      · rename_i hlt
        refine ⟨?_, by simpa [hc] using hs⟩
        intro k d2 r h'
        simp only [hc, List.cons.injEq, Prod.mk.injEq] at h'
        obtain ⟨⟨_, rfl⟩, _⟩ := h'
        exact ⟨by simp only; omega, hlt⟩
      · split
        · exact ⟨by intro k d r h'; simp [DataIterator.setError] at h',
            by simp [DataIterator.setError]⟩
        · rename_i k2 d2 rest2
          split
          · exact ⟨by intro k d r h'; simp [DataIterator.setError] at h',
              by simp [DataIterator.setError]⟩
          · refine ⟨?_, by simpa using hrest⟩
            intro k d3 r h'
            simp only [List.cons.injEq, Prod.mk.injEq] at h'
            obtain ⟨⟨_, rfl⟩, _⟩ := h'
            have := hrest (k2, d2) (List.mem_cons_self _ _)
            exact ⟨le_refl _, by simp only at this ⊢; omega⟩

theorem attach_offsetInEntry (self : State) (it : DataIterator)
    (address deviceInstance key : Int) (d : DBusModbusData)
    (rest : List (Int × DBusModbusData)) (h0 : key ≤ address) (h1 : address < key + d.size) :
    (it.attach self address deviceInstance ((key, d) :: rest)).offsetInEntry := by
  simp only [DataIterator.attach]
  cases hs : self.mServices.getService d.deviceType deviceInstance with
  | none => intro k d2 r h'; simp [DataIterator.setError] at h'
  | some root =>
    intro k d2 r h'
    simp only [List.cons.injEq, Prod.mk.injEq] at h'
    obtain ⟨⟨rfl, rfl⟩, _⟩ := h'
    exact ⟨by simp only; omega, by simp only; omega⟩

theorem attach_current (self : State) (it : DataIterator) (address deviceInstance : Int)
    (cur : List (Int × DBusModbusData)) (hit : it.mCurrent = []) :
    (it.attach self address deviceInstance cur).mCurrent = [] ∨
      (it.attach self address deviceInstance cur).mCurrent = cur := by
  unfold DataIterator.attach
  split
  · exact Or.inl hit
  · split
    · exact Or.inl rfl
    · exact Or.inr rfl

theorem new_offsetInEntry (self : State) (address unitId quantity : Int)
    (hsize : ∀ e ∈ self.mDBusModbusMap, 1 ≤ e.2.size) :
    (DataIterator.new self address unitId quantity).offsetInEntry ∧
    ∀ e ∈ (DataIterator.new self address unitId quantity).mCurrent, 1 ≤ e.2.size := by
  have hnil : ∀ it : DataIterator, it.mCurrent = [] →
      it.offsetInEntry ∧ ∀ e ∈ it.mCurrent, 1 ≤ e.2.size := by
    intro it h
    exact ⟨by intro k d r h'; rw [h] at h'; simp at h', by rw [h]; simp⟩
  have hsplit := List.takeWhile_append_dropWhile (fun e => decide (e.1 < address))
    self.mDBusModbusMap
  unfold DataIterator.new
  simp only []
  split
  · exact hnil _ rfl
  · split
    · exact hnil _ rfl
    · unfold DataIterator.locate
      split
      · exact hnil _ rfl
      · rename_i key d rest hlb
        have hlb' : List.dropWhile (fun e => decide (e.1 < address)) self.mDBusModbusMap =
            (key, d) :: rest := hlb
        have hcur : ∀ e ∈ (key, d) :: rest, 1 ≤ e.2.size := by
          intro e he
          exact hsize e (by rw [← hsplit, hlb']; exact List.mem_append_right _ he)
        split
        · split
          · exact hnil _ rfl
          · rename_i p hp
            split
            · exact hnil _ rfl
            · rename_i hspan
              have hpm : p ∈ self.mDBusModbusMap := by
                rw [← hsplit]
                exact List.mem_append_left _ (List.mem_of_mem_getLast? hp)
              refine ⟨attach_offsetInEntry _ _ _ _ p.1 p.2 _
                (le_of_lt (beforeLowerBound_lt hp)) (by omega), ?_⟩
              rcases attach_current self (DataIterator.init quantity) address _
                (p :: (key, d) :: rest) rfl with h | h
              · rw [h]; simp
              · rw [h]
                intro e he
                rcases List.mem_cons.mp he with h1 | h1
                · rw [h1]; exact hsize p hpm
                · exact hcur e h1
        · rename_i hkey
          have hk : key = address := not_not.mp hkey
          have := hcur (key, d) (List.mem_cons_self _ _)
          refine ⟨attach_offsetInEntry _ _ _ _ key d rest (le_of_eq hk)
            (by simp only at this; omega), ?_⟩
          rcases attach_current self (DataIterator.init quantity) address _
            ((key, d) :: rest) rfl with h | h
          · rw [h]; simp
          · rw [h]; exact hcur

theorem newAssert_true (self : State) (address unitId quantity : Int) :
    DataIterator.newAssert self address unitId quantity = true := by
  unfold DataIterator.newAssert
  split
  · rfl
  · split
    · rfl
    · split
      · rfl
      · split
        · split
          · rfl
          · rename_i p hp
            simpa using beforeLowerBound_lt hp
        · rfl

/-- C20. For a register table in which every entry has a size of at least 1, whatever the
address, unit id and quantity: `Q_ASSERT(mCurrent.key() < address)` holds where the
constructor reaches it, and after any number `n` of calls of `next()` the offset lies
inside the current entry (`0 <= mOffset < size`) while the iterator is not at its end, and
`Q_ASSERT(mOffset <= d->size)` holds where the following call of `next()` reaches it. -/
theorem iterator_assertions (self : State) (address unitId quantity : Int)
    (hsize : ∀ e ∈ self.mDBusModbusMap, 1 ≤ e.2.size) (n : Nat) :
    DataIterator.newAssert self address unitId quantity = true ∧
    ((DataIterator.new self address unitId quantity).steps n).nextAssert = true ∧
    ((DataIterator.new self address unitId quantity).steps n).offsetInEntry := by
  have hall : ∀ n : Nat,
      ((DataIterator.new self address unitId quantity).steps n).offsetInEntry ∧
      ∀ e ∈ ((DataIterator.new self address unitId quantity).steps n).mCurrent,
        1 ≤ e.2.size := by
    intro n
    induction n with
    | zero => exact new_offsetInEntry self address unitId quantity hsize
    | succ n ih =>
      have hsucc : (DataIterator.new self address unitId quantity).steps (n + 1) =
          ((DataIterator.new self address unitId quantity).steps n).next := by
        simp only [DataIterator.steps, Function.iterate_succ_apply']
      rw [hsucc]
      exact next_offsetInEntry _ ih.1 ih.2
  refine ⟨newAssert_true self address unitId quantity, ?_, (hall n).1⟩
  unfold DataIterator.nextAssert
  split
  · rfl
  · rename_i key d rest hc
    split
    · rfl
    · have := (hall n).1 key d rest hc
      simp only [decide_eq_true_eq]
      omega

/-- Witness of `iterator_assertions`: over `gapMap`, two registers from address 12, after
one call of `next()`. -/
theorem iterator_assertions_witness :
    (∀ e ∈ (exampleState gapMap .invalid).mDBusModbusMap, 1 ≤ e.2.size) ∧
    DataIterator.newAssert (exampleState gapMap .invalid) 12 5 2 = true ∧
    ((DataIterator.new (exampleState gapMap .invalid) 12 5 2).steps 1).nextAssert = true ∧
    ((DataIterator.new (exampleState gapMap .invalid) 12 5 2).steps 1).offsetInEntry :=
  ⟨gapMap_wellFormed.2.1,
    iterator_assertions (exampleState gapMap .invalid) 12 5 2 gapMap_wellFormed.2.1 1⟩

/-! ## The registers a walk visits -/

theorem walk_trace : ∀ (n : Nat) (key : Int) (d : DBusModbusData)
    (rest : List (Int × DBusModbusData)) (off : Int) (root : Option Nat),
    ((key, d) :: rest).Pairwise inOrderOrSized → 0 ≤ off → (1 ≤ d.size → off < d.size) →
    ((DataIterator.mk (n + 1 : Nat) off ((key, d) :: rest) root .NoError "").steps
      (n + 1)).mError = .NoError →
    ∀ k, k ≤ n → ∃ key2 d2 rest2 off2 pre,
      (DataIterator.mk (n + 1 : Nat) off ((key, d) :: rest) root .NoError "").steps k =
        DataIterator.mk ((n + 1 - k : Nat) : Int) off2 ((key2, d2) :: rest2) root .NoError
          "" ∧
      key2 + off2 = key + off + k ∧ 0 ≤ off2 ∧ (1 ≤ d2.size → off2 < d2.size) ∧
      (key, d) :: rest = pre ++ (key2, d2) :: rest2 := by
  intro n
  induction n with
  | zero =>
    intro key d rest off root _ h0 h1 _ k hk
    have : k = 0 := by omega
    subst this
    exact ⟨key, d, rest, off, [], rfl, by simp, h0, h1, rfl⟩
  | succ n ih =>
    intro key d rest off root hp h0 h1 hend k hk
    cases k with
    | zero => exact ⟨key, d, rest, off, [], rfl, by simp, h0, h1, rfl⟩
    | succ k =>
      have hq : ((n + 1 + 1 : Nat) : Int) - 1 = ((n + 1 : Nat) : Int) := by push_cast; ring
      have hq0 : ¬ ((n + 1 : Nat) : Int) = 0 := by push_cast; omega
      have hsub : n + 1 + 1 - (k + 1) = n + 1 - k := by omega
      rw [steps_succ] at hend ⊢
      by_cases hin : off + 1 < d.size
      · have hnext : (DataIterator.mk (n + 1 + 1 : Nat) off ((key, d) :: rest) root .NoError
            "").next = DataIterator.mk (n + 1 : Nat) (off + 1) ((key, d) :: rest) root
            .NoError "" := by
          simp only [DataIterator.next, hq, hq0, if_false, hin, if_true]
        rw [hnext] at hend ⊢
        obtain ⟨key2, d2, rest2, off2, pre, e1, e2, e3, e4, e5⟩ :=
          ih key d rest (off + 1) root hp (by omega) (fun _ => hin) hend k (by omega)
        exact ⟨key2, d2, rest2, off2, pre, by rw [e1, hsub], by push_cast; omega, e3, e4, e5⟩
      · cases rest with
        | nil =>
          have hnext : (DataIterator.mk (n + 1 + 1 : Nat) off [(key, d)] root .NoError
              "").next = DataIterator.mk (n + 1 : Nat) (off + 1) [] root .AddressError
              ("Modbus address " ++ toString (key + d.size) ++ " is not registered") := by
            simp only [DataIterator.next, hq, hq0, if_false, hin, DataIterator.setError]
          rw [hnext, steps_of_atEnd _ _ rfl] at hend
          simp at hend
        | cons e2 rest2 =>
          obtain ⟨k2, d2⟩ := e2
          by_cases hk2 : k2 = key + d.size
          · have hnext : (DataIterator.mk (n + 1 + 1 : Nat) off
                ((key, d) :: (k2, d2) :: rest2) root .NoError "").next =
                DataIterator.mk (n + 1 : Nat) 0 ((k2, d2) :: rest2) root .NoError "" := by
              simp only [DataIterator.next, hq, hq0, if_false, hin, hk2, ne_eq,
                not_true_eq_false]
            rw [hnext] at hend ⊢
            have hpc := List.pairwise_cons.mp hp
            have hsz : 1 ≤ d.size := by
              rcases hpc.1 (k2, d2) (List.mem_cons_self _ _) with h | h
              · exact h
              · simp only at h; omega
            have hoff := h1 hsz
            obtain ⟨key3, d3, rest3, off3, pre, e1, e2, e3, e4, e5⟩ :=
              ih k2 d2 rest2 0 root hpc.2 (le_refl _) (fun h => by omega) hend k (by omega)
            exact ⟨key3, d3, rest3, off3, (key, d) :: pre, by rw [e1, hsub],
              by push_cast; omega, e3, e4, by rw [e5]; rfl⟩
          · have hnext : (DataIterator.mk (n + 1 + 1 : Nat) off
                ((key, d) :: (k2, d2) :: rest2) root .NoError "").next =
                DataIterator.mk (n + 1 : Nat) (off + 1) [] root .AddressError
                ("Modbus address " ++ toString (key + d.size) ++ " is not registered") := by
              simp only [DataIterator.next, hq, hq0, if_false, hin, ne_eq, hk2,
                not_false_eq_true, if_true, DataIterator.setError]
            rw [hnext, steps_of_atEnd _ _ rfl] at hend
            simp at hend

theorem steps_atEnd_of_fuel : ∀ (m : Nat) (it : DataIterator), it.Inv →
    (it.mCurrent ≠ [] → it.mQuantity ≤ m) → (it.steps m).mCurrent = [] := by
  intro m
  induction m with
  | zero =>
    intro it hinv hq
    by_contra hne
    have h1 := (hinv hne).2.1
    have h2 := hq hne
    simp at h2; omega
  | succ m ih =>
    intro it hinv hq
    rw [steps_succ]
    by_cases hne : it.mCurrent = []
    · rw [next_of_atEnd _ hne, steps_of_atEnd _ _ hne]; exact hne
    · apply ih _ (next_inv it hinv)
      intro _
      have := hq hne
      rw [next_quantity it hne]
      push_cast at this ⊢; omega

theorem new_steps_atEnd (self : State) (address unitId quantity : Int) :
    ((DataIterator.new self address unitId quantity).steps quantity.toNat).mCurrent = [] :=
  steps_atEnd_of_fuel _ _ (new_inv self address unitId quantity)
    (new_fuel self address unitId quantity)

/-- The iterator after a construction that ends without error, for a positive quantity. -/
theorem new_shape_general (self : State) (address unitId quantity : Int) (hq : 0 < quantity)
    (h : (DataIterator.new self address unitId quantity).error = .NoError) :
    ∃ pre key d rest root, self.mDBusModbusMap = pre ++ (key, d) :: rest ∧
      DataIterator.new self address unitId quantity =
        DataIterator.mk quantity (address - key) ((key, d) :: rest) (some root) .NoError
          "" ∧
      key ≤ address ∧ (1 ≤ d.size → address < key + d.size) := by
  unfold DataIterator.error at h
  have hinv := new_inv self address unitId quantity
  unfold DataIterator.new at h hinv ⊢
  simp only [not_le.mpr hq, if_false] at h hinv ⊢
  cases hu : DataIterator.deviceInstance self.mUnitIDMap unitId with
  | none => simp [hu, DataIterator.setError] at h
  | some di =>
    simp only [hu] at h hinv ⊢
    unfold DataIterator.locate at h hinv ⊢
    have hsplit := List.takeWhile_append_dropWhile (fun e => decide (e.1 < address))
      self.mDBusModbusMap
    have hroot : ∀ (key : Int) (d : DBusModbusData) (rest : List (Int × DBusModbusData))
        (r : Option Nat),
        (DataIterator.init quantity).attach self address di ((key, d) :: rest) =
          DataIterator.mk quantity (address - key) ((key, d) :: rest) r .NoError "" →
        ((DataIterator.init quantity).attach self address di ((key, d) :: rest)).Inv →
        ∃ root, r = some root := by
      intro key d rest r he hi
      rw [he] at hi
      have := (hi (by simp)).2.2.1
      cases r with
      | none => simp at this
      | some root => exact ⟨root, rfl⟩
    cases hlb : lowerBound self.mDBusModbusMap address with
    | nil => simp [hlb, DataIterator.setError] at h
    | cons e rest =>
      obtain ⟨key, d⟩ := e
      have hlb' : List.dropWhile (fun e => decide (e.1 < address)) self.mDBusModbusMap =
          (key, d) :: rest := hlb
      simp only [hlb] at h hinv ⊢
      by_cases hkey : key = address
      · simp only [hkey, ne_eq, not_true_eq_false, if_false] at h hinv ⊢
        obtain ⟨r, hr⟩ := attach_shape self quantity address di address d rest h
        obtain ⟨root, rfl⟩ := hroot address d rest r hr hinv
        refine ⟨List.takeWhile (fun e => decide (e.1 < address)) self.mDBusModbusMap,
          address, d, rest, root, ?_, hr, le_refl _, fun hs => by omega⟩
        have hd : (address, d) :: rest =
            List.dropWhile (fun e => decide (e.1 < address)) self.mDBusModbusMap := by
          rw [hlb', hkey]
        rw [hd]; exact hsplit.symm
      · simp only [ne_eq, hkey, not_false_eq_true, if_true] at h hinv ⊢
        cases hb : beforeLowerBound self.mDBusModbusMap address with
        | none => simp [hb, DataIterator.setError] at h
        | some p =>
          obtain ⟨pk, pd⟩ := p
          simp only [hb] at h hinv ⊢
          by_cases hspan : pk + pd.size ≤ address
          · simp [hspan, DataIterator.setError] at h
          · simp only [hspan, if_false] at h hinv ⊢
            obtain ⟨r, hr⟩ := attach_shape self quantity address di pk pd _ h
            obtain ⟨root, rfl⟩ := hroot pk pd _ r hr hinv
            obtain ⟨ys, hys⟩ := List.getLast?_eq_some_iff.mp hb
            refine ⟨ys, pk, pd, (key, d) :: rest, root, ?_, hr,
              le_of_lt (beforeLowerBound_lt hb), fun _ => by omega⟩
            rw [← hsplit, hys, hlb']
            simp

theorem pairwise_of_sizes (l : List (Int × DBusModbusData)) (h : ∀ e ∈ l, 1 ≤ e.2.size) :
    l.Pairwise inOrderOrSized := by
  induction l with
  | nil => exact List.Pairwise.nil
  | cons x tl ih =>
    exact List.pairwise_cons.mpr
      ⟨fun _ _ => Or.inl (h x (List.mem_cons_self _ _)),
        ih (fun e he => h e (List.mem_cons_of_mem _ he))⟩

/-- The states of a walk that ends without error: after `k` calls of `next()`, for every `k`
below the quantity, the iterator stands on an entry of the table at the register
`address + k`. -/
theorem walk_registers (self : State) (address unitId quantity : Int) (hq : 0 < quantity)
    (hp : self.mDBusModbusMap.Pairwise inOrderOrSized)
    (hend : ((DataIterator.new self address unitId quantity).steps quantity.toNat).error =
      .NoError) :
    ∃ root, ∀ k : Nat, (k : Int) < quantity → ∃ key d rest,
      (key, d) ∈ self.mDBusModbusMap ∧
      (DataIterator.new self address unitId quantity).steps k =
        DataIterator.mk (quantity - k) (address + k - key) ((key, d) :: rest) (some root)
          .NoError "" ∧
      key ≤ address + k ∧ (1 ≤ d.size → address + k < key + d.size) := by
  have hnew : (DataIterator.new self address unitId quantity).error = .NoError := by
    by_cases hc : (DataIterator.new self address unitId quantity).mCurrent = []
    · rw [steps_of_atEnd _ _ hc] at hend; exact hend
    · exact (new_inv self address unitId quantity hc).2.2.2
  obtain ⟨pre, key, d, rest, root, hmap, hit, hk1, hk2⟩ :=
    new_shape_general self address unitId quantity hq hnew
  obtain ⟨n, hn⟩ : ∃ n : Nat, quantity = ((n + 1 : Nat) : Int) :=
    ⟨(quantity - 1).toNat, by push_cast; omega⟩
  have htoNat : quantity.toNat = n + 1 := by omega
  have hcur : ((key, d) :: rest).Pairwise inOrderOrSized := by
    rw [hmap] at hp
    exact (List.pairwise_append.mp hp).2.1
  rw [hit, htoNat] at hend
  refine ⟨root, ?_⟩
  intro k hk
  rw [hn] at hend
  obtain ⟨key2, d2, rest2, off2, pre2, e1, e2, e3, e4, e5⟩ :=
    walk_trace n key d rest (address - key) (some root) hcur (by omega)
      (fun h => by have := hk2 h; omega) hend k (by omega)
  refine ⟨key2, d2, rest2, ?_, ?_, by omega, fun h => by have := e4 h; omega⟩
  · rw [hmap, e5]
    simp
  · rw [hit, hn, e1]
    have h1 : ((n + 1 - k : Nat) : Int) = ((n + 1 : Nat) : Int) - k := by omega
    have h2 : off2 = address + k - key2 := by omega
    rw [h1, h2]

/-- C15. For a register table whose entries all have a size of at least 1 and a walk of a
positive quantity that ends with `NoError`: the iterator is not at its end after `k` calls of
`next()` for every `k` below the quantity and is at its end after as many calls as the
quantity, so the walk visits exactly that many registers; at the `k`-th of them `address()`
is `address + k`, `offset()` is `address()` less the key of the current entry, and
`0 <= offset() < data()->size`. Every walk, with or without error and over any table, is at
its end after as many calls of `next()` as the quantity. -/
theorem walk_visits_quantity (self : State) (address unitId quantity : Int)
    (hq : 0 < quantity) (hsize : ∀ e ∈ self.mDBusModbusMap, 1 ≤ e.2.size)
    (hend : ((DataIterator.new self address unitId quantity).steps quantity.toNat).error =
      .NoError) :
    (∀ k : Nat, (k : Int) < quantity →
      ((DataIterator.new self address unitId quantity).steps k).atEnd = false ∧
      ((DataIterator.new self address unitId quantity).steps k).address = address + k ∧
      ∃ key d rest,
        ((DataIterator.new self address unitId quantity).steps k).mCurrent =
          (key, d) :: rest ∧
        ((DataIterator.new self address unitId quantity).steps k).data = some d ∧
        ((DataIterator.new self address unitId quantity).steps k).offset =
          ((DataIterator.new self address unitId quantity).steps k).address - key ∧
        0 ≤ ((DataIterator.new self address unitId quantity).steps k).offset ∧
        ((DataIterator.new self address unitId quantity).steps k).offset < d.size) ∧
    ((DataIterator.new self address unitId quantity).steps quantity.toNat).atEnd = true ∧
    (∀ (self2 : State) (a u q : Int),
      ((DataIterator.new self2 a u q).steps q.toNat).atEnd = true) := by
  obtain ⟨root, hall⟩ := walk_registers self address unitId quantity hq
    (pairwise_of_sizes _ hsize) hend
  refine ⟨?_, (atEnd_iff _).mpr (new_steps_atEnd self address unitId quantity),
    fun self2 a u q => (atEnd_iff _).mpr (new_steps_atEnd self2 a u q)⟩
  intro k hk
  obtain ⟨key, d, rest, hmem, hst, h1, h2⟩ := hall k hk
  have hsz := hsize (key, d) hmem
  have hlt := h2 hsz
  rw [hst]
  refine ⟨rfl, by simp only [DataIterator.address]; omega, key, d, rest, rfl, ?_, ?_, ?_, ?_⟩
  · have : ¬ address + k - key < 0 := by omega
    simp [DataIterator.data, this]
  · simp only [DataIterator.offset, DataIterator.address]; omega
  · simp only [DataIterator.offset]; omega
  · simp only [DataIterator.offset]; omega

/-- Witness of `walk_visits_quantity`: over `gapMap`, two registers from address 12. -/
theorem walk_visits_quantity_witness :
    ((0 : Int) < 2 ∧
      ((DataIterator.new (exampleState gapMap .invalid) 12 5 2).steps 2).error = .NoError) ∧
    ((DataIterator.new (exampleState gapMap .invalid) 12 5 2).steps 1).atEnd = false ∧
    ((DataIterator.new (exampleState gapMap .invalid) 12 5 2).steps 1).address = 12 + 1 ∧
    ((DataIterator.new (exampleState gapMap .invalid) 12 5 2).steps 2).atEnd = true := by
  have h := walk_visits_quantity (exampleState gapMap .invalid) 12 5 2 (by norm_num)
    gapMap_wellFormed.2.1 rfl
  have h1 := h.1 1 (by norm_num)
  exact ⟨⟨by norm_num, rfl⟩, h1.1, by simpa using h1.2.1, h.2.1⟩

/-! ## Iterator errors in `handleRequest` -/

theorem handleRequestLoop_walked (request : MappingRequest) :
    ∀ (fuel : Nat) (it : DataIterator) (pendingItems : List VeQItem), it.Inv →
      (it.mCurrent ≠ [] → it.mQuantity ≤ fuel) →
      (∀ k, (it.steps k).mCurrent ≠ [] → writeDenied request (it.steps k) = some false) →
      ∃ m items, handleRequestLoop request fuel it pendingItems =
          some (.walked (it.steps m) items) ∧ (it.steps m).mCurrent = [] := by
  intro fuel
  induction fuel with
  | zero =>
    intro it ps hinv hq _
    cases hc : it.mCurrent with
    | nil =>
      exact ⟨0, ps, by unfold handleRequestLoop; simp [DataIterator.atEnd, hc,
        DataIterator.steps], hc⟩
    | cons e rest =>
      have h1 := (hinv (by simp [hc])).2.1
      have h2 := hq (by simp [hc])
      simp at h2; omega
  | succ fuel ih =>
    intro it ps hinv hq hw
    cases hc : it.mCurrent with
    | nil =>
      exact ⟨0, ps, by unfold handleRequestLoop; simp [DataIterator.atEnd, hc,
        DataIterator.steps], hc⟩
    | cons e rest =>
      obtain ⟨key, d⟩ := e
      obtain ⟨_, root, hitem⟩ := data_item_of_inv it hinv key d rest hc
      have hw0 : writeDenied request it = some false := hw 0 (by simp [DataIterator.steps, hc])
      obtain ⟨m, items, hloop, hend⟩ := ih it.next
        (ps ++ [{ root := root, objectPath := d.objectPath }]) (next_inv it hinv)
        (by
          intro _
          have := hq (by simp [hc])
          rw [next_quantity it (by simp [hc])]
          push_cast at this ⊢; omega)
        (fun k hk => by
          have := hw (k + 1) (by rw [steps_succ]; exact hk)
          rw [steps_succ] at this
          exact this)
      refine ⟨m + 1, items, ?_, by rw [steps_succ]; exact hend⟩
      rw [steps_succ, ← hloop]
      conv => lhs; unfold handleRequestLoop
      simp [DataIterator.atEnd, hc, hw0, hitem]

theorem attach_error (self : State) (it : DataIterator) (address deviceInstance : Int)
    (cur : List (Int × DBusModbusData)) (h : it.mError ≠ .PermissionError) :
    (it.attach self address deviceInstance cur).mError ≠ .PermissionError := by
  unfold DataIterator.attach
  split
  · exact h
  · split
    · simp [DataIterator.setError]
    · exact h

theorem new_error (self : State) (address unitId quantity : Int) :
    (DataIterator.new self address unitId quantity).mError ≠ .PermissionError := by
  have hinit : (DataIterator.init quantity).mError ≠ .PermissionError := by
    simp [DataIterator.init]
  unfold DataIterator.new
  simp only []
  split
  · exact hinit
  · split
    · simp [DataIterator.setError]
    · unfold DataIterator.locate
      split
      · simp [DataIterator.setError]
      · split
        · split
          · simp [DataIterator.setError]
          · split
            · simp [DataIterator.setError]
            · exact attach_error _ _ _ _ _ hinit
        · exact attach_error _ _ _ _ _ hinit

theorem next_error (it : DataIterator) (h : it.mError ≠ .PermissionError) :
    it.next.mError ≠ .PermissionError := by
  unfold DataIterator.next
  split
  · exact h
  · simp only []
    split
    · exact h
    · split
      · exact h
      · split
        · simp [DataIterator.setError]
        · split
          · simp [DataIterator.setError]
          · exact h

theorem steps_error (n : Nat) (it : DataIterator) (h : it.mError ≠ .PermissionError) :
    (it.steps n).mError ≠ .PermissionError := by
  induction n generalizing it with
  | zero => exact h
  | succ n ih => rw [steps_succ]; exact ih _ (next_error it h)

/-- C14. No partial results on an iterator error: when the iterator of a write request has
an error after `n` calls of `next()` and every register it stands on before that is
writable, `handleRequest` completes the request with that error and its error string, and
does nothing else: the backend holds the same values, no `setValue` call is made, and no
monitor is registered. The error is one of `UnitIdError`, `StartAddressError`,
`AddressError` and `ServiceError`. -/
theorem handleRequest_iterator_error (ext : Externals) (self : State)
    (request : MappingRequest) (htype : request.type = .WriteValues) (n : Nat)
    (herr : ((DataIterator.new self request.address request.unitId request.quantity).steps
      n).error ≠ .NoError)
    (hwritable : ∀ i, i < n →
      ((DataIterator.new self request.address request.unitId request.quantity).steps
        i).atEnd = false →
      (DataIterator.new self request.address request.unitId request.quantity).writableAt
        i) :
    ∃ s, handleRequest ext self request = some s ∧
      s.requestCompleted = self.requestCompleted ++
        [request.setError
          ((DataIterator.new self request.address request.unitId request.quantity).steps
            n).error
          ((DataIterator.new self request.address request.unitId request.quantity).steps
            n).errorString] ∧
      s.mServices.value = self.mServices.value ∧
      s.mServices.setValueCalls = self.mServices.setValueCalls ∧
      s.mPendingRequests = self.mPendingRequests ∧
      ((DataIterator.new self request.address request.unitId request.quantity).steps
        n).error ≠ .PermissionError := by
  have hinv := new_inv self request.address request.unitId request.quantity
  have hend : ((DataIterator.new self request.address request.unitId
      request.quantity).steps n).mCurrent = [] := by
    by_contra hne
    exact herr ((steps_inv n _ hinv) hne).2.2.2
  have hw : ∀ k, ((DataIterator.new self request.address request.unitId
      request.quantity).steps k).mCurrent ≠ [] →
      writeDenied request ((DataIterator.new self request.address request.unitId
        request.quantity).steps k) = some false := by
    intro k hk
    have hkn : k < n := by
      by_contra hge
      obtain ⟨j, rfl⟩ := Nat.exists_eq_add_of_le (not_lt.mp hge)
      have hadd : (DataIterator.new self request.address request.unitId
          request.quantity).steps (n + j) =
          ((DataIterator.new self request.address request.unitId
            request.quantity).steps n).steps j := by
        simp only [DataIterator.steps, Nat.add_comm n j, Function.iterate_add_apply]
      rw [hadd, steps_of_atEnd _ _ hend] at hk
      exact hk hend
    obtain ⟨d, hd, hacc⟩ := hwritable k hkn (by
      cases h : ((DataIterator.new self request.address request.unitId
        request.quantity).steps k).atEnd with
      | false => rfl
      | true => exact absurd ((atEnd_iff _).mp h) hk)
    simp [writeDenied, htype, hd, hacc]
  obtain ⟨m, items, hloop, hm⟩ := handleRequestLoop_walked request request.quantity.toNat
    (DataIterator.new self request.address request.unitId request.quantity) [] hinv
    (new_fuel self _ _ _) hw
  have hsame := steps_eq_of_atEnd _ m n hm hend
  have hnoperm : ∀ (k : Nat), ((DataIterator.new self request.address request.unitId
      request.quantity).steps k).error ≠ .PermissionError := by
    intro k
    exact steps_error k _ (new_error self _ _ _)
  refine ⟨self.emitRequestCompleted (request.setError
    ((DataIterator.new self request.address request.unitId request.quantity).steps n).error
    ((DataIterator.new self request.address request.unitId request.quantity).steps
      n).errorString), ?_, rfl, rfl, rfl, rfl, hnoperm n⟩
  unfold handleRequest
  dsimp only
  rw [hloop, hsame]
  simp only [herr, ne_eq, not_false_eq_true, if_true]

/-- Witness of `handleRequest_iterator_error`: a write of two registers from address 10 over
`gapMap` passes the writable register 10 and then finds address 11 unregistered. -/
theorem handleRequest_iterator_error_witness :
    ((DataIterator.new (exampleState gapMap .invalid) 10 5 2).steps 1).error ≠ .NoError ∧
    ∃ s, handleRequest signedCharExt (exampleState gapMap .invalid)
        (exampleRequest .WriteValues 10 2 [0, 1, 0, 2]) = some s ∧
      s.requestCompleted = (exampleState gapMap .invalid).requestCompleted ++
        [(exampleRequest .WriteValues 10 2 [0, 1, 0, 2]).setError .AddressError
          "Modbus address 11 is not registered"] ∧
      s.mServices.value = (exampleState gapMap .invalid).mServices.value ∧
      s.mServices.setValueCalls = (exampleState gapMap .invalid).mServices.setValueCalls ∧
      s.mPendingRequests = (exampleState gapMap .invalid).mPendingRequests ∧
      MappingErrors.AddressError ≠ .PermissionError :=
  ⟨by decide,
    handleRequest_iterator_error signedCharExt (exampleState gapMap .invalid)
      (exampleRequest .WriteValues 10 2 [0, 1, 0, 2]) rfl 1 (by decide)
      (fun i hi _ => by
        have : i = 0 := by omega
        subst this
        exact ⟨_, rfl, rfl⟩)⟩

/-! ## Layout of the read reply -/

theorem payload_word_lt (a b : Nat) : ((a % 256) <<< 8 ||| b % 256) < 2 ^ 16 := by
  have ha : a % 256 < 256 := Nat.mod_lt _ (by norm_num)
  have hb : b % 256 < 2 ^ 8 := Nat.mod_lt _ (by norm_num)
  rw [Nat.shiftLeft_eq, mul_comm, ← Nat.mul_add_lt_is_or hb]
  omega

/-- What the loop at lines 156-160 accumulates for an entry of size 2 at offset 0 when both
registers are in the payload: the first payload word, taken with `i = 2`, is shifted by
`16 * (2 - 2 - 0) = 0` bits and the second, taken with `i = 1`, by 16 bits. -/
theorem payloadLoop_full_span (data : QByteArray) (j : Nat) :
    payloadLoop data 2 0 2 j 0 =
      (j + 4,
        ((((data.getD (j + 2) 0) % 256) <<< 8 ||| (data.getD (j + 3) 0) % 256) <<< 16) |||
          (((data.getD j 0) % 256) <<< 8 ||| (data.getD (j + 1) 0) % 256)) := by
  have h0 := payload_word_lt (data.getD j 0) (data.getD (j + 1) 0)
  have h1 := payload_word_lt (data.getD (j + 2) 0) (data.getD (j + 3) 0)
  have e1 : (16 : Int) * (2 - ((1 + 1 : Nat) : Int) - 0) = 0 := by norm_num
  have e2 : (16 : Int) * (2 - ((0 + 1 : Nat) : Int) - 0) = 16 := by norm_num
  have e3 : j + 2 + 1 = j + 3 := rfl
  have e4 : j + 2 + 2 = j + 4 := rfl
  show payloadLoop data 2 0 (1 + 1) j 0 = _
  simp only [payloadLoop, e1, e2, e3, e4]
  generalize ((data.getD j 0) % 256) <<< 8 ||| (data.getD (j + 1) 0) % 256 = w0 at h0 ⊢
  generalize ((data.getD (j + 2) 0) % 256) <<< 8 ||| (data.getD (j + 3) 0) % 256 = w1
    at h1 ⊢
  have hs0 : shl32 w0 0 = w0 := by
    simp only [shl32, lt_self_iff_false, if_false, Int.toNat_zero, Nat.shiftLeft_zero]
    exact Nat.mod_eq_of_lt (by omega)
  have hs1 : shl32 w1 16 = w1 <<< 16 := by
    have : ¬ (16 : Int) < 0 := by norm_num
    simp only [shl32, this, if_false]
    have h16 : (16 : Int).toNat = 16 := rfl
    rw [h16, Nat.shiftLeft_eq]
    exact Nat.mod_eq_of_lt (by omega)
  have hmask : not32 (shl32 0xFFFF 16) = 2 ^ 16 - 1 := by decide
  have hand : w0 &&& (2 ^ 16 - 1) = w0 := by
    rw [Nat.and_pow_two_sub_one_eq_mod]
    exact Nat.mod_eq_of_lt h0
  rw [hs0, hs1, hmask, Nat.zero_and, Nat.zero_or, hand, Nat.lor_comm]

theorem steps_succ_next (n : Nat) (it : DataIterator) :
    it.steps (n + 1) = (it.steps n).next := by
  rw [DataIterator.steps, Function.iterate_succ_apply']; rfl

/-- In a table in key order that starts with the entry of `A`, the entries of `A + 1`, ...,
`A + k` follow it directly. -/
theorem sorted_run : ∀ (k : Nat) (cur : List (Int × DBusModbusData)) (A : Int)
    (e : Nat → DBusModbusData), cur.Pairwise (fun a b => a.1 < b.1) →
    (∀ i, i ≤ k → (A + i, e i) ∈ cur) → cur.head? = some (A, e 0) →
    ∀ i, i ≤ k → cur[i]? = some (A + i, e i) := by
  intro k
  induction k with
  | zero =>
    intro cur A e _ _ hhead i hi
    obtain rfl : i = 0 := by omega
    cases cur with
    | nil => simp at hhead
    | cons c rest => simpa using hhead
  | succ k ih =>
    intro cur A e hs hmem hhead i hi
    cases cur with
    | nil => simp at hhead
    | cons c rest =>
      simp only [List.head?_cons, Option.some.injEq] at hhead
      subst hhead
      rw [List.pairwise_cons] at hs
      have hrest : ∀ i, i ≤ k → (A + 1 + i, e (i + 1)) ∈ rest := by
        intro i hi
        have h := hmem (i + 1) (by omega)
        rcases List.mem_cons.mp h with h | h
        · have := congrArg Prod.fst h
          simp only at this
          push_cast at this
          omega
        · have e1 : A + 1 + (i : Int) = A + ((i + 1 : Nat) : Int) := by push_cast; ring
          rw [e1]; exact h
      have hhead2 : rest.head? = some (A + 1, e 1) := by
        have h1 := hrest 0 (Nat.zero_le _)
        simp only [Nat.cast_zero, add_zero, zero_add] at h1
        cases rest with
        | nil => simp at h1
        | cons b rest2 =>
          rcases List.mem_cons.mp h1 with h | h
          · simp [← h]
          · have hb := hs.1 b (List.mem_cons_self _ _)
            have hb2 := (List.pairwise_cons.mp hs.2).1 (A + 1, e 1) h
            simp only at hb hb2
            omega
      cases i with
      | zero => simp
      | succ i =>
        have := ih rest (A + 1) (fun i => e (i + 1)) hs.2 hrest hhead2 i (by omega)
        simp only [List.getElem?_cons_succ, this]
        congr 2
        push_cast; ring

theorem drop_of_getElem_some {α : Type} (l : List α) (i : Nat) (x : α) (h : l[i]? = some x) :
    l.drop i = x :: l.drop (i + 1) := by
  have hlt : i < l.length := by
    by_contra hcon
    rw [List.getElem?_eq_none (by omega)] at h
    exact absurd h (by simp)
  rw [List.getElem?_eq_getElem hlt] at h
  simp only [Option.some.injEq] at h
  rw [List.drop_eq_getElem_cons hlt, h]

/-- The walk over a run of entries of size 1 with keys `A`, `A + 1`, ..., `A + k`. -/
theorem run_steps (cur : List (Int × DBusModbusData)) (A : Int) (e : Nat → DBusModbusData)
    (q : Int) (root : Option Nat) (k : Nat) (hq : (k : Int) < q)
    (hcur : ∀ i, i ≤ k → cur[i]? = some (A + i, e i))
    (hsize : ∀ i, i ≤ k → (e i).size = 1) :
    ∀ i, i ≤ k → (DataIterator.mk q 0 cur root .NoError "").steps i =
      DataIterator.mk (q - i) 0 (cur.drop i) root .NoError "" := by
  intro i
  induction i with
  | zero => intro _; simp [DataIterator.steps]
  | succ i ih =>
    intro hi
    rw [steps_succ_next, ih (by omega)]
    have h1 := hcur i (by omega)
    have h2 := hcur (i + 1) hi
    have hd1 : cur.drop i = (A + i, e i) :: cur.drop (i + 1) := drop_of_getElem_some _ _ _ h1
    have hd2 : cur.drop (i + 1) = (A + (i + 1 : Nat), e (i + 1)) :: cur.drop (i + 2) :=
      drop_of_getElem_some _ _ _ h2
    rw [hd1, hd2]
    have hne : ¬ q - (i : Int) - 1 = 0 := by omega
    have hsz := hsize i (by omega)
    simp only [DataIterator.next, hne, if_false, hsz, zero_add, lt_self_iff_false]
    have hk : ¬ A + ((i + 1 : Nat) : Int) ≠ A + (i : Int) + 1 := by push_cast; omega
    simp only [hk, if_false]
    congr 1
    push_cast; ring

theorem afterCalls_snoc (s : DBusServices) (l : List (VeQItem × QVariant))
    (c : VeQItem × QVariant) :
    s.afterCalls (l ++ [c]) = ((s.afterCalls l).setValue c.1 c.2).2 := by
  simp [DBusServices.afterCalls, List.foldl_append]

theorem afterCalls_cons (s : DBusServices) (l : List (VeQItem × QVariant))
    (c : VeQItem × QVariant) :
    s.afterCalls (c :: l) = (s.setValue c.1 c.2).2.afterCalls l := rfl

theorem afterCalls_fields (s : DBusServices) (l : List (VeQItem × QVariant)) :
    (s.afterCalls l).setValueResult = s.setValueResult ∧
    (s.afterCalls l).getService = s.getService ∧
    (s.afterCalls l).setValueCalls = s.setValueCalls ++ l := by
  induction l using List.reverseRecOn with
  | nil => simp [DBusServices.afterCalls]
  | append_singleton l c ih =>
    rw [afterCalls_snoc]
    simp only [DBusServices.setValue, ih.1, ih.2.1, ih.2.2, List.append_assoc, and_self]

/-- The value an item holds after a list of calls of `setValue`: that of the call at
position `i`, when the backend accepts that call and no later call that it accepts is for
the same item. -/
theorem afterCalls_value (s : DBusServices) (l : List (VeQItem × QVariant)) :
    ∀ (x : VeQItem) (v : QVariant) (i : Nat), l[i]? = some (x, v) →
    s.setValueResult x v = 0 →
    (∀ i2 y u, i < i2 → l[i2]? = some (y, u) → y ≠ x ∨ s.setValueResult y u ≠ 0) →
    (s.afterCalls l).value x = v := by
  induction l using List.reverseRecOn with
  | nil => intro x v i h; simp at h
  | append_singleton l c ih =>
    intro x v i hi h0 hlater
    rw [afterCalls_snoc]
    by_cases hlt : i < l.length
    · rw [List.getElem?_append_left hlt] at hi
      have hc := hlater l.length c.1 c.2 hlt (by simp)
      have hprev := ih x v i hi h0 (fun i2 y u h1 h2 => hlater i2 y u h1 (by
        have : i2 < l.length := by
          by_contra hcon
          rw [List.getElem?_eq_none (by omega)] at h2
          exact absurd h2 (by simp)
        rw [List.getElem?_append_left this]; exact h2))
      simp only [DBusServices.setValue, (afterCalls_fields s l).1]
      rcases hc with hc | hc
      · by_cases hz : s.setValueResult c.1 c.2 = 0
        · simp only [hz, if_true, Ne.symm hc, if_false]; exact hprev
        · simp only [hz, if_false]; exact hprev
      · simp only [hc, if_false]; exact hprev
    · have hlen : i = l.length := by
        by_contra hcon
        rw [List.getElem?_eq_none (by simp; omega)] at hi
        exact absurd hi (by simp)
      subst hlen
      simp only [List.getElem?_concat_length, Option.some.injEq] at hi
      subst hi
      simp only [DBusServices.setValue, (afterCalls_fields s l).1, h0, if_true]

/-- A register of a 16-bit entry, written on its own: the payload word at byte `j`. -/
theorem setValuesEntry_single (ext : Externals) (data : QByteArray) (it : DataIterator)
    (d : DBusModbusData) (current : QVariant) (j : Nat)
    (hsize : d.size = 1) (hoff : it.offset = 0) (hrc : ext.registerCount it = 1) :
    setValuesEntry ext data it d current j = (j + 2, encodeRegister d (payloadWord data j)) := by
  have hw := payload_word_lt (data.getD j 0) (data.getD (j + 1) 0)
  have hshl : shl32 (payloadWord data j) 0 = payloadWord data j := by
    simp only [shl32, lt_self_iff_false, if_false, Int.toNat_zero, Nat.shiftLeft_zero]
    exact Nat.mod_eq_of_lt (by unfold payloadWord; omega)
  have e1 : (16 : Int) * (1 - ((0 + 1 : Nat) : Int) - 0) = 0 := by norm_num
  simp only [setValuesEntry, hrc, hsize, hoff, lt_self_iff_false, gt_iff_lt, or_self,
    if_false, Int.toNat_one, payloadLoop, e1]
  change (j + 2, encodeRegister d ((0 &&& not32 (shl32 0xFFFF 0)) |||
    shl32 (payloadWord data j) 0)) = _
  rw [hshl, Nat.zero_and, Nat.zero_or]

/-- The loop of `setValues` over registers whose values the backend accepts up to the
`k`-th, which it refuses: the loop ends there, after the calls for the registers 0 to `k`. -/
theorem setValuesLoop_fails_at (ext : Externals) (data : QByteArray) :
    ∀ (k fuel : Nat) (it : DataIterator) (services : DBusServices)
      (item : Nat → VeQItem) (d : Nat → DBusModbusData) (J : Nat → Nat) (V : Nat → QVariant),
    k < fuel →
    (∀ i, i ≤ k → (it.steps i).atEnd = false ∧ (it.steps i).item = some (item i) ∧
      (it.steps i).data = some (d i) ∧
      ∀ current, setValuesEntry ext data (it.steps i) (d i) current (J i) =
        (J (i + 1), V i)) →
    (∀ i, i ≤ k → V i ≠ .invalid) →
    (∀ i, i < k → services.setValueResult (item i) (V i) = 0) →
    services.setValueResult (item k) (V k) ≠ 0 →
    setValuesLoop ext data fuel it (J 0) services =
      some (.failed (services.afterCalls ((List.range (k + 1)).map (fun i => (item i, V i))))
        ("SetValue failed on " ++ (d k).objectPath)) := by
  intro k
  induction k with
  | zero =>
    intro fuel it services item d J V hfuel hstep hvalid _ hfail
    obtain ⟨f, rfl⟩ : ∃ f, fuel = f + 1 := ⟨fuel - 1, by omega⟩
    obtain ⟨h1, h2, h3, h4⟩ := hstep 0 (le_refl _)
    simp only [DataIterator.steps, Function.iterate_zero, id_eq] at h1 h2 h3 h4
    unfold setValuesLoop
    simp only [h1, Bool.false_eq_true, if_false, h2, h3, h4, hvalid 0 (le_refl _)]
    have hrc : (services.setValue (item 0) (V 0)).1 ≠ 0 := hfail
    simp only [hrc, ne_eq, not_false_eq_true, if_true]
    rfl
  | succ k ih =>
    intro fuel it services item d J V hfuel hstep hvalid hok hfail
    obtain ⟨f, rfl⟩ : ∃ f, fuel = f + 1 := ⟨fuel - 1, by omega⟩
    obtain ⟨h1, h2, h3, h4⟩ := hstep 0 (Nat.zero_le _)
    simp only [DataIterator.steps, Function.iterate_zero, id_eq] at h1 h2 h3 h4
    unfold setValuesLoop
    simp only [h1, Bool.false_eq_true, if_false, h2, h3, h4, hvalid 0 (Nat.zero_le _)]
    have hrc : (services.setValue (item 0) (V 0)).1 = 0 := hok 0 (Nat.succ_pos _)
    simp only [hrc, ne_eq, not_true_eq_false, if_false]
    have hres : (services.setValue (item 0) (V 0)).2.setValueResult =
        services.setValueResult := rfl
    have := ih f it.next (services.setValue (item 0) (V 0)).2 (fun i => item (i + 1))
      (fun i => d (i + 1)) (fun i => J (i + 1)) (fun i => V (i + 1)) (by omega)
      (fun i hi => by
        have := hstep (i + 1) (by omega)
        rw [steps_succ] at this
        exact this)
      (fun i hi => hvalid (i + 1) (by omega))
      (fun i hi => by rw [hres]; exact hok (i + 1) (by omega))
      (by rw [hres]; exact hfail)
    simp only at this
    rw [this, List.range_succ_eq_map (k + 1), List.map_cons, List.map_map, afterCalls_cons]
    rfl

theorem mem_lowerBound (map : List (Int × DBusModbusData)) (A : Int)
    (x : Int × DBusModbusData) (hx : x ∈ map) (hA : A ≤ x.1) : x ∈ lowerBound map A := by
  have hsplit := List.takeWhile_append_dropWhile (fun e => decide (e.1 < A)) map
  rw [← hsplit] at hx
  rcases List.mem_append.mp hx with h | h
  · have := List.mem_takeWhile_imp h
    simp only [decide_eq_true_eq] at this
    omega
  · exact h

theorem range_map_get {α : Type} (f : Nat → α) (k i : Nat) :
    ((List.range (k + 1)).map f)[i]? = if i ≤ k then some (f i) else none := by
  rw [List.getElem?_map]
  by_cases h : i ≤ k
  · rw [List.getElem?_range (by omega)]
    simp [h]
  · rw [List.getElem?_eq_none (by simp; omega)]
    simp [h]

/-- The walk of a request over the entries of size 1 at `address`, ..., `address + k` of a
table in key order, up to the `k`-th register. -/
theorem new_run_steps (self : State) (address unitId quantity di : Int)
    (e : Nat → DBusModbusData) (root : Nat) (k : Nat) (hq : (k : Int) < quantity)
    (hs : self.mDBusModbusMap.Pairwise (fun a b => a.1 < b.1))
    (hmem : ∀ i, i ≤ k → (address + i, e i) ∈ self.mDBusModbusMap)
    (hsize : ∀ i, i ≤ k → (e i).size = 1)
    (hunit : DataIterator.deviceInstance self.mUnitIDMap unitId = some di)
    (hsvc : self.mServices.getService (e 0).deviceType di = some root) :
    ∀ i, i ≤ k → ∃ rest, (DataIterator.new self address unitId quantity).steps i =
      DataIterator.mk (quantity - i) 0 ((address + i, e i) :: rest) (some root) .NoError
        "" := by
  have hmem0 : (address, e 0) ∈ self.mDBusModbusMap := by
    simpa using hmem 0 (Nat.zero_le _)
  obtain ⟨rest, hr⟩ := lowerBound_of_mem _ hs address (e 0) hmem0
  have hnew : DataIterator.new self address unitId quantity =
      DataIterator.mk quantity 0 (lowerBound self.mDBusModbusMap address) (some root)
        .NoError "" := by
    have hq0 : ¬ quantity ≤ 0 := by omega
    simp [DataIterator.new, hq0, hunit, DataIterator.locate, hr, DataIterator.attach,
      hsvc, DataIterator.init]
  have hsorted : (lowerBound self.mDBusModbusMap address).Pairwise (fun a b => a.1 < b.1) :=
    hs.sublist (List.dropWhile_sublist _)
  have hcur := sorted_run k (lowerBound self.mDBusModbusMap address) address e hsorted
    (fun i hi => mem_lowerBound _ _ _ (hmem i hi) (by simp))
    (by rw [hr]; rfl)
  intro i hi
  have hst := run_steps (lowerBound self.mDBusModbusMap address) address e quantity
    (some root) k hq hcur hsize i hi
  refine ⟨(lowerBound self.mDBusModbusMap address).drop (i + 1), ?_⟩
  rw [hnew, hst, drop_of_getElem_some _ _ _ (hcur i hi)]

/-- C19. Writes are not atomic across entries. Take a write request of `n` registers over a
register table in key order that has entries of size 1 at the addresses of the registers 0
to `k`, where `k < n`; let the unit id and the service resolve, `registerCount()` be 1 at
each of these registers, the payload word of each of them convert to a valid value, and the
backend accept `setValue` for the registers below `k` and refuse it for register `k`. Then
`setValues` completes the request, once, with `ServiceError` and the text
`SetValue failed on` the path of register `k`; the calls of `setValue` it has made are those
for the registers 0 to `k`, in this order, each with the conversion of its payload word, so
none is made for a register after `k`; every register below `k` whose property is not
written again by a later register below `k` holds the conversion of its payload word; and
that conversion is `convertToDbus` of the word as `qint16` or `quint16`. The access rights
play no part in `setValues`, and what lies after register `k` in the table does not
either. -/
theorem setValues_not_atomic (ext : Externals) (self : State) (request : MappingRequest)
    (n k : Nat) (e : Nat → DBusModbusData) (di : Int) (root : Nat)
    (hn : request.quantity = n) (hk : k < n)
    (hs : self.mDBusModbusMap.Pairwise (fun a b => a.1 < b.1))
    (hmem : ∀ i, i ≤ k → (request.address + i, e i) ∈ self.mDBusModbusMap)
    (hsize : ∀ i, i ≤ k → (e i).size = 1)
    (hunit : DataIterator.deviceInstance self.mUnitIDMap request.unitId = some di)
    (hsvc : self.mServices.getService (e 0).deviceType di = some root)
    (hrc : ∀ i, i ≤ k → ext.registerCount
      ((DataIterator.new self request.address request.unitId request.quantity).steps i) = 1)
    (hvalid : ∀ i, i ≤ k → encodeRegister (e i) (payloadWord request.data (2 * i)) ≠ .invalid)
    (hok : ∀ i, i < k → self.mServices.setValueResult
      { root := root, objectPath := (e i).objectPath }
      (encodeRegister (e i) (payloadWord request.data (2 * i))) = 0)
    (hfail : self.mServices.setValueResult { root := root, objectPath := (e k).objectPath }
      (encodeRegister (e k) (payloadWord request.data (2 * k))) ≠ 0) :
    ∃ s, setValues ext self request = some s ∧
      s.requestCompleted = self.requestCompleted ++
        [request.setError .ServiceError ("SetValue failed on " ++ (e k).objectPath)] ∧
      s.mServices.setValueCalls = self.mServices.setValueCalls ++
        (List.range (k + 1)).map (fun i =>
          (({ root := root, objectPath := (e i).objectPath } : VeQItem),
            encodeRegister (e i) (payloadWord request.data (2 * i)))) ∧
      (∀ i, i < k → (∀ i2, i < i2 → i2 < k → (e i2).objectPath ≠ (e i).objectPath) →
        s.mServices.value { root := root, objectPath := (e i).objectPath } =
          encodeRegister (e i) (payloadWord request.data (2 * i))) ∧
      (∀ i, i ≤ k →
        ((e i).modbusType = .mb_type_int16 ∧
          encodeRegister (e i) (payloadWord request.data (2 * i)) =
            convertToDbus (e i).dbusType (toSigned 16 (payloadWord request.data (2 * i)))
              (e i).scaleFactor) ∨
        ((e i).modbusType = .mb_type_uint16 ∧
          encodeRegister (e i) (payloadWord request.data (2 * i)) =
            convertToDbus (e i).dbusType (toUnsigned 16 (payloadWord request.data (2 * i)))
              (e i).scaleFactor)) := by
  have hq : (k : Int) < request.quantity := by rw [hn]; exact_mod_cast hk
  have hsteps := new_run_steps self request.address request.unitId request.quantity di e root
    k hq hs hmem hsize hunit hsvc
  have hloop := setValuesLoop_fails_at ext request.data k request.quantity.toNat
    (DataIterator.new self request.address request.unitId request.quantity) self.mServices
    (fun i => { root := root, objectPath := (e i).objectPath }) e (fun i => 2 * i)
    (fun i => encodeRegister (e i) (payloadWord request.data (2 * i)))
    (by rw [hn]; simpa using hk)
    (fun i hi => by
      obtain ⟨rest, hst⟩ := hsteps i hi
      have hrci := hrc i hi
      rw [hst] at hrci ⊢
      refine ⟨rfl, rfl, by simp [DataIterator.data], fun current => ?_⟩
      exact setValuesEntry_single ext request.data _ (e i) current (2 * i) (hsize i hi) rfl
        hrci)
    hvalid hok hfail
  simp only [Nat.mul_zero] at hloop
  have hset : setValues ext self request =
      some (State.emitRequestCompleted
        { self with
          mServices := self.mServices.afterCalls ((List.range (k + 1)).map (fun i =>
            (({ root := root, objectPath := (e i).objectPath } : VeQItem),
              encodeRegister (e i) (payloadWord request.data (2 * i))))) }
        (request.setError .ServiceError ("SetValue failed on " ++ (e k).objectPath))) := by
    unfold setValues
    simp only [hloop]
  refine ⟨_, hset, rfl, ?_, ?_, ?_⟩
  · exact (afterCalls_fields _ _).2.2
  · intro i hi hlater
    apply afterCalls_value _ _ _ _ i
    · rw [range_map_get]; simp [Nat.le_of_lt hi]
    · exact hok i hi
    · intro i2 y u h1 h2
      rw [range_map_get] at h2
      by_cases h3 : i2 ≤ k
      · simp only [h3, if_true, Option.some.injEq, Prod.mk.injEq] at h2
        obtain ⟨rfl, rfl⟩ := h2
        rcases Nat.lt_or_eq_of_le h3 with h4 | h4
        · left
          intro hcon
          exact hlater i2 h1 h4 (congrArg VeQItem.objectPath hcon)
        · right
          subst h4
          exact hfail
      · simp [h3] at h2
  · intro i hi
    have hv := hvalid i hi
    unfold encodeRegister at hv ⊢
    cases hm : (e i).modbusType <;> simp only [hm] at hv ⊢ <;> simp at hv ⊢

/-- Witness of `setValues_not_atomic`: the words 1, 2 and 3 written to the registers 10, 11
and 12 of `writableRunMap`, the backend refusing the second one. -/
theorem setValues_not_atomic_witness :
    (writeRunRequest.quantity = (3 : Nat) ∧ 1 < 3 ∧
      rejectingState.mDBusModbusMap.Pairwise (fun a b => a.1 < b.1) ∧
      (∀ i : Nat, i ≤ 1 →
        (writeRunRequest.address + i, writableRunEntry i) ∈ rejectingState.mDBusModbusMap) ∧
      (∀ i, i ≤ 1 → (writableRunEntry i).size = 1) ∧
      DataIterator.deviceInstance rejectingState.mUnitIDMap writeRunRequest.unitId = some 5 ∧
      rejectingState.mServices.getService (writableRunEntry 0).deviceType 5 = some 0 ∧
      (∀ i, i ≤ 1 → signedCharExt.registerCount
        ((DataIterator.new rejectingState writeRunRequest.address writeRunRequest.unitId
          writeRunRequest.quantity).steps i) = 1) ∧
      (∀ i : Nat, i ≤ 1 →
        encodeRegister (writableRunEntry i) (payloadWord writeRunRequest.data (2 * i)) ≠
          .invalid) ∧
      (∀ i, i < 1 → rejectingState.mServices.setValueResult
        { root := 0, objectPath := (writableRunEntry i).objectPath }
        (encodeRegister (writableRunEntry i) (payloadWord writeRunRequest.data (2 * i))) =
          0) ∧
      rejectingState.mServices.setValueResult
        { root := 0, objectPath := (writableRunEntry 1).objectPath }
        (encodeRegister (writableRunEntry 1) (payloadWord writeRunRequest.data (2 * 1))) ≠
          0) ∧
    ∃ s, setValues signedCharExt rejectingState writeRunRequest = some s ∧
      s.requestCompleted =
        [writeRunRequest.setError .ServiceError "SetValue failed on /Dc/0/Current"] ∧
      s.mServices.setValueCalls.length = 2 ∧
      s.mServices.value { root := 0, objectPath := "/Dc/0/Voltage" } =
        encodeRegister (writableRunEntry 0) 1 := by
  have h1 : writeRunRequest.quantity = (3 : Nat) := rfl
  have h2 : rejectingState.mDBusModbusMap.Pairwise (fun a b => a.1 < b.1) := by
    simp [rejectingState, writableRunMap]
  have h3 : ∀ i : Nat, i ≤ 1 →
      (writeRunRequest.address + i, writableRunEntry i) ∈ rejectingState.mDBusModbusMap := by
    intro i hi
    interval_cases i <;>
      simp [writeRunRequest, exampleRequest, rejectingState, writableRunMap, writableRunEntry]
  have h4 : ∀ i, i ≤ 1 → (writableRunEntry i).size = 1 := by
    intro i hi
    interval_cases i <;> rfl
  have h5 : DataIterator.deviceInstance rejectingState.mUnitIDMap writeRunRequest.unitId =
      some 5 := by decide
  have h6 : rejectingState.mServices.getService (writableRunEntry 0).deviceType 5 = some 0 :=
    rfl
  have h7 : ∀ i, i ≤ 1 → signedCharExt.registerCount
      ((DataIterator.new rejectingState writeRunRequest.address writeRunRequest.unitId
        writeRunRequest.quantity).steps i) = 1 := by
    intro i hi
    interval_cases i <;> rfl
  have h8 : ∀ i, i ≤ 1 →
      encodeRegister (writableRunEntry i) (payloadWord writeRunRequest.data (2 * i)) ≠
        .invalid := by
    intro i hi
    interval_cases i <;> simp [writableRunEntry, exampleEntry, encodeRegister, convertToDbus]
  have h9 : ∀ i, i < 1 → rejectingState.mServices.setValueResult
      { root := 0, objectPath := (writableRunEntry i).objectPath }
      (encodeRegister (writableRunEntry i) (payloadWord writeRunRequest.data (2 * i))) =
        0 := by
    intro i hi
    interval_cases i
    simp [rejectingState, writableRunEntry, exampleEntry]
  have h10 : rejectingState.mServices.setValueResult
      { root := 0, objectPath := (writableRunEntry 1).objectPath }
      (encodeRegister (writableRunEntry 1) (payloadWord writeRunRequest.data (2 * 1))) ≠
        0 := by
    simp [rejectingState, writableRunEntry, exampleEntry]
  obtain ⟨s, e1, e2, e3, e4, _⟩ := setValues_not_atomic signedCharExt rejectingState
    writeRunRequest 3 1 writableRunEntry 5 0 h1 (by decide) h2 h3 h4 h5 h6 h7 h8 h9 h10
  refine ⟨⟨h1, by decide, h2, h3, h4, h5, h6, h7, h8, h9, h10⟩, s, e1, ?_, ?_, ?_⟩
  · rw [e2]; rfl
  · rw [e3]; rfl
  · have := e4 0 (by decide) (fun i2 a b => absurd b (by omega))
    rw [show (writableRunEntry 0).objectPath = "/Dc/0/Voltage" from rfl] at this
    rw [this]
    rfl

end Mappings
